import Mathlib

/-! # MiniSQL (miniqlite): storage engine and persistence codec

A shallow embedding of `src/src/executer.c`, `src/storage.c` and
`src/parcer.c`, and the properties of the specification that concern them.

Conventions of the embedding

* A C string is the list of the characters that precede its terminating NUL
  (`CStr`).  A byte of a file is a `Char` as well; a file is a list of them,
  and `fopen` is the choice between `some` content and `none`.
* A `char*` that may be `NULL` is an `Option CStr`.
* An array that is addressed through a pointer and a separate counter is a
  list; a read of a slot outside the list is undefined behaviour in C and is
  the result `none` here.  Every function that can run into such a read
  returns an `Option`.
* `num_tables` and `num_columns` always equal the number of allocated slots of
  `tables` and `columns` in the source, so they are the lengths of the lists,
  and a pointer passed with its element count is a list.  `num_rows` is a
  field of its own: the column-major insert path increments it without
  growing `rows`.
* `malloc`, `calloc` and `realloc` return memory whenever the requested size
  is not negative (also when it is zero); a negative element count makes the
  size wrap to a huge value and the allocation fails.  Writes to a file that
  was opened succeed.
* Memory is not released in the model, but the reads that `free_table` makes
  of the rows it releases are reads like any other.
* The messages that `create_table`, `drop_table` and `insert_row` print are
  not part of the model; the text that the select operations, `delete_where_eq`
  and `update_where_eq` write to standard output is.
-/

namespace MiniSQL

/-! ## Data model (`miniqlite.h`) -/

abbrev CStr := List Char

/-- The constant `MAX_NAME_LEN`. -/
def MAX_NAME_LEN : Nat := 64

inductive ColumnType where
  | COL_INT
  | COL_TEXT
  | COL_FLOAT
deriving DecidableEq

structure ColumnStorage where
  name : CStr
  type : ColumnType
  values : List (Option CStr)
deriving DecidableEq

structure ColumnDef where
  name : CStr
  type : ColumnType
deriving DecidableEq

structure Row where
  values : List (Option CStr)
deriving DecidableEq

structure Table where
  name : CStr
  columns : List ColumnDef
  num_rows : Nat
  rows : List Row
  column_data : List ColumnStorage
deriving DecidableEq

structure Database where
  tables : List Table
  binary_mode : Int
  column_store : Int
deriving DecidableEq

/-- The field `num_columns` of a table. -/
def Table.num_columns (t : Table) : Nat := t.columns.length

/-- The field `num_tables` of a database. -/
def Database.num_tables (db : Database) : Nat := db.tables.length

/-! ## Arrays and loops -/

/-- The effect of `strncpy(dst, src, n)` into a zeroed buffer of `n + 1` bytes. -/
def strncpy (src : CStr) (n : Nat) : CStr := src.take n

/-- Index of the first element satisfying `p`: the shape of the linear scans
of `find_table` and `column_index`. -/
def find_index {α : Type} (p : α → Bool) : List α → Option Nat
  | [] => none
  | x :: xs => if p x then some 0 else (find_index p xs).map (· + 1)

/-- The array after `realloc(arr, n + 1)` seen through its first `n` slots:
slots that were never written hold the filler. -/
def resize {α : Type} (xs : List α) (n : Nat) (fill : α) : List α :=
  (xs ++ List.replicate (n - xs.length) fill).take n

/-- Read the first `n` slots of an array; a slot outside the allocation is a
fault. -/
def read_slots {α : Type} (xs : List α) (n : Nat) : Option (List α) :=
  if n ≤ xs.length then some (xs.take n) else none

/-- A loop that runs `f` on every element in order and collects the results;
a fault in one iteration is a fault of the loop. -/
def for_each {α β : Type} (f : α → Option β) : List α → Option (List β)
  | [] => some []
  | x :: xs =>
    match f x with
    | none => none
    | some y => (for_each f xs).map (y :: ·)

/-! ### Strings, streams and scanning (`string.h`, `stdio.h`) -/

/-- The terminator of a C string. -/
def NUL : Char := Char.ofNat 0

/-- The C string held by a buffer: the characters before the first NUL. -/
def c_str (buf : List Char) : CStr := buf.takeWhile (· != NUL)

/-- The test `strncmp(a, b, n) == 0`. -/
def strncmp_eq (a b : CStr) (n : Nat) : Bool := a.take n == b.take n

/-- The result of `strchr(s, c)`, as the text from the first `c` on. -/
def strchr (s : CStr) (c : Char) : Option CStr :=
  match s.dropWhile (· != c) with
  | [] => none
  | p => some p

/-- The characters `fgets` stores when the buffer has room for `n` of them,
and the rest of the stream: reading stops after a newline. -/
def fgets_chars : Nat → List Char → List Char × List Char
  | 0, f => ([], f)
  | _ + 1, [] => ([], [])
  | n + 1, c :: f =>
    if c = '\n' then ([c], f)
    else ((c :: (fgets_chars n f).1), (fgets_chars n f).2)

/-- The call `fgets(line, size, f)`: `none` is the `NULL` returned at end of
file, otherwise the characters stored and the rest of the stream. -/
def fgets (size : Nat) (f : List Char) : Option (List Char × List Char) :=
  match f with
  | [] => none
  | _ :: _ => some (fgets_chars (size - 1) f)

/-- The function `isspace` in the C locale. -/
def isspace (c : Char) : Bool :=
  c == ' ' || c == '\t' || c == '\n' || c == '\x0b' || c == '\x0c' || c == '\r'

def isdigit (c : Char) : Bool := decide ('0' ≤ c ∧ c ≤ '9')

/-- The number written by a run of decimal digits. -/
def digits_value (ds : List Char) : Nat :=
  ds.foldl (fun acc c => acc * 10 + (c.toNat - 48)) 0

/-- The conversion of a scanned number to `int`: the library saturates at the
range of `long` and the store keeps the low 32 bits. -/
def to_int (v : Int) : Int :=
  (max (-(2 ^ 63)) (min v (2 ^ 63 - 1)) + 2 ^ 31) % 2 ^ 32 - 2 ^ 31

/-- The unsigned part of a `%d` conversion: at least one digit is needed. -/
def scan_digits (s : List Char) : Option (Nat × List Char) :=
  match s.takeWhile isdigit with
  | [] => none
  | ds => some (digits_value ds, s.dropWhile isdigit)

/-- The conversion `%d` at the text `s` (leading white space already skipped). -/
def scan_int (s : List Char) : Option (Int × List Char) :=
  match s with
  | '-' :: s' => (scan_digits s').map fun r => (to_int (-(r.1 : Int)), r.2)
  | '+' :: s' => (scan_digits s').map fun r => (to_int r.1, r.2)
  | _ => (scan_digits s).map fun r => (to_int r.1, r.2)

/-- The conversion `%Ns` at the text `s` (leading white space already
skipped): at most `width` characters that are not white space, at least one. -/
def scan_str (width : Nat) (s : List Char) : Option (CStr × List Char) :=
  match (s.takeWhile (fun c => !isspace c)).take width with
  | [] => none
  | w => some (w, s.drop w.length)

/-- The directives of a `scanf` format. -/
inductive Directive where
  | lit (c : Char)
  | space
  | int
  | str (width : Nat)

/-- A value stored by a conversion. -/
inductive ScanVal where
  | int (v : Int)
  | str (s : CStr)
deriving DecidableEq

/-- The call `sscanf(s, format, ...)`: the values stored, in order, up to the
first directive that fails.  The count that `sscanf` returns is the length of
the list when it is positive; the callers only compare it with the number of
conversions of the format. -/
def sscanf : List Char → List Directive → List ScanVal
  | _, [] => []
  | s, .lit c :: ds =>
    match s with
    | [] => []
    | x :: s' => if x = c then sscanf s' ds else []
  | s, .space :: ds => sscanf (s.dropWhile isspace) ds
  | s, .int :: ds =>
    match scan_int (s.dropWhile isspace) with
    | none => []
    | some (v, s') => .int v :: sscanf s' ds
  | s, .str w :: ds =>
    match scan_str w (s.dropWhile isspace) with
    | none => []
    | some (v, s') => .str v :: sscanf s' ds

/-- The ordinary characters of a format. -/
def lits (s : String) : List Directive := s.toList.map .lit

/-- The decimal digits of `n`, most significant first. -/
def dec_digits : Nat → Nat → List Char
  | 0, _ => []
  | fuel + 1, n =>
    if n < 10 then [Char.ofNat (48 + n)]
    else dec_digits fuel (n / 10) ++ [Char.ofNat (48 + n % 10)]

/-- The text printed by `%d`. -/
def fmt_d (v : Int) : List Char :=
  if v < 0 then '-' :: dec_digits (v.natAbs + 1) v.natAbs
  else dec_digits (v.natAbs + 1) v.natAbs

/-! ## `executer.c` -/

def tolower (c : Char) : Char :=
  if 'A' ≤ c ∧ c ≤ 'Z' then Char.ofNat (c.toNat + 32) else c

/-- The test `strcasecmp(a, b) == 0`. -/
def strcasecmp_eq (a b : CStr) : Bool := a.map tolower == b.map tolower

def parse_column_type (s : Option CStr) : ColumnType :=
  match s with
  | none => .COL_TEXT
  | some s =>
    if strcasecmp_eq s "INT".toList || strcasecmp_eq s "INTEGER".toList then .COL_INT
    else if strcasecmp_eq s "TEXT".toList then .COL_TEXT
    else if strcasecmp_eq s "FLOAT".toList || strcasecmp_eq s "REAL".toList then .COL_FLOAT
    else .COL_TEXT

def column_type_to_string : ColumnType → CStr
  | .COL_INT => "INT".toList
  | .COL_TEXT => "TEXT".toList
  | .COL_FLOAT => "FLOAT".toList

def init_database (db : Database) : Database :=
  { db with tables := [] }

/-- The function `free_table`: it walks `rows[0 .. num_rows - 1]` and the
`num_columns` cells of each of these rows to release them, so a row slot or a
cell slot that does not exist is a fault.  The name and the column stores are
not touched. -/
def free_table (t : Table) : Option Table := do
  let rows ← read_slots t.rows t.num_rows
  let _ ← for_each (fun r : Row => read_slots r.values t.num_columns) rows
  pure { t with columns := [], rows := [], num_rows := 0 }

def free_database (db : Database) : Option Database := do
  let _ ← for_each free_table db.tables
  pure { db with tables := [] }

/-- The table found by `find_table`, as its index in `db->tables`. -/
def find_table (db : Database) (name : CStr) : Option Nat :=
  find_index (fun t => t.name == name) db.tables

/-- The result of `column_index`; `none` stands for `-1`. -/
def column_index (t : Table) (name : CStr) : Option Nat :=
  find_index (fun c => c.name == name) t.columns

/-- The table that `create_table` writes into the new slot. -/
def new_table (name : CStr) (cols : List ColumnDef) : Table :=
  { name := strncpy name (MAX_NAME_LEN - 1)
    columns := cols
    num_rows := 0
    rows := []
    column_data := cols.map fun c =>
      { name := strncpy c.name (MAX_NAME_LEN - 1), type := c.type, values := [] } }

def create_table (db : Database) (name : CStr) (cols : List ColumnDef) : Int × Database :=
  if (find_table db name).isSome then (0, db)
  else (1, { db with tables := db.tables ++ [new_table name cols] })

/-- A row slot that was allocated and never written: no cell of it can be read.
In a table with at least one column every read of the slot is a fault.  In a
table without columns the slot is not told apart from a written row, which
has no cell either: the test of the slot's uninitialised `values` pointer in
`free_table` is a fault that the model does not show for such a table. -/
def garbage_row : Row := ⟨[]⟩

/-- The row-major branch of `insert_row` on the table found. -/
def insert_row_major (t : Table) (values : List (Option CStr)) : Table :=
  { t with
    rows := resize t.rows t.num_rows garbage_row ++ [⟨values⟩]
    num_rows := t.num_rows + 1 }

/-- The column-major branch of `insert_row` on the table found: column `i`
receives `values[i]` in slot `num_rows`. -/
def insert_column_major (t : Table) (values : List (Option CStr)) : Option Table := do
  let cds ← read_slots t.column_data t.num_columns
  let cds' := List.zipWith
    (fun (col : ColumnStorage) v => { col with values := resize col.values t.num_rows none ++ [v] })
    cds values
  pure { t with
    column_data := cds' ++ t.column_data.drop t.num_columns
    num_rows := t.num_rows + 1 }

def insert_row (db : Database) (table_name : CStr) (values : List (Option CStr)) :
    Option (Int × Database) :=
  match find_table db table_name with
  | none => some (0, db)
  | some i =>
    match db.tables[i]? with
    | none => none
    | some t =>
      if values.length ≠ t.num_columns then some (0, db)
      else if db.column_store = 0 then
        some (1, { db with tables := db.tables.set i (insert_row_major t values) })
      else do
        let t' ← insert_column_major t values
        pure (1, { db with tables := db.tables.set i t' })

/-! ### SELECT -/

/-- What a select leaves behind: the value returned (`none` when the function
leaves through `return;` and the value is indeterminate) and the text written
to standard output. -/
structure SelectResult where
  ret : Option Int
  out : List Char
deriving DecidableEq

/-- The characters printed by the loop shared by `print_header` and
`print_row`: the fields separated by `" | "`, then a newline. -/
def print_fields (fields : List CStr) : List Char :=
  " | ".toList.intercalate fields ++ ['\n']

def print_header (t : Table) (cols : List Nat) : Option (List Char) := do
  let names ← for_each (fun idx => (t.columns[idx]?).map (·.name)) cols
  pure (print_fields names)

def print_row (r : Row) (cols : List Nat) : Option (List Char) := do
  let cells ← for_each (fun idx => (r.values[idx]?).map (·.getD "NULL".toList)) cols
  pure (print_fields cells)

/-- One line of the column-major path of `select_all`: every cell of row `r`
followed by a tab.  The cell is handed to `%s` unchecked, so a `NULL` cell is
a fault like a slot outside the allocation. -/
def print_column_major_row (t : Table) (r : Nat) : Option (List Char) := do
  let cds ← read_slots t.column_data t.num_columns
  let cells ← for_each (fun col => (col.values[r]?).join) cds
  pure ((cells.map (· ++ ['\t'])).flatten ++ ['\n'])

def table_not_found (table_name : CStr) : List Char :=
  "Error: table '".toList ++ table_name ++ "' not found.\n".toList

def select_all (db : Database) (table_name : CStr) : Option SelectResult :=
  match find_table db table_name with
  | none => some ⟨some 0, table_not_found table_name⟩
  | some i =>
    match db.tables[i]? with
    | none => none
    | some t =>
      if db.column_store = 1 then do
        let lines ← for_each (print_column_major_row t) (List.range t.num_rows)
        pure ⟨none, lines.flatten⟩
      else do
        let cols := List.range t.num_columns
        let header ← print_header t cols
        let rows ← read_slots t.rows t.num_rows
        let lines ← for_each (fun r => print_row r cols) rows
        pure ⟨some 1, header ++ lines.flatten⟩

/-- The loop that resolves the requested column names: the positions, or the
first name that `column_index` does not find. -/
def resolve_columns (t : Table) : List CStr → Except CStr (List Nat)
  | [] => .ok []
  | c :: cs =>
    match column_index t c with
    | none => .error c
    | some idx =>
      match resolve_columns t cs with
      | .error e => .error e
      | .ok idxs => .ok (idx :: idxs)

/-- The test `v && strcmp(v, where_val) == 0`. -/
def cell_matches (v : Option CStr) (where_val : CStr) : Bool :=
  match v with
  | none => false
  | some s => s == where_val

/-- The scan of `select_where_eq` over the rows: a row is printed when its
cell at `where_idx` matches. -/
def print_matching_rows (rows : List Row) (where_idx : Nat) (where_val : CStr)
    (idxs : List Nat) : Option (List Char) :=
  match rows with
  | [] => some []
  | r :: rs => do
    let v ← r.values[where_idx]?
    let line ← if cell_matches v where_val then print_row r idxs else pure []
    let rest ← print_matching_rows rs where_idx where_val idxs
    pure (line ++ rest)

def select_where_eq (db : Database) (table_name : CStr) (cols : List CStr)
    (where_col where_val : CStr) : Option SelectResult :=
  if db.column_store = 1 then
    -- The column-major block declares `int where_col` and initialises it from
    -- itself: once the table is found an indeterminate value is read.
    match find_table db table_name with
    | none => some ⟨none, []⟩
    | some _ => none
  else
    match find_table db table_name with
    | none => some ⟨some 0, table_not_found table_name⟩
    | some i =>
      match db.tables[i]? with
      | none => none
      | some t =>
        match column_index t where_col with
        | none =>
          some ⟨some 0, "Error: unknown column '".toList ++ where_col ++ "' in WHERE.\n".toList⟩
        | some where_idx =>
          match resolve_columns t cols with
          | .error c => some ⟨some 0, "Error: unknown column '".toList ++ c ++ "'.\n".toList⟩
          | .ok idxs => do
            let header ← print_header t idxs
            let rows ← read_slots t.rows t.num_rows
            let lines ← print_matching_rows rows where_idx where_val idxs
            pure ⟨some 1, header ++ lines⟩

/-! ## `storage.c` -/

/-- The bytes of an `int` in memory (four bytes, least significant first). -/
def int_bytes (v : Int) : List Char :=
  let u := (v % 2 ^ 32).toNat
  [Char.ofNat (u % 256), Char.ofNat (u / 256 % 256),
   Char.ofNat (u / 65536 % 256), Char.ofNat (u / 16777216 % 256)]

/-- A name copied with `strncpy` into a zeroed block of `MAX_NAME_LEN` bytes. -/
def name_block (name : CStr) : List Char :=
  strncpy name (MAX_NAME_LEN - 1) ++
    List.replicate (MAX_NAME_LEN - (strncpy name (MAX_NAME_LEN - 1)).length) NUL

/-- The value of the enumerator. -/
def ColumnType.toInt : ColumnType → Int
  | .COL_INT => 0
  | .COL_TEXT => 1
  | .COL_FLOAT => 2

/-- The conversion `(int)` of a `size_t`: the low 32 bits, read as a signed
number. -/
def int_cast (n : Nat) : Int := ((n : Int) + 2 ^ 31) % 2 ^ 32 - 2 ^ 31

/-- The bytes `save_table_binary` writes for one cell (`NULL` counts as the
empty string): `len = (int)strlen(val)`, then `len` bytes of the value when
`len > 0`. -/
def cell_bytes (v : Option CStr) : List Char :=
  int_bytes (int_cast (v.getD []).length) ++
    (if int_cast (v.getD []).length > 0 then (v.getD []).take (int_cast (v.getD []).length).toNat
     else [])

/-- The bytes `save_table_binary` writes (every `fwrite` succeeding). -/
def save_table_binary (t : Table) : Option (List Char) := do
  let rows ← read_slots t.rows t.num_rows
  let cells ← for_each (fun r => do
      let vals ← read_slots r.values t.num_columns
      pure (vals.map cell_bytes).flatten) rows
  pure (name_block t.name ++ int_bytes t.num_columns ++
    (t.columns.map fun c => name_block c.name ++ int_bytes c.type.toInt).flatten ++
    int_bytes t.num_rows ++ cells.flatten)

/-- The lines the text branch of `save_database` writes for one table. -/
def save_table_text (t : Table) : Option (List Char) := do
  let rows ← read_slots t.rows t.num_rows
  let lines ← for_each (fun r => do
      let vals ← read_slots r.values t.num_columns
      pure ("ROW".toList ++ (vals.map fun v => '\t' :: v.getD []).flatten ++ ['\n'])) rows
  pure ("TABLE ".toList ++ t.name ++ [' '] ++ fmt_d t.num_columns ++ [' '] ++
    fmt_d t.num_rows ++ ['\n'] ++
    (t.columns.map fun c =>
      "COLUMN ".toList ++ c.name ++ [' '] ++ column_type_to_string c.type ++ ['\n']).flatten ++
    lines.flatten)

/-- The outcome of `save_database`: the value returned and the bytes written
to the file (`none` when the file could not be opened). -/
structure SaveResult where
  ret : Int
  written : Option (List Char)
deriving DecidableEq

def save_database (db : Database) (opened : Bool) : Option SaveResult :=
  if !opened then some ⟨0, none⟩
  else do
    let blobs ← for_each
      (fun t => if db.binary_mode ≠ 0 then save_table_binary t else save_table_text t) db.tables
    pure ⟨1, some ("MINIQLITE 1\n".toList ++ "TABLE_COUNT ".toList ++ fmt_d db.num_tables ++
      ['\n'] ++ blobs.flatten)⟩

/-- The format `"TABLE_COUNT %d"`. -/
def fmt_table_count : List Directive := lits "TABLE_COUNT" ++ [.space, .int]

/-- The format `"TABLE %63s %d %d"`. -/
def fmt_table : List Directive := lits "TABLE" ++ [.space, .str 63, .space, .int, .space, .int]

/-- The format `"COLUMN %63s %31s"`. -/
def fmt_column : List Directive := lits "COLUMN" ++ [.space, .str 63, .space, .str 31]

/-- The loop of `load_database` that reads the `COLUMN` lines; `none` is the
`return 0` of a missing or malformed line. -/
def load_columns : Nat → List Char → Option (List ColumnDef × List Char)
  | 0, f => some ([], f)
  | n + 1, f =>
    match fgets 1024 f with
    | none => none
    | some (buf, f') =>
      match sscanf (c_str buf) fmt_column with
      | [.str colname, .str typestr] =>
        match load_columns n f' with
        | none => none
        | some (cols, f'') =>
          some (⟨strncpy colname (MAX_NAME_LEN - 1), parse_column_type (some typestr)⟩ :: cols, f'')
      | _ => none

/-- The inner `while (vc < num_cols)` loop over a `ROW` line, `k` values still
to be read from the text `p`. -/
def read_row_values : Nat → CStr → List CStr
  | 0, _ => []
  | k + 1, p =>
    match strchr p '\t' with
    | none => [p.takeWhile (· != '\n')]
    | some e => p.takeWhile (· != '\t') :: read_row_values k (e.drop 1)

/-- The values handed to `insert_row` for a `ROW` line: the fields after the
first tab, then empty strings up to `num_cols`. -/
def parse_row_line (line : CStr) (num_cols : Nat) : List CStr :=
  let vals :=
    match strchr line '\t' with
    | none => []
    | some p => read_row_values num_cols (p.drop 1)
  vals ++ List.replicate (num_cols - vals.length) []

/-- The loop of `load_database` that reads the `ROW` lines of one table.  The
flag is false when the function returns 0 from inside the loop. -/
def load_rows : Nat → Database → CStr → Nat → List Char → Option (Bool × Database × List Char)
  | 0, db, _, _, f => some (true, db, f)
  | n + 1, db, tname, num_cols, f =>
    match fgets 1024 f with
    | none => some (false, db, f)
    | some (buf, f') =>
      if !strncmp_eq (c_str buf) "ROW".toList 3 then some (false, db, f')
      else
        match insert_row db tname ((parse_row_line (c_str buf) num_cols).map some) with
        | none => none
        | some r => load_rows n r.2 tname num_cols f'

/-- The outcome of `load_database`: the value returned and the database left
behind. -/
structure LoadResult where
  ret : Int
  db : Database
deriving DecidableEq

/-- The loop of `load_database` over the announced tables. -/
def load_tables : Nat → Database → List Char → Option LoadResult
  | 0, db, _ => some ⟨1, db⟩
  | n + 1, db, f =>
    match fgets 1024 f with
    | none => some ⟨1, db⟩
    | some (buf, f1) =>
      match sscanf (c_str buf) fmt_table with
      | [.str tname, .int num_cols, .int num_rows] =>
        if num_cols < 0 then some ⟨0, db⟩
        else
          match load_columns num_cols.toNat f1 with
          | none => some ⟨0, db⟩
          | some (cols, f2) =>
            let db1 := (create_table db tname cols).2
            match find_table db1 tname with
            | none => some ⟨0, db1⟩
            | some _ =>
              match load_rows num_rows.toNat db1 tname num_cols.toNat f2 with
              | none => none
              | some (false, db2, _) => some ⟨0, db2⟩
              | some (true, db2, f3) => load_tables n db2 f3
      | _ => some ⟨1, db⟩

/-- The function `load_database`; `file` is the content of the file, `none`
when `fopen` fails. -/
def load_database (db : Database) (file : Option (List Char)) : Option LoadResult :=
  match file with
  | none => some ⟨0, db⟩
  | some f =>
    match free_database db with
    | none => none
    | some freed =>
      let db0 := init_database freed
      match fgets 1024 f with
      | none => some ⟨0, db0⟩
      | some (buf, f1) =>
        if !strncmp_eq (c_str buf) "MINIQLITE".toList 9 then some ⟨0, db0⟩
        else
          match fgets 1024 f1 with
          | none => some ⟨0, db0⟩
          | some (buf2, f2) =>
            match sscanf (c_str buf2) fmt_table_count with
            | [.int table_count] => load_tables table_count.toNat db0 f2
            | _ => some ⟨0, db0⟩


/-! ## `executer.c`: projection, delete, update, drop -/

/-- Modelled from the spec: the helper `find_column_index`, which the
column-major blocks of `select_columns` and `select_where_eq` call and which
the repository does not define.  Section 4.2 of the specification: a select
"resolves each requested column name to a position via case-sensitive
exact-match lookup against the table's column list (first match)".  `none`
stands for a negative result. -/
def find_column_index (t : Table) (name : CStr) : Option Nat :=
  find_index (fun c => c.name == name) t.columns

/-- The loop of the column-major block of `select_columns` that locates the
requested columns: the positions, or the first name not found. -/
def locate_columns (t : Table) : List CStr → Except CStr (List Nat)
  | [] => .ok []
  | c :: cs =>
    match find_column_index t c with
    | none => .error c
    | some idx =>
      match locate_columns t cs with
      | .error e => .error e
      | .ok idxs => .ok (idx :: idxs)

/-- One line of the column-major block of `select_columns`: for each located
column the cell of row `r`, followed by a tab.  The cell is handed to `%s`
unchecked. -/
def print_located_row (t : Table) (col_idx : List Nat) (r : Nat) : Option (List Char) := do
  let cells ← for_each
    (fun idx => ((t.column_data[idx]?).bind fun col => col.values[r]?).join) col_idx
  pure ((cells.map (· ++ ['\t'])).flatten ++ ['\n'])

def select_columns (db : Database) (table_name : CStr) (cols : List CStr) :
    Option SelectResult :=
  match find_table db table_name with
  | none => some ⟨some 0, table_not_found table_name⟩
  | some i =>
    match db.tables[i]? with
    | none => none
    | some t =>
      if db.column_store = 1 then
        -- The header is printed first, the columns are located afterwards.
        let header := (cols.map (· ++ ['\t'])).flatten ++ ['\n']
        match locate_columns t cols with
        | .error c => some ⟨none, header ++ "Unknown column: ".toList ++ c ++ ['\n']⟩
        | .ok col_idx => do
          let lines ← for_each (print_located_row t col_idx) (List.range t.num_rows)
          pure ⟨none, header ++ lines.flatten⟩
      else
        match resolve_columns t cols with
        | .error c => some ⟨some 0, "Error: unknown column '".toList ++ c ++ "'.\n".toList⟩
        | .ok idxs => do
          let header ← print_header t idxs
          let rows ← read_slots t.rows t.num_rows
          let lines ← for_each (fun r => print_row r idxs) rows
          pure ⟨some 1, header ++ lines.flatten⟩

/-- What `delete_where_eq` and `update_where_eq` leave behind: the value
returned, the text written to standard output and the database. -/
structure WriteResult where
  ret : Int
  out : List Char
  db : Database
deriving DecidableEq

/-- The loop of `delete_where_eq`.  The array is `kept ++ rest` and the index
`r` is the length of `kept`: a row that matches is released (its cells are
walked) and the rows after it move down one slot, a row that does not match
is stepped over.  The result is the array up to the new `num_rows` and the
number of rows removed. -/
def delete_loop (num_columns where_idx : Nat) (where_val : CStr) :
    List Row → List Row → Nat → Option (List Row × Nat)
  | kept, [], removed => some (kept, removed)
  | kept, row :: rest, removed =>
    match row.values[where_idx]? with
    | none => none
    | some v =>
      if cell_matches v where_val then
        match read_slots row.values num_columns with
        | none => none
        | some _ => delete_loop num_columns where_idx where_val kept rest (removed + 1)
      else delete_loop num_columns where_idx where_val (kept ++ [row]) rest removed

def delete_where_eq (db : Database) (table_name where_col where_val : CStr) :
    Option WriteResult :=
  match find_table db table_name with
  | none => some ⟨0, table_not_found table_name, db⟩
  | some i =>
    match db.tables[i]? with
    | none => none
    | some t =>
      match column_index t where_col with
      | none =>
        some ⟨0, "Error: unknown column '".toList ++ where_col ++ "' in WHERE.\n".toList, db⟩
      | some where_idx => do
        let rows ← read_slots t.rows t.num_rows
        let (kept, removed) ← delete_loop t.num_columns where_idx where_val [] rows 0
        let t' := { t with
          rows := if removed > 0 then kept else t.rows
          num_rows := t.num_rows - removed }
        pure ⟨1, fmt_d removed ++ " row(s) deleted from '".toList ++ table_name ++ "'.\n".toList,
          { db with tables := db.tables.set i t' }⟩

/-- The loop of `update_where_eq` over `rows[0 .. num_rows - 1]`: the rows
after the loop and the number of rows updated. -/
def update_loop (where_idx set_idx : Nat) (where_val set_val : CStr) :
    List Row → Option (List Row × Nat)
  | [] => some ([], 0)
  | row :: rest =>
    match row.values[where_idx]? with
    | none => none
    | some v =>
      if cell_matches v where_val then
        if set_idx < row.values.length then
          (update_loop where_idx set_idx where_val set_val rest).map fun p =>
            (⟨row.values.set set_idx (some set_val)⟩ :: p.1, p.2 + 1)
        else none
      else
        (update_loop where_idx set_idx where_val set_val rest).map fun p => (row :: p.1, p.2)

def update_where_eq (db : Database) (table_name set_col set_val where_col where_val : CStr) :
    Option WriteResult :=
  match find_table db table_name with
  | none => some ⟨0, table_not_found table_name, db⟩
  | some i =>
    match db.tables[i]? with
    | none => none
    | some t =>
      match column_index t where_col, column_index t set_col with
      | some where_idx, some set_idx => do
        let rows ← read_slots t.rows t.num_rows
        let (rows', updated) ← update_loop where_idx set_idx where_val set_val rows
        let t' := { t with rows := rows' ++ t.rows.drop t.num_rows }
        pure ⟨1, fmt_d updated ++ " row(s) updated in '".toList ++ table_name ++ "'.\n".toList,
          { db with tables := db.tables.set i t' }⟩
      | _, _ => some ⟨0, "Error: unknown column in UPDATE.\n".toList, db⟩

def drop_table (db : Database) (name : CStr) : Option (Int × Database) :=
  match find_table db name with
  | none => some (0, db)
  | some i =>
    match db.tables[i]? with
    | none => none
    | some t =>
      match free_table t with
      | none => none
      | some _ => some (1, { db with tables := db.tables.eraseIdx i })


/-! ## `parcer.c`

The functions of the command interpreter work on the line in place: `trim`,
`strtok` and `parse_condition_eq` write NUL bytes into it.  Here every pointer
into the line is the text it points at, up to the NUL that the function in
question has written or will find.  The arrays `select_part[512]`,
`from_part[512]` and `set_part[256]` are filled without a bound check, and a
copy that does not fit is a fault.  The calls of `db_log`, which append to a
log file, are left out. -/

/-- The text without its trailing white space. -/
def rtrim (s : CStr) : CStr := (s.reverse.dropWhile isspace).reverse

/-- The function `trim`: leading white space is skipped; then `end` walks back
from the last character while `end > s`, so the first character stays. -/
def trim (s : CStr) : CStr :=
  match s.dropWhile isspace with
  | [] => []
  | c :: rest => c :: rtrim rest

/-- The call `strstr(s, pat)`: the text before the first occurrence of `pat`
and the text from that occurrence on. -/
def strstr : CStr → CStr → Option (CStr × CStr)
  | [], pat => if pat = [] then some ([], []) else none
  | c :: s, pat =>
    if (c :: s).take pat.length = pat then some ([], c :: s)
    else (strstr s pat).map fun r => (c :: r.1, r.2)

/-- The call `strrchr(s, c)`: the text before the last `c` and the text from
that `c` on. -/
def strrchr : CStr → Char → Option (CStr × CStr)
  | [], _ => none
  | x :: s, c =>
    match strrchr s c with
    | some r => some (x :: r.1, r.2)
    | none => if x = c then some ([], x :: s) else none

/-- The tokens that `strtok(s, delim)` followed by `strtok(NULL, delim)` until
`NULL` return, for a single delimiter: the maximal runs of other characters. -/
def strtok_from (delim : Char) : CStr → CStr → List CStr
  | [], cur => if cur = [] then [] else [cur]
  | x :: s, cur =>
    if x = delim then (if cur = [] then strtok_from delim s [] else cur :: strtok_from delim s [])
    else strtok_from delim s (cur ++ [x])

def strtok (s : CStr) (delim : Char) : List CStr := strtok_from delim s []

/-- One value of `parse_values_list` at the text `p`, which does not begin
with white space and is not empty: the value stored and the text that
follows.  A value in double quotes ends at the next double quote, another one
at the next comma; trailing white space is cut from both. -/
def parse_value (p : CStr) : CStr × CStr :=
  match p with
  | '"' :: q =>
    (rtrim (q.takeWhile (· != '"')),
      match q.dropWhile (· != '"') with
      | [] => []
      | _ :: r => r)
  | _ => (rtrim (p.takeWhile (· != ',')), p.dropWhile (· != ','))

/-- The loop of `parse_values_list`, at most `fuel` passes; `none` when the
passes do not suffice. -/
def parse_values_loop : Nat → CStr → Option (List CStr)
  | 0, _ => none
  | fuel + 1, p =>
    match p.dropWhile isspace with
    | [] => some []
    | c :: q =>
      (parse_values_loop fuel ((parse_value (c :: q)).2.dropWhile (· == ','))).map
        ((parse_value (c :: q)).1 :: ·)

/-- The function `parse_values_list` (every allocation succeeding): a pass of
the loop consumes at least one character, so one pass per character and one
more suffice. -/
def parse_values_list (s : CStr) : Option (List CStr) := parse_values_loop (s.length + 1) s

/-- The function `parse_condition_eq`: `none` is the result 0, otherwise the
contents of `col_buf` and `val_buf`. -/
def parse_condition_eq (s : CStr) (col_buf_sz val_buf_sz : Nat) : Option (CStr × CStr) :=
  match strchr s '=' with
  | none => none
  | some eq =>
    let left := trim (s.takeWhile (· != '='))
    let right := trim (eq.drop 1)
    if left.length = 0 then none
    else
      some (strncpy left (col_buf_sz - 1),
        strncpy
          (match right with
           | '"' :: r => r.takeWhile (· != '"')
           | r => r)
          (val_buf_sz - 1))

/-- What a command did: nothing at all, a diagnostic of the interpreter, or
one call of the engine with the arguments shown. -/
inductive Action where
  | nothing
  | unrecognized
  | syntax_error (message : List Char)
  | meta_command
  | create_table (name : CStr) (cols : List ColumnDef)
  | insert_row (name : CStr) (values : List CStr)
  | select_all (name : CStr)
  | select_columns (name : CStr) (cols : List CStr)
  | select_where_eq (name : CStr) (cols : List CStr) (where_col where_val : CStr)
  | delete_where_eq (name where_col where_val : CStr)
  | update_where_eq (name set_col set_val where_col where_val : CStr)
  | drop_table (name : CStr)
deriving DecidableEq

/-- The outcome of a handler: what it did and the database it leaves. -/
structure CmdResult where
  did : Action
  db : Database
deriving DecidableEq

/-- The loop that reads a table name into `tname[MAX_NAME_LEN]`: characters up
to white space, the character `stop` or the 63rd one.  The name and the text
left at `p`. -/
def read_name (p : CStr) (stop : Char) : CStr × CStr :=
  ((p.takeWhile fun c => !isspace c && c != stop).take (MAX_NAME_LEN - 1),
    p.drop ((p.takeWhile fun c => !isspace c && c != stop).take (MAX_NAME_LEN - 1)).length)

/-- The format `"%63s %31s"`. -/
def fmt_column_def : List Directive := [.str 63, .space, .str 31]

/-- The loop of `parse_create_table` over the tokens of the column list: the
column definitions, or the entry that `sscanf` does not split in two. -/
def parse_column_defs : List CStr → Except CStr (List ColumnDef)
  | [] => .ok []
  | tok :: toks =>
    if trim tok = [] then parse_column_defs toks
    else
      match sscanf (trim tok) fmt_column_def with
      | [.str cname, .str ctype] =>
        match parse_column_defs toks with
        | .error e => .error e
        | .ok cols => .ok (⟨strncpy cname (MAX_NAME_LEN - 1), parse_column_type (some ctype)⟩ :: cols)
      | _ => .error (trim tok)

def parse_create_table (db : Database) (line : CStr) : Option CmdResult :=
  let p := (line.drop "CREATE TABLE".length).dropWhile isspace
  let tname := (read_name p '(').1
  if tname = [] then some ⟨.syntax_error "Syntax error: missing table name.\n".toList, db⟩
  else
    match ((read_name p '(').2).dropWhile isspace with
    | '(' :: p' =>
      match strrchr p' ')' with
      | none => some ⟨.syntax_error "Syntax error: missing ')'.\n".toList, db⟩
      | some (body, _) =>
        match parse_column_defs (strtok body ',') with
        | .error e =>
          some ⟨.syntax_error
            ("Syntax error in column definition: '".toList ++ e ++ "'\n".toList), db⟩
        | .ok cols =>
          if cols.length = 0 then some ⟨.syntax_error "Syntax error: no columns.\n".toList, db⟩
          else some ⟨.create_table tname cols, (create_table db tname cols).2⟩
    | _ => some ⟨.syntax_error "Syntax error: expected '('.\n".toList, db⟩

def parse_insert (db : Database) (line : CStr) : Option CmdResult :=
  let p := (line.drop "INSERT INTO".length).dropWhile isspace
  let tname := (read_name p '(').1
  if tname = [] then
    some ⟨.syntax_error "Syntax error: missing table name in INSERT.\n".toList, db⟩
  else
    match strstr (read_name p '(').2 "VALUES".toList with
    | none => some ⟨.syntax_error "Syntax error: expected VALUES.\n".toList, db⟩
    | some (_, values_kw) =>
      match strchr values_kw '(', strrchr values_kw ')' with
      | some _, some (before_rp, _) =>
        -- `lp` is at the index of the first '(' and `rp` at that of the last ')'
        if (values_kw.takeWhile (· != '(')).length + 1 < before_rp.length then
          match parse_values_list
              (before_rp.drop ((values_kw.takeWhile (· != '(')).length + 1)) with
          | none => none
          | some vals =>
            (insert_row db tname (vals.map some)).map fun r => ⟨.insert_row tname vals, r.2⟩
        else some ⟨.syntax_error "Syntax error: invalid VALUES list.\n".toList, db⟩
      | _, _ => some ⟨.syntax_error "Syntax error: invalid VALUES list.\n".toList, db⟩

/-- The loops of `parse_select` that collect the requested column names: the
tokens between commas, trimmed, the empty ones left out. -/
def select_column_names (cols_str : CStr) : List CStr :=
  ((strtok cols_str ',').map trim).filter (· ≠ [])

def parse_select (db : Database) (line : CStr) : Option CmdResult :=
  match strstr line "FROM".toList with
  | none => some ⟨.syntax_error "Syntax error: missing FROM.\n".toList, db⟩
  | some (before_from, from_kw) =>
    -- `sp_len` is a `size_t`: a negative difference is a huge count
    if before_from.length < "SELECT".length then none
    else if 512 ≤ before_from.length - "SELECT".length then none
    else if 512 ≤ (from_kw.drop "FROM".length).length then none
    else
      let cols_str := trim (before_from.drop "SELECT".length)
      let rest := trim (from_kw.drop "FROM".length)
      if cols_str = [] then
        some ⟨.syntax_error "Syntax error: missing columns in SELECT.\n".toList, db⟩
      else
        let tname := (read_name rest ';').1
        let rest' := trim (read_name rest ';').2
        if tname = [] then
          some ⟨.syntax_error "Syntax error: missing table name in SELECT.\n".toList, db⟩
        else
          match strstr rest' "WHERE".toList with
          | none =>
            if cols_str = "*".toList then
              (select_all db tname).map fun _ => ⟨.select_all tname, db⟩
            else
              (select_columns db tname (select_column_names cols_str)).map fun _ =>
                ⟨.select_columns tname (select_column_names cols_str), db⟩
          | some (_, where_kw) =>
            match parse_condition_eq (trim (where_kw.drop "WHERE".length)) 64 256 with
            | none => some ⟨.syntax_error "Syntax error in WHERE clause.\n".toList, db⟩
            | some (col, val) =>
              if cols_str = "*".toList then
                match find_table db tname with
                | none => some ⟨.nothing, db⟩
                | some i =>
                  match db.tables[i]? with
                  | none => none
                  | some t =>
                    (select_where_eq db tname (t.columns.map (·.name)) col val).map fun _ =>
                      ⟨.select_where_eq tname (t.columns.map (·.name)) col val, db⟩
              else
                (select_where_eq db tname (select_column_names cols_str) col val).map fun _ =>
                  ⟨.select_where_eq tname (select_column_names cols_str) col val, db⟩

def parse_delete (db : Database) (line : CStr) : Option CmdResult :=
  let p := trim (line.drop "DELETE FROM".length)
  let tname := (read_name p ';').1
  let p' := trim (read_name p ';').2
  if tname = [] then
    some ⟨.syntax_error "Syntax error: missing table name in DELETE.\n".toList, db⟩
  else
    match strstr p' "WHERE".toList with
    | none =>
      some ⟨.syntax_error "Syntax error: DELETE without WHERE not supported.\n".toList, db⟩
    | some (_, where_kw) =>
      match parse_condition_eq (trim (where_kw.drop "WHERE".length)) 64 256 with
      | none => some ⟨.syntax_error "Syntax error in WHERE clause.\n".toList, db⟩
      | some (col, val) =>
        (delete_where_eq db tname col val).map fun r => ⟨.delete_where_eq tname col val, r.db⟩

def parse_update (db : Database) (line : CStr) : Option CmdResult :=
  let p := trim (line.drop "UPDATE".length)
  let tname := (read_name p ';').1
  let p' := trim (read_name p ';').2
  if tname = [] then
    some ⟨.syntax_error "Syntax error: missing table name in UPDATE.\n".toList, db⟩
  else
    match strstr p' "SET".toList, strstr p' "WHERE".toList with
    | some (before_set, _), some (before_where, where_kw) =>
      -- `len` is a `size_t`: a negative difference is a huge count
      if before_where.length < before_set.length + "SET".length then none
      else if 256 ≤ before_where.length - (before_set.length + "SET".length) then none
      else
        match parse_condition_eq
            (before_where.drop (before_set.length + "SET".length)) 64 256 with
        | none => some ⟨.syntax_error "Syntax error in SET clause.\n".toList, db⟩
        | some (set_col, set_val) =>
          match parse_condition_eq (trim (where_kw.drop "WHERE".length)) 64 256 with
          | none => some ⟨.syntax_error "Syntax error in WHERE clause.\n".toList, db⟩
          | some (where_col, where_val) =>
            (update_where_eq db tname set_col set_val where_col where_val).map fun r =>
              ⟨.update_where_eq tname set_col set_val where_col where_val, r.db⟩
    | _, _ => some ⟨.syntax_error "Syntax error: invalid UPDATE.\n".toList, db⟩

/-- The format `"DROP TABLE %63s"`. -/
def fmt_drop : List Directive :=
  lits "DROP" ++ [.space] ++ lits "TABLE" ++ [.space, .str 63]

/-- The name without its last character when that is a semicolon. -/
def strip_semicolon (tname : CStr) : CStr :=
  if tname.getLast? = some ';' then tname.dropLast else tname

def handle_drop (db : Database) (input : CStr) : Option CmdResult :=
  match sscanf input fmt_drop with
  | [.str tname] =>
    (drop_table db (strip_semicolon tname)).map fun r =>
      ⟨.drop_table (strip_semicolon tname), r.2⟩
  | _ => some ⟨.syntax_error "Syntax error in DROP TABLE.\n".toList, db⟩

/-- An entry of `command_table`. -/
structure Command where
  keyword : CStr
  fn : Database → CStr → Option CmdResult

def command_table : List Command :=
  [⟨"CREATE TABLE".toList, parse_create_table⟩,
   ⟨"INSERT INTO".toList, parse_insert⟩,
   ⟨"SELECT".toList, parse_select⟩,
   ⟨"UPDATE".toList, parse_update⟩,
   ⟨"DELETE FROM".toList, parse_delete⟩,
   ⟨"DROP TABLE".toList, handle_drop⟩]

/-- The dispatch loop of `execute_command` over the entries that are left. -/
def dispatch (db : Database) (line : CStr) : List Command → Option CmdResult
  | [] => some ⟨.unrecognized, db⟩
  | c :: cs =>
    if strncmp_eq line c.keyword c.keyword.length then c.fn db line
    else dispatch db line cs

/-- The outcome of `execute_command`: the value returned, what was done and
the database. -/
structure ExecResult where
  ret : Int
  did : Action
  db : Database
deriving DecidableEq

/-- The function `execute_command`.  The meta-commands write files, read the
clock and draw random numbers; `handle_meta` is an argument here, any function
from the database and the line to the value returned and the database. -/
def execute_command (handle_meta : Database → CStr → Option (Int × Database))
    (db : Database) (input : CStr) : Option ExecResult :=
  match trim input with
  | [] => some ⟨0, .nothing, db⟩
  | c :: rest =>
    if c = '.' then (handle_meta db (c :: rest)).map fun r => ⟨r.1, .meta_command, r.2⟩
    else (dispatch db (c :: rest) command_table).map fun r => ⟨0, r.did, r.db⟩
/-! ## Notions used by the statements -/

/-- A table whose rows are held in the row-major representation: `rows` has
`num_rows` entries and every row has one cell per column. -/
def Table.row_major_ok (t : Table) : Prop :=
  t.rows.length = t.num_rows ∧ ∀ r ∈ t.rows, r.values.length = t.columns.length

/-- The prior content of a database can be released: `free_database` finds
the row slots and cell slots it walks. -/
def Database.releasable (db : Database) : Prop := (free_database db).isSome = true

/-- A sequence of calls of `insert_row` on one table, each of which has to
return 1. -/
def insert_rows (db : Database) (table_name : CStr) :
    List (List (Option CStr)) → Option Database
  | [] => some db
  | v :: vs =>
    match insert_row db table_name v with
    | some (1, db') => insert_rows db' table_name vs
    | _ => none

/-- A line of output: the fields with ` | ` between two of them, then a
newline. -/
def shown_line : List CStr → List Char
  | [] => ['\n']
  | [f] => f ++ ['\n']
  | f :: g :: fs => f ++ ' ' :: '|' :: ' ' :: shown_line (g :: fs)

/-- The line shown for a row when every column is selected: its cells, `NULL`
for a cell that is `NULL`. -/
def shown_row (r : Row) : List Char :=
  shown_line (r.values.map (·.getD "NULL".toList))

/-- The line shown for a row projected on the positions `idxs`. -/
def shown_cells (r : Row) (idxs : List Nat) : List Char :=
  shown_line (idxs.map fun i => ((r.values[i]?).getD none).getD "NULL".toList)

/-- The names of the columns of a table, in column order. -/
def Table.column_names (t : Table) : List CStr := t.columns.map (·.name)

/-- The position of the first string equal to `c` in a list that contains it. -/
def first_position (c : CStr) : List CStr → Nat
  | [] => 0
  | x :: xs => if x = c then 0 else first_position c xs + 1

/-- The position of the first column called `c`. -/
def Table.position (t : Table) (c : CStr) : Nat := first_position c t.column_names

/-- The stored cell of row `r` at position `i` is the string `val`. -/
def cell_is (r : Row) (i : Nat) (val : CStr) : Bool := r.values[i]? == some (some val)

/-- A database with the table `t (id INT, name TEXT)` holding the row `(1, a)`,
row-major layout, text format. -/
def sample_db : Database :=
  ⟨[⟨"t".toList, [⟨"id".toList, .COL_INT⟩, ⟨"name".toList, .COL_TEXT⟩], 1,
    [⟨[some "1".toList, some "a".toList]⟩],
    [⟨"id".toList, .COL_INT, []⟩, ⟨"name".toList, .COL_TEXT, []⟩]⟩], 0, 0⟩

/-- The table of `sample_db`. -/
def sample_table : Table :=
  ⟨"t".toList, [⟨"id".toList, .COL_INT⟩, ⟨"name".toList, .COL_TEXT⟩], 1,
    [⟨[some "1".toList, some "a".toList]⟩],
    [⟨"id".toList, .COL_INT, []⟩, ⟨"name".toList, .COL_TEXT, []⟩]⟩

/-- The empty database, row-major layout, text format. -/
def empty_db : Database := ⟨[], 0, 0⟩


/-- The table count announced by the first two lines of a stream and the rest
of the stream, when these lines pass the checks of `load_database`: the first
line begins with `MINIQLITE` and the second is `TABLE_COUNT` and a number. -/
def header_count (f : List Char) : Option (Int × List Char) :=
  match fgets 1024 f with
  | none => none
  | some (buf, f1) =>
    if strncmp_eq (c_str buf) "MINIQLITE".toList 9 then
      match fgets 1024 f1 with
      | none => none
      | some (buf2, f2) =>
        match sscanf (c_str buf2) fmt_table_count with
        | [.int table_count] => some (table_count, f2)
        | _ => none
    else none

/-- The database `sample_db` with the binary format selected. -/
def sample_db_binary : Database := { sample_db with binary_mode := 1 }

/-- A stream that announces a table with two rows and holds only one. -/
def short_stream : List Char :=
  "MINIQLITE 1\nTABLE_COUNT 1\nTABLE t 2 2\nCOLUMN id INT\nCOLUMN name TEXT\nROW\t1\ta\n".toList

/-- The text that `save_database` writes for `sample_db`. -/
def sample_stream : List Char :=
  "MINIQLITE 1\nTABLE_COUNT 1\nTABLE t 2 1\nCOLUMN id INT\nCOLUMN name TEXT\nROW\t1\ta\n".toList


/-- A line that `sscanf` accepts as a `COLUMN` line (two conversions stored). -/
def column_line_ok (buf : List Char) : Bool :=
  match sscanf (c_str buf) fmt_column with
  | [.str _, .str _] => true
  | _ => false

/-- A line that begins with `ROW`. -/
def row_line_ok (buf : List Char) : Bool := strncmp_eq (c_str buf) "ROW".toList 3

/-- The next `n` lines of the stream are present and each passes `ok`. -/
def lines_ok (ok : List Char → Bool) : Nat → List Char → Bool
  | 0, _ => true
  | n + 1, f =>
    match fgets 1024 f with
    | none => false
    | some (buf, f') => ok buf && lines_ok ok n f'

/-- The stream after its next `n` lines. -/
def skip_lines : Nat → List Char → List Char
  | 0, f => f
  | n + 1, f =>
    match fgets 1024 f with
    | none => []
    | some (_, f') => skip_lines n f'

/-- Among the next `n` table blocks of the stream, each begun by a `TABLE`
line that announces its columns and rows, the first block that is not complete
and well formed lacks a `COLUMN` line, has a malformed `COLUMN` line, lacks a
`ROW` line or has a line not beginning with `ROW` in its place. -/
def block_violation : Nat → List Char → Bool
  | 0, _ => false
  | n + 1, f =>
    match fgets 1024 f with
    | none => false
    | some (buf, f1) =>
      match sscanf (c_str buf) fmt_table with
      | [.str _, .int num_cols, .int num_rows] =>
        if num_cols < 0 then false
        else if !lines_ok column_line_ok num_cols.toNat f1 then true
        else if !lines_ok row_line_ok num_rows.toNat (skip_lines num_cols.toNat f1) then true
        else block_violation n (skip_lines num_rows.toNat (skip_lines num_cols.toNat f1))
      | _ => false

/-- The stream violates the structure that `load_database` checks: the first
line does not begin with `MINIQLITE`, the `TABLE_COUNT` line is missing or
malformed, or one of the announced table blocks has a violation. -/
def stream_violation (f : List Char) : Bool :=
  match header_count f with
  | none => true
  | some (k, f2) => block_violation k.toNat f2

/-- Every table has at least one column store per column, as `create_table`
allocates them. -/
def column_stores_ok (db : Database) : Prop :=
  ∀ t ∈ db.tables, t.columns.length ≤ t.column_data.length


/-- The `TABLE` line that `save_database` writes, without its newline. -/
def table_line (name : CStr) (num_columns num_rows : Nat) : List Char :=
  "TABLE ".toList ++ (name ++ ' ' :: (fmt_d num_columns ++ ' ' :: fmt_d num_rows))

/-- The `COLUMN` line that `save_database` writes, without its newline. -/
def column_line (c : ColumnDef) : List Char :=
  "COLUMN ".toList ++ (c.name ++ ' ' :: column_type_to_string c.type)

/-- The `ROW` line that `save_database` writes, without its newline. -/
def row_line (r : Row) : List Char :=
  "ROW".toList ++ (r.values.map fun v => '\t' :: v.getD []).flatten

/-- A name that the text format carries: not empty, at most 63 characters,
none of them white space or NUL. -/
def name_ok (s : CStr) : Prop :=
  s ≠ [] ∧ s.length ≤ 63 ∧ ∀ c ∈ s, isspace c = false ∧ c ≠ NUL

/-- A cell that the text format carries: a string (not `NULL`) without tab,
newline and NUL. -/
def cell_ok (v : Option CStr) : Prop :=
  match v with
  | none => False
  | some s => ∀ c ∈ s, c ≠ '\t' ∧ c ≠ '\n' ∧ c ≠ NUL

/-- A row that the text format carries for table `t`: one cell per column, all
of them carried, on a line that fits the 1024-byte line buffer. -/
def row_ok (t : Table) (r : Row) : Prop :=
  r.values.length = t.columns.length ∧ (∀ v ∈ r.values, cell_ok v) ∧
    (row_line r).length + 1 ≤ 1023

/-- A table that the text format carries. -/
def table_ok (t : Table) : Prop :=
  name_ok t.name ∧ (∀ c ∈ t.columns, name_ok c.name) ∧ t.rows.length = t.num_rows ∧
    (∀ r ∈ t.rows, row_ok t r) ∧ t.columns.length < 2 ^ 31 ∧ t.num_rows < 2 ^ 31

/-- A database that the text format carries: every table is carried, the table
names are pairwise distinct and the counts fit an `int`. -/
def text_ok (db : Database) : Prop :=
  (∀ t ∈ db.tables, table_ok t) ∧ (db.tables.map (·.name)).Nodup ∧
    db.tables.length < 2 ^ 31

/-- The table that a load builds for `t`: created by `create_table` with the
name and columns of `t`, then filled with the rows of `t`. -/
def reloaded (t : Table) : Table :=
  { new_table t.name t.columns with rows := t.rows, num_rows := t.num_rows }


/-- The text of the cells of a `ROW` line after its first tab. -/
def cells_text : List CStr → List Char
  | [] => []
  | [s] => s
  | s :: ss => s ++ '\t' :: cells_text ss


/-- The lines that `save_database` writes for one table in text format. -/
def table_text (t : Table) : List Char :=
  table_line t.name t.columns.length t.num_rows ++ '\n' ::
    ((t.columns.map fun c => column_line c ++ ['\n']).flatten ++
      (t.rows.map fun r => row_line r ++ ['\n']).flatten)

/-- The text that `save_database` writes for a database in text format. -/
def database_text (db : Database) : List Char :=
  "MINIQLITE 1".toList ++ '\n' ::
    ("TABLE_COUNT ".toList ++ fmt_d db.tables.length ++ '\n' ::
      (db.tables.map table_text).flatten)


/-- A line that `fgets` reads whole into the 1024-byte buffer and that is a C
string: no newline and no NUL inside, at most 1022 characters. -/
def line_fits (l : List Char) : Prop :=
  (∀ c ∈ l, c ≠ '\n' ∧ c ≠ NUL) ∧ l.length + 1 ≤ 1023


/-! ## Structural violations of a stream, as the specification words them -/

/-- The text begins with a decimal number: a digit, or a sign and a digit. -/
def starts_number : List Char → Bool
  | [] => false
  | [c] => isdigit c
  | c :: d :: _ => isdigit c || ((c == '-' || c == '+') && isdigit d)

/-- A malformed `TABLE_COUNT` line: the line does not begin with
`TABLE_COUNT`, or no decimal number follows it (after optional white space). -/
def bad_count_line (l : List Char) : Prop :=
  ¬ "TABLE_COUNT".toList <+: l ∨ starts_number ((l.drop 11).dropWhile isspace) = false

/-- A malformed `COLUMN` line: the line does not begin with `COLUMN`, or fewer
than two words follow it: the first word after `COLUMN` (empty when no word
follows) has at most 63 characters and only white space comes after it. -/
def bad_column_line (l : List Char) : Prop :=
  ¬ "COLUMN".toList <+: l ∨
    ((((l.drop 6).dropWhile isspace).takeWhile fun c => !isspace c).length ≤ 63 ∧
     (((l.drop 6).dropWhile isspace).dropWhile fun c => !isspace c).all isspace = true)

/-- The rest `g` of a stream where a line is due lacks it or holds a line
with the defect `bad` in its place. -/
def missing_or (bad : List Char → Prop) (g : List Char) : Prop :=
  g = [] ∨ ∃ l g', g = l ++ '\n' :: g' ∧ line_fits l ∧ bad l

/-- The stream is wrong in its first two lines: it does not begin with
`MINIQLITE`, or its `TABLE_COUNT` line is missing or malformed. -/
def header_violation (f : List Char) : Prop :=
  ¬ "MINIQLITE".toList <+: f ∨
    ∃ l g, f = l ++ '\n' :: g ∧ line_fits l ∧ missing_or bad_count_line g

/-- A table block of a stream: the name and the counts its `TABLE` line
announces, the columns of the `COLUMN` lines present and the `ROW` lines
present. -/
structure Block where
  name : CStr
  num_columns : Nat
  num_rows : Nat
  columns : List ColumnDef
  rows : List (List Char)

/-- The lines of the block are laid out as the format lays them out: the
`TABLE` line carries a name and two counts, every `COLUMN` line a name and a
type keyword, and every row line begins with `ROW`. -/
def Block.well_formed (b : Block) : Prop :=
  name_ok b.name ∧ b.num_columns < 2 ^ 31 ∧ b.num_rows < 2 ^ 31 ∧
    (∀ c ∈ b.columns, name_ok c.name) ∧
    ∀ l ∈ b.rows, "ROW".toList <+: l ∧ line_fits l

/-- The block holds as many `COLUMN` and `ROW` lines as it announces. -/
def Block.complete (b : Block) : Prop :=
  b.well_formed ∧ b.columns.length = b.num_columns ∧ b.rows.length = b.num_rows

/-- The text of the block, every line ended by a newline. -/
def Block.text (b : Block) : List Char :=
  table_line b.name b.num_columns b.num_rows ++ '\n' ::
    ((b.columns.map fun c => column_line c ++ ['\n']).flatten ++
      (b.rows.map fun l => l ++ ['\n']).flatten)

/-- The first line `l` of a stream, the line `TABLE_COUNT n` and the blocks
`blocks`. -/
def stream_text (l : List Char) (n : Nat) (blocks : List Block) : List Char :=
  l ++ '\n' :: ("TABLE_COUNT ".toList ++ fmt_d n ++ '\n' :: (blocks.map Block.text).flatten)

/-- The structural violations of a stream: a violation in the first two
lines; or, after the two header lines and fewer complete blocks than the
`TABLE_COUNT` line announces, a block that lacks a `COLUMN` line or has a
malformed one in its place, or a block with all its `COLUMN` lines that lacks
a `ROW` line or has something not beginning with `ROW` in its place. -/
inductive structural_violation : List Char → Prop
  | header (f : List Char) (h : header_violation f) : structural_violation f
  | column (l : List Char) (n : Nat) (blocks : List Block) (b : Block) (g : List Char)
      (hl : line_fits l) (hn : n < 2 ^ 31) (hcount : blocks.length < n)
      (hblocks : ∀ x ∈ blocks, x.complete) (hb : b.well_formed)
      (hcols : b.columns.length < b.num_columns) (hrows : b.rows = [])
      (hg : missing_or bad_column_line g) :
      structural_violation (stream_text l n (blocks ++ [b]) ++ g)
  | row (l : List Char) (n : Nat) (blocks : List Block) (b : Block) (g : List Char)
      (hl : line_fits l) (hn : n < 2 ^ 31) (hcount : blocks.length < n)
      (hblocks : ∀ x ∈ blocks, x.complete) (hb : b.well_formed)
      (hcols : b.columns.length = b.num_columns) (hrows : b.rows.length < b.num_rows)
      (hg : ¬ "ROW".toList <+: g) :
      structural_violation (stream_text l n (blocks ++ [b]) ++ g)

/-- A database whose only table has a space in its name. -/
def spaced_db : Database :=
  ⟨[⟨"my table".toList, [⟨"id".toList, .COL_INT⟩], 1, [⟨[some "1".toList]⟩],
    [⟨"id".toList, .COL_INT, []⟩]⟩], 0, 0⟩

/-- A database whose only table holds one row with a cell of 1100 characters. -/
def long_cell_db : Database :=
  ⟨[⟨"t".toList, [⟨"id".toList, .COL_INT⟩], 1, [⟨[some (List.replicate 1100 'x')]⟩],
    [⟨"id".toList, .COL_INT, []⟩]⟩], 0, 0⟩


/-- A database whose only table has the empty name. -/
def unnamed_db : Database :=
  ⟨[⟨[], [⟨"id".toList, .COL_INT⟩], 1, [⟨[some "1".toList]⟩],
    [⟨"id".toList, .COL_INT, []⟩]⟩], 0, 0⟩

/-- The database left by `create_table` and one `insert_row` under the
column-major layout: the value is in the column store, `rows` is still empty. -/
def column_major_db : Database :=
  ⟨[⟨"t".toList, [⟨"id".toList, .COL_INT⟩], 1, [],
    [⟨"id".toList, .COL_INT, [some "1".toList]⟩]⟩], 0, 1⟩


instance (db : Database) : Decidable db.releasable := by
  unfold Database.releasable; infer_instance

instance (s : CStr) : Decidable (name_ok s) := by
  unfold name_ok; infer_instance

instance (v : Option CStr) : Decidable (cell_ok v) := by
  cases v <;> unfold cell_ok <;> infer_instance

instance (t : Table) (r : Row) : Decidable (row_ok t r) := by
  unfold row_ok; infer_instance

instance (t : Table) : Decidable (table_ok t) := by
  unfold table_ok; infer_instance

instance (db : Database) : Decidable (text_ok db) := by
  unfold text_ok; infer_instance

instance (l : List Char) : Decidable (line_fits l) := by
  unfold line_fits; infer_instance

instance (l : List Char) : Decidable (bad_count_line l) := by
  unfold bad_count_line; infer_instance

instance (l : List Char) : Decidable (bad_column_line l) := by
  unfold bad_column_line; infer_instance

instance (b : Block) : Decidable b.well_formed := by
  unfold Block.well_formed; infer_instance

instance (b : Block) : Decidable b.complete := by
  unfold Block.complete; infer_instance

/-- The row left by `update_where_eq` for a row of the table: the cell at
position `s` is replaced when the cell at position `w` is the string `val`. -/
def updated_row (w s : Nat) (val set_val : CStr) (r : Row) : Row :=
  if cell_is r w val then ⟨r.values.set s (some set_val)⟩ else r

/-- The message in which `delete_where_eq` reports the number of rows removed. -/
def deleted_message (n : Nat) (table_name : CStr) : List Char :=
  fmt_d n ++ " row(s) deleted from '".toList ++ table_name ++ "'.\n".toList

/-- The message in which `update_where_eq` reports the number of rows updated. -/
def updated_message (n : Nat) (table_name : CStr) : List Char :=
  fmt_d n ++ " row(s) updated in '".toList ++ table_name ++ "'.\n".toList


/-- The table `t (id INT, name TEXT)` with the rows `(1, a)` and `(2, b)`. -/
def two_row_table : Table :=
  ⟨"t".toList, [⟨"id".toList, .COL_INT⟩, ⟨"name".toList, .COL_TEXT⟩], 2,
    [⟨[some "1".toList, some "a".toList]⟩, ⟨[some "2".toList, some "b".toList]⟩],
    [⟨"id".toList, .COL_INT, []⟩, ⟨"name".toList, .COL_TEXT, []⟩]⟩

/-- The database that holds `two_row_table`, row-major layout, text format. -/
def two_row_db : Database := ⟨[two_row_table], 0, 0⟩


instance (t : Table) : Decidable t.row_major_ok := by
  unfold Table.row_major_ok; infer_instance


/-! ## Sequences of operations -/


/-- An engine operation that can change the database.  The two mode flags are
changed by none of them. -/
inductive Op where
  | create (name : CStr) (cols : List ColumnDef)
  | drop (name : CStr)
  | insert (name : CStr) (values : List (Option CStr))
  | delete (name where_col where_val : CStr)
  | update (name set_col set_val where_col where_val : CStr)
  | load (file : Option (List Char))

/-- The database after one operation; `none` when the operation runs into a
fault. -/
def apply_op (db : Database) : Op → Option Database
  | .create name cols => some (create_table db name cols).2
  | .drop name => (drop_table db name).map (·.2)
  | .insert name values => (insert_row db name values).map (·.2)
  | .delete name where_col where_val =>
    (delete_where_eq db name where_col where_val).map (·.db)
  | .update name set_col set_val where_col where_val =>
    (update_where_eq db name set_col set_val where_col where_val).map (·.db)
  | .load file => (load_database db file).map (·.db)

/-- The database after a sequence of operations. -/
def run_ops (db : Database) : List Op → Option Database
  | [] => some db
  | op :: ops =>
    match apply_op db op with
    | none => none
    | some db' => run_ops db' ops

/-- The operation gives `create_table` a name of at most 63 characters. -/
def Op.short_name : Op → Prop
  | .create name _ => name.length ≤ 63
  | _ => True

/-- The operation is not a load, and gives `create_table` a column list
without a repeated name. -/
def Op.distinct_columns : Op → Prop
  | .create _ cols => (cols.map (·.name)).Nodup
  | .load _ => False
  | _ => True

/-- The operation can register a table under the name `t`: a `create_table`
whose name is `t` once cut to 63 characters, or a load. -/
def Op.registers (t : CStr) : Op → Prop
  | .create name _ => strncpy name (MAX_NAME_LEN - 1) = t
  | .load _ => True
  | _ => False

/-- The names of the tables, in registry order. -/
def Database.table_names (db : Database) : List CStr := db.tables.map (·.name)


/-- The table `t'` stands where `t` stood: same name, same columns, and held
row-major when `t` was and the layout is row-major. -/
def Table.follows (t' t : Table) (column_store : Int) : Prop :=
  t'.name = t.name ∧ t'.columns = t.columns ∧
    (column_store = 0 → t.row_major_ok → t'.row_major_ok)


/-- The column names of every table are pairwise distinct. -/
def Database.columns_distinct (db : Database) : Prop :=
  ∀ t ∈ db.tables, (t.columns.map (·.name)).Nodup

/-- The database is under the row-major layout and every table of it is held
row-major. -/
def Database.row_major_ok (db : Database) : Prop :=
  db.column_store = 0 ∧ ∀ t ∈ db.tables, t.row_major_ok


instance (op : Op) : Decidable op.short_name := by
  cases op <;> unfold Op.short_name <;> infer_instance

instance (op : Op) : Decidable op.distinct_columns := by
  cases op <;> unfold Op.distinct_columns <;> infer_instance

instance (t : CStr) (op : Op) : Decidable (op.registers t) := by
  cases op <;> unfold Op.registers <;> infer_instance

/-- A name of 63 characters. -/
def long_name : CStr := List.replicate 63 'a'

/-- The name `long_name` with one more character. -/
def longer_name : CStr := List.replicate 64 'a'


/-! ## The formats on disk, as the specification words them -/

/-- The text of a cell in a `ROW` line; a `NULL` cell has none. -/
def cell_text (v : Option CStr) : List Char := v.getD []

/-- The type keyword of a `COLUMN` line. -/
def type_keyword : ColumnType → List Char
  | .COL_INT => "INT".toList
  | .COL_TEXT => "TEXT".toList
  | .COL_FLOAT => "FLOAT".toList

/-- The lines of one table in the text format: the `TABLE` line, one `COLUMN`
line per column, one `ROW` line per row with a tab in front of every cell. -/
def text_table_lines (t : Table) : List (List Char) :=
  ("TABLE ".toList ++ t.name ++ " ".toList ++ fmt_d t.columns.length ++ " ".toList ++
      fmt_d t.num_rows) ::
    ((t.columns.map fun c => "COLUMN ".toList ++ c.name ++ " ".toList ++ type_keyword c.type) ++
     (t.rows.map fun r => "ROW".toList ++ (r.values.map fun v => '\t' :: cell_text v).flatten))

/-- The lines of a database in the text format. -/
def text_lines (db : Database) : List (List Char) :=
  "MINIQLITE 1".toList :: ("TABLE_COUNT ".toList ++ fmt_d db.tables.length) ::
    (db.tables.map text_table_lines).flatten

/-- A name in its block of 64 bytes: the name, then zero bytes. -/
def padded_name (name : CStr) : List Char := name ++ List.replicate (64 - name.length) NUL

/-- The type tag of the binary format. -/
def type_tag : ColumnType → Nat
  | .COL_INT => 0
  | .COL_TEXT => 1
  | .COL_FLOAT => 2

/-- The `k` low bytes of the number `n`, least significant first. -/
def le_bytes : Nat → Nat → List Char
  | 0, _ => []
  | k + 1, n => Char.ofNat (n % 256) :: le_bytes k (n / 256)

/-- A count, tag or length as a 4-byte integer. -/
def four_bytes (n : Nat) : List Char := le_bytes 4 n

/-- The number that a run of bytes holds, least significant byte first. -/
def le_value : List Char → Nat
  | [] => 0
  | b :: bs => b.toNat + 256 * le_value bs

/-- The bytes of a table in the binary format: name block, column count, per
column a name block and a type tag, row count, per cell a length and the raw
bytes. -/
def binary_table_bytes (t : Table) : List Char :=
  padded_name t.name ++ four_bytes t.columns.length ++
    (t.columns.map fun c => padded_name c.name ++ four_bytes (type_tag c.type)).flatten ++
    four_bytes t.num_rows ++
    (t.rows.map fun r =>
      (r.values.map fun v => four_bytes (cell_text v).length ++ cell_text v).flatten).flatten

/-- The bytes of `sample_table` in the binary format, written out. -/
def sample_table_bytes : List Char :=
  't' :: List.replicate 63 (Char.ofNat 0) ++ [Char.ofNat 2, Char.ofNat 0, Char.ofNat 0, Char.ofNat 0] ++
  ('i' :: 'd' :: List.replicate 62 (Char.ofNat 0)) ++
    [Char.ofNat 0, Char.ofNat 0, Char.ofNat 0, Char.ofNat 0] ++
  ('n' :: 'a' :: 'm' :: 'e' :: List.replicate 60 (Char.ofNat 0)) ++
    [Char.ofNat 1, Char.ofNat 0, Char.ofNat 0, Char.ofNat 0] ++
  [Char.ofNat 1, Char.ofNat 0, Char.ofNat 0, Char.ofNat 0] ++
  [Char.ofNat 1, Char.ofNat 0, Char.ofNat 0, Char.ofNat 0, '1'] ++
  [Char.ofNat 1, Char.ofNat 0, Char.ofNat 0, Char.ofNat 0, 'a']

/-- A table `t (c TEXT)` held row-major whose only cell is `cell`. -/
def one_cell_table (cell : CStr) : Table :=
  ⟨"t".toList, [⟨"c".toList, .COL_TEXT⟩], 1, [⟨[some cell]⟩], [⟨"c".toList, .COL_TEXT, []⟩]⟩

/-- The sum over all cells of 4 plus the length of the cell. -/
def cells_size (t : Table) : Nat :=
  (t.rows.map fun r => (r.values.map fun v => 4 + (cell_text v).length).sum).sum

/-- The table `t (id INT)` with one row inserted under the column-major
layout: the table of `column_major_db`. -/
def column_major_table : Table :=
  ⟨"t".toList, [⟨"id".toList, .COL_INT⟩], 1, [], [⟨"id".toList, .COL_INT, [some "1".toList]⟩]⟩

/-- Two strings are equal ignoring letter case. -/
def same_ignoring_case (a b : CStr) : Prop := a.map Char.toLower = b.map Char.toLower

instance (a b : CStr) : Decidable (same_ignoring_case a b) := by
  unfold same_ignoring_case; infer_instance


/-! ## The command interpreter, as the specification words it -/

/-- The text without its leading and its trailing white space. -/
def strip (s : CStr) : CStr := rtrim (s.dropWhile isspace)

/-- A text made of white space only. -/
def blank (s : CStr) : Prop := ∀ c ∈ s, isspace c = true

/-- A word: at least one character, none of them white space. -/
def is_word (w : CStr) : Prop := w ≠ [] ∧ ∀ c ∈ w, isspace c = false

/-- A handler for the meta-commands that does nothing. -/
def no_meta (db : Database) (_ : CStr) : Option (Int × Database) := some (0, db)

instance (s : CStr) : Decidable (blank s) := by unfold blank; infer_instance

instance (w : CStr) : Decidable (is_word w) := by unfold is_word; infer_instance

/-- A value with one optional pair of double quotes taken off: when the text
begins with a double quote, what stands between it and the next double
quote, or all that follows when there is none. -/
def unquote (t : CStr) : CStr :=
  match t with
  | '"' :: r => r.takeWhile (· != '"')
  | r => r

/-- A database whose table has a name of 63 characters, the column `b` and
the row `(1)`. -/
def long_name_db : Database :=
  ⟨[⟨long_name, [⟨"b".toList, .COL_INT⟩], 1, [⟨[some "1".toList]⟩],
    [⟨"b".toList, .COL_INT, []⟩]⟩], 0, 0⟩

/-- A field of a `VALUES` list: the white space in front of it, whether it is
written in double quotes, and its text (between the quotes, or up to the
comma). -/
structure Field where
  lead : CStr
  quoted : Bool
  text : CStr

/-- The text begins with a character that is neither white space nor a double
quote. -/
def starts_plain (t : CStr) : Prop :=
  match t with
  | [] => False
  | c :: _ => isspace c = false ∧ c ≠ '"'

instance (t : CStr) : Decidable (starts_plain t) := by
  cases t <;> unfold starts_plain <;> infer_instance

/-- A field as `parse_values_list` expects it: only white space in front; no
double quote inside the quotes; an unquoted text begins with a character that
is neither white space nor a double quote, and holds no comma. -/
def Field.ok (f : Field) : Prop :=
  blank f.lead ∧
  (f.quoted = true → '"' ∉ f.text) ∧
  (f.quoted = false → starts_plain f.text ∧ ',' ∉ f.text)

instance (f : Field) : Decidable f.ok := by unfold Field.ok; infer_instance

/-- The field as written in the list. -/
def Field.render (f : Field) : CStr :=
  f.lead ++ (if f.quoted then '"' :: (f.text ++ ['"']) else f.text)

/-- The list as written: the fields with one comma between two of them, the
closing quote of a quoted field directly in front of the comma. -/
def render_fields : List Field → CStr
  | [] => []
  | [f] => f.render
  | f :: g :: fs => f.render ++ ',' :: render_fields (g :: fs)

/-- The value of a field: its text without trailing white space. -/
def Field.value (f : Field) : CStr := rtrim f.text


/-! ## Tables after a mutation -/

/-- The table after `delete_where_eq` on the column `where_col` and the value
`val`: the rows whose cell is not `val`, and their number less in `num_rows`. -/
def Table.after_delete (t : Table) (where_col val : CStr) : Table :=
  { t with
    rows := t.rows.filter fun r => !cell_is r (t.position where_col) val
    num_rows := t.num_rows - t.rows.countP fun r => cell_is r (t.position where_col) val }

/-- The table after `update_where_eq`: every row whose `where_col` cell is
`val` has `set_val` in its `set_col` cell. -/
def Table.after_update (t : Table) (set_col set_val where_col val : CStr) : Table :=
  { t with
    rows := t.rows.map (updated_row (t.position where_col) (t.position set_col) val set_val) }

/-! ## The limits of the text format, as the specification words them -/

/-- A name that is not empty, at most 63 bytes long and free of white space. -/
def plain_name (s : CStr) : Prop := s ≠ [] ∧ s.length ≤ 63 ∧ ∀ c ∈ s, isspace c = false

/-- A cell that is a text without tab and newline. -/
def plain_cell (v : Option CStr) : Prop :=
  match v with
  | none => False
  | some s => '\t' ∉ s ∧ '\n' ∉ s

/-- A database that the C types can hold: the counts fit an `int` and no
string holds a NUL. -/
def Database.representable (db : Database) : Prop :=
  db.tables.length < 2 ^ 31 ∧
  ∀ t ∈ db.tables, t.columns.length < 2 ^ 31 ∧ t.num_rows < 2 ^ 31 ∧ NUL ∉ t.name ∧
    (∀ c ∈ t.columns, NUL ∉ c.name) ∧
    ∀ r ∈ t.rows, ∀ v ∈ r.values, NUL ∉ cell_text v

/-- The database left by `create_table` and one `insert_row` of a `NULL`
value under the row-major layout. -/
def null_cell_db : Database :=
  ⟨[⟨"t".toList, [⟨"id".toList, .COL_INT⟩], 1, [⟨[none]⟩], [⟨"id".toList, .COL_INT, []⟩]⟩], 0, 0⟩

/-- The database `null_cell_db` with the empty text in place of `NULL`. -/
def empty_cell_db : Database :=
  ⟨[⟨"t".toList, [⟨"id".toList, .COL_INT⟩], 1, [⟨[some []]⟩], [⟨"id".toList, .COL_INT, []⟩]⟩], 0, 0⟩

instance (s : CStr) : Decidable (plain_name s) := by unfold plain_name; infer_instance

instance (v : Option CStr) : Decidable (plain_cell v) := by
  cases v <;> unfold plain_cell <;> infer_instance

instance (db : Database) : Decidable db.representable := by
  unfold Database.representable; infer_instance

/-! ## Lemmas on the helpers -/
theorem find_index_eq_none {α : Type} (p : α → Bool) (xs : List α) :
    find_index p xs = none ↔ ∀ x ∈ xs, p x = false := by
  induction xs with
  | nil => simp [find_index]
  | cons x xs ih =>
    by_cases h : p x = true
    · simp [find_index, h]
    · simp [find_index, h, ih]

theorem find_index_append {α : Type} (p : α → Bool) (pre post : List α) (t : α)
    (hpre : ∀ x ∈ pre, p x = false) (ht : p t = true) :
    find_index p (pre ++ t :: post) = some pre.length := by
  induction pre with
  | nil => simp [find_index, ht]
  | cons x xs ih =>
    have hx : p x = false := hpre x (by simp)
    have := ih (fun y hy => hpre y (by simp [hy]))
    simp [find_index, hx, this]

theorem find_index_lt {α : Type} (p : α → Bool) (xs : List α) (i : Nat)
    (h : find_index p xs = some i) : i < xs.length := by
  induction xs generalizing i with
  | nil => simp [find_index] at h
  | cons x xs ih =>
    by_cases hx : p x = true
    · simp [find_index, hx] at h
      subst h
      simp
    · simp [find_index, hx] at h
      obtain ⟨j, hj, rfl⟩ := h
      have := ih j hj
      simp; omega

theorem find_index_is_some {α : Type} (p : α → Bool) (xs : List α) :
    (find_index p xs).isSome = true ↔ ∃ x ∈ xs, p x = true := by
  rw [← Option.ne_none_iff_isSome, Ne, find_index_eq_none]
  simp

theorem for_each_eq_map {α β : Type} (f : α → Option β) (g : α → β) (xs : List α)
    (h : ∀ x ∈ xs, f x = some (g x)) : for_each f xs = some (xs.map g) := by
  induction xs with
  | nil => rfl
  | cons x xs ih =>
    simp [for_each, h x (by simp), ih (fun y hy => h y (by simp [hy]))]

theorem for_each_range' {α β : Type} (f : α → β) (xs : List α) (s n : Nat)
    (h : s + n ≤ xs.length) :
    for_each (fun i => (xs[i]?).map f) (List.range' s n) = some (((xs.drop s).take n).map f) := by
  induction n generalizing s with
  | zero => simp [for_each]
  | succ n ih =>
    have hs : s < xs.length := by omega
    have h1 := ih (s + 1) (by omega)
    rw [List.range'_succ, List.drop_eq_getElem_cons hs]
    simp only [for_each, List.getElem?_eq_getElem hs, Option.map_some', h1, List.take_succ_cons,
      List.map_cons]

theorem for_each_range {α β : Type} (f : α → β) (xs : List α) :
    for_each (fun i => (xs[i]?).map f) (List.range xs.length) = some (xs.map f) := by
  rw [List.range_eq_range', for_each_range' f xs 0 xs.length (by omega)]
  simp

theorem resize_self {α : Type} (xs : List α) (fill : α) : resize xs xs.length fill = xs := by
  simp [resize]

theorem read_slots_self {α : Type} (xs : List α) : read_slots xs xs.length = some xs := by
  simp [read_slots]

/-! ## The engine: create, insert, select -/
/-- C6: when a table of that name already exists, `create_table` returns 0 and
leaves the database unchanged, whatever the columns supplied. -/
theorem create_table_existing_name (db : Database) (name : CStr) (cols : List ColumnDef)
    (h : ∃ t ∈ db.tables, t.name = name) : create_table db name cols = (0, db) := by
  have : (find_table db name).isSome = true := by
    rw [find_table, find_index_is_some]
    obtain ⟨t, ht, hn⟩ := h
    exact ⟨t, ht, by simp [hn]⟩
  simp [create_table, this]

theorem find_table_absent (db : Database) (name : CStr) (h : ∀ t ∈ db.tables, t.name ≠ name) :
    find_table db name = none := by
  rw [find_table, find_index_eq_none]
  intro t ht
  simpa using h t ht

theorem find_table_first (db : Database) (name : CStr) (pre post : List Table) (t : Table)
    (hdb : db.tables = pre ++ t :: post) (hpre : ∀ u ∈ pre, u.name ≠ name) (ht : t.name = name) :
    find_table db name = some pre.length := by
  rw [find_table, hdb]
  exact find_index_append _ pre post t (fun u hu => by simpa using hpre u hu) (by simp [ht])

theorem get_first (pre post : List Table) (t : Table) :
    (pre ++ t :: post)[pre.length]? = some t := by
  rw [List.getElem?_append_right (Nat.le_refl _)]
  simp

/-- C7, as amended: when no table has the given name, `create_table` returns 1
and the registry is the old one followed by one new table, whose name is the
given name cut to its first 63 characters, whose columns are the given ones in
the given order, and which has no rows and empty column stores. -/
theorem create_table_new_name (db : Database) (name : CStr) (cols : List ColumnDef)
    (h : ∀ t ∈ db.tables, t.name ≠ name) :
    create_table db name cols =
      (1, { db with tables := db.tables ++
        [⟨name.take 63, cols, 0, [], cols.map fun c => ⟨c.name.take 63, c.type, []⟩⟩] }) := by
  simp [create_table, find_table_absent db name h, new_table, strncpy, MAX_NAME_LEN]

/-- C8: `insert_row` returns 0 and leaves the whole database unchanged when no
table has the given name, and when the table found (the first of that name)
has a number of columns different from the number of values supplied.  This
holds under either layout. -/
theorem insert_row_failure_unchanged (db : Database) (name : CStr) (values : List (Option CStr))
    (h : (∀ t ∈ db.tables, t.name ≠ name) ∨
      ∃ pre t post, db.tables = pre ++ t :: post ∧ (∀ u ∈ pre, u.name ≠ name) ∧ t.name = name ∧
        values.length ≠ t.columns.length) :
    insert_row db name values = some (0, db) := by
  rcases h with h | ⟨pre, t, post, hdb, hpre, ht, hlen⟩
  · simp [insert_row, find_table_absent db name h]
  · simp only [insert_row, find_table_first db name pre post t hdb hpre ht]
    rw [hdb, get_first]
    simp [Table.num_columns, hlen]

theorem insert_row_row_major (db : Database) (name : CStr) (values : List (Option CStr))
    (pre post : List Table) (t : Table)
    (hdb : db.tables = pre ++ t :: post) (hpre : ∀ u ∈ pre, u.name ≠ name) (ht : t.name = name)
    (hmode : db.column_store = 0) (hrows : t.rows.length = t.num_rows)
    (hlen : values.length = t.columns.length) :
    insert_row db name values = some (1, { db with tables :=
      pre ++ { t with rows := t.rows ++ [⟨values⟩], num_rows := t.num_rows + 1 } :: post }) := by
  simp only [insert_row, find_table_first db name pre post t hdb hpre ht]
  rw [hdb, get_first]
  simp [Table.num_columns, hlen, hmode, insert_row_major, ← hrows, resize_self]

theorem insert_rows_row_major (db : Database) (name : CStr) (vs : List (List (Option CStr)))
    (pre post : List Table) (t : Table)
    (hdb : db.tables = pre ++ t :: post) (hpre : ∀ u ∈ pre, u.name ≠ name) (ht : t.name = name)
    (hmode : db.column_store = 0) (hrows : t.rows.length = t.num_rows)
    (hlen : ∀ v ∈ vs, v.length = t.columns.length) :
    insert_rows db name vs = some { db with tables :=
      pre ++ { t with rows := t.rows ++ vs.map Row.mk, num_rows := t.num_rows + vs.length } :: post } := by
  induction vs generalizing db t with
  | nil =>
    cases db
    simp at hdb
    simp [insert_rows, hdb]
  | cons v vs ih =>
    have h1 := insert_row_row_major db name v pre post t hdb hpre ht hmode hrows (hlen v (by simp))
    simp only [insert_rows, h1]
    rw [ih { db with tables := pre ++
        { t with rows := t.rows ++ [⟨v⟩], num_rows := t.num_rows + 1 } :: post }
      { t with rows := t.rows ++ [⟨v⟩], num_rows := t.num_rows + 1 } rfl ht hmode
      (by simp [hrows]) (fun w hw => hlen w (by simp [hw]))]
    simp [Nat.add_assoc, Nat.add_comm 1]

theorem print_fields_eq (fields : List CStr) : print_fields fields = shown_line fields := by
  unfold print_fields
  induction fields with
  | nil => rfl
  | cons f fs ih =>
    cases fs with
    | nil => simp [List.intercalate, shown_line]
    | cons g gs =>
      have e : (" | ".toList.intercalate (f :: g :: gs))
          = f ++ (' ' :: '|' :: ' ' :: " | ".toList.intercalate (g :: gs)) := by
        simp [List.intercalate, List.intersperse]
      rw [e, shown_line, ← ih]
      simp

theorem print_header_all (t : Table) :
    print_header t (List.range t.num_columns) = some (shown_line (t.columns.map (·.name))) := by
  simp [print_header, Table.num_columns, for_each_range, print_fields_eq]

theorem print_row_all (r : Row) (n : Nat) (h : r.values.length = n) :
    print_row r (List.range n) = some (shown_row r) := by
  subst h
  simp [print_row, shown_row, for_each_range, print_fields_eq]

theorem select_all_row_major (db : Database) (name : CStr) (pre post : List Table) (t : Table)
    (hdb : db.tables = pre ++ t :: post) (hpre : ∀ u ∈ pre, u.name ≠ name) (ht : t.name = name)
    (hmode : db.column_store = 0) (hok : t.row_major_ok) :
    select_all db name = some ⟨some 1,
      shown_line (t.columns.map (·.name)) ++ (t.rows.map shown_row).flatten⟩ := by
  obtain ⟨h1, h2⟩ := hok
  have h3 : for_each (fun r => print_row r (List.range t.num_columns)) t.rows
      = some (t.rows.map shown_row) :=
    for_each_eq_map _ _ _ (fun r hr => print_row_all r _ (h2 r hr))
  simp only [select_all, find_table_first db name pre post t hdb hpre ht]
  rw [hdb, get_first]
  simp [hmode, print_header_all, ← h1, read_slots_self, h3]

/-- C9: under the row-major layout, inserting the value lists `vs` (each with
one value per column) one after the other into a table held row-major
succeeds every time, leaves the old rows unchanged and followed by the new
rows in the order of insertion, and `select_all` then prints the header and
exactly these rows, in that order, each with the inserted cells. -/
theorem select_all_insertion_order (db : Database) (name : CStr) (pre post : List Table)
    (t : Table) (vs : List (List (Option CStr)))
    (hdb : db.tables = pre ++ t :: post) (hpre : ∀ u ∈ pre, u.name ≠ name) (ht : t.name = name)
    (hmode : db.column_store = 0) (hok : t.row_major_ok)
    (hlen : ∀ v ∈ vs, v.length = t.columns.length) :
    ∃ db', insert_rows db name vs = some db' ∧
      db'.tables = pre ++ { t with rows := t.rows ++ vs.map Row.mk,
                                   num_rows := t.num_rows + vs.length } :: post ∧
      select_all db' name = some ⟨some 1,
        shown_line (t.columns.map (·.name)) ++
          ((t.rows ++ vs.map Row.mk).map shown_row).flatten⟩ := by
  refine ⟨_, insert_rows_row_major db name vs pre post t hdb hpre ht hmode hok.1 hlen, rfl, ?_⟩
  refine select_all_row_major ⟨pre ++ (⟨t.name, t.columns, t.num_rows + vs.length,
      t.rows ++ vs.map Row.mk, t.column_data⟩ : Table) :: post, db.binary_mode, db.column_store⟩
    name pre post ⟨t.name, t.columns, t.num_rows + vs.length,
      t.rows ++ vs.map Row.mk, t.column_data⟩ rfl hpre ht hmode ?_
  constructor
  · simp [hok.1]
  · intro r hr
    simp only [List.mem_append, List.mem_map] at hr
    rcases hr with hr | ⟨v, hv, rfl⟩
    · exact hok.2 r hr
    · exact hlen v hv

theorem find_index_first_position (cols : List ColumnDef) (c : CStr)
    (h : c ∈ cols.map (·.name)) :
    find_index (fun cd => cd.name == c) cols = some (first_position c (cols.map (·.name))) := by
  induction cols with
  | nil => simp at h
  | cons cd cds ih =>
    by_cases hc : cd.name = c
    · simp [find_index, first_position, hc]
    · have hc' : ¬ c = cd.name := fun e => hc e.symm
      simp only [List.map_cons, List.mem_cons, hc', false_or] at h
      simp [find_index, first_position, hc, ih h]

theorem column_index_position (t : Table) (c : CStr) (h : c ∈ t.column_names) :
    column_index t c = some (t.position c) :=
  find_index_first_position t.columns c h

theorem first_position_get (c : CStr) (xs : List CStr) (h : c ∈ xs) :
    first_position c xs < xs.length ∧ xs[first_position c xs]? = some c := by
  induction xs with
  | nil => simp at h
  | cons x xs ih =>
    by_cases hc : x = c
    · simp [first_position, hc]
    · have hc' : ¬ c = x := fun e => hc e.symm
      simp only [List.mem_cons, hc', false_or] at h
      obtain ⟨h1, h2⟩ := ih h
      refine ⟨by simp [first_position, hc, h1], ?_⟩
      simpa [first_position, hc] using h2

theorem position_lt (t : Table) (c : CStr) (h : c ∈ t.column_names) :
    t.position c < t.columns.length := by
  have := (first_position_get c t.column_names h).1
  simpa [Table.position, Table.column_names] using this

theorem position_name (t : Table) (c : CStr) (h : c ∈ t.column_names) :
    (t.columns[t.position c]?).map (·.name) = some c := by
  have h1 := (first_position_get c t.column_names h).2
  simpa [Table.position, Table.column_names] using h1

theorem resolve_columns_positions (t : Table) (cols : List CStr)
    (h : ∀ c ∈ cols, c ∈ t.column_names) :
    resolve_columns t cols = .ok (cols.map t.position) := by
  induction cols with
  | nil => rfl
  | cons c cs ih =>
    simp [resolve_columns, column_index_position t c (h c (by simp)),
      ih (fun d hd => h d (by simp [hd]))]

theorem print_header_positions (t : Table) (cols : List CStr)
    (h : ∀ c ∈ cols, c ∈ t.column_names) :
    print_header t (cols.map t.position) = some (shown_line cols) := by
  have : for_each (fun idx => (t.columns[idx]?).map (·.name)) (cols.map t.position)
      = some (cols.map id) := by
    induction cols with
    | nil => rfl
    | cons c cs ih =>
      simp only [List.map_cons, for_each, position_name t c (h c (by simp)),
        ih (fun d hd => h d (by simp [hd]))]
      rfl
  simp [print_header, this, print_fields_eq]

theorem print_row_cells (r : Row) (idxs : List Nat) (h : ∀ i ∈ idxs, i < r.values.length) :
    print_row r idxs = some (shown_cells r idxs) := by
  have : for_each (fun idx => (r.values[idx]?).map (·.getD "NULL".toList)) idxs
      = some (idxs.map fun i => ((r.values[i]?).getD none).getD "NULL".toList) := by
    apply for_each_eq_map
    intro i hi
    simp [List.getElem?_eq_getElem (h i hi)]
  rw [print_row, this]
  simp [shown_cells, print_fields_eq]

theorem print_matching_rows_filter (rows : List Row) (w : Nat) (val : CStr) (idxs : List Nat)
    (hw : ∀ r ∈ rows, w < r.values.length)
    (hidx : ∀ r ∈ rows, ∀ i ∈ idxs, i < r.values.length) :
    print_matching_rows rows w val idxs =
      some (((rows.filter fun r => cell_is r w val).map fun r => shown_cells r idxs).flatten) := by
  induction rows with
  | nil => rfl
  | cons r rs ih =>
    have ih' := ih (fun x hx => hw x (by simp [hx])) (fun x hx => hidx x (by simp [hx]))
    have hr := hw r (by simp)
    have hp := print_row_cells r idxs (hidx r (by simp))
    simp only [print_matching_rows, List.getElem?_eq_getElem hr, ih', Option.bind_eq_bind,
      Option.some_bind, Option.pure_def]
    cases hv : r.values[w] with
    | none =>
      simp [cell_matches, cell_is, List.filter_cons, List.getElem?_eq_getElem hr, hv]
    | some s =>
      by_cases hs : s = val
      · simp [cell_matches, cell_is, List.filter_cons, List.getElem?_eq_getElem hr, hv, hs, hp]
      · simp [cell_matches, cell_is, List.filter_cons, List.getElem?_eq_getElem hr, hv, hs]

/-- C10: under the row-major layout, for a table held row-major, an existing
where column and requested columns that all exist, `select_where_eq` returns 1
and prints the header followed by exactly the rows whose stored cell at the
where column is the string `where_val`, in row order, and no other row; a
`NULL` or empty cell does not match a non-empty value. -/
theorem select_where_eq_filter (db : Database) (name : CStr) (pre post : List Table) (t : Table)
    (cols : List CStr) (where_col where_val : CStr)
    (hdb : db.tables = pre ++ t :: post) (hpre : ∀ u ∈ pre, u.name ≠ name) (ht : t.name = name)
    (hmode : db.column_store = 0) (hok : t.row_major_ok)
    (hwhere : where_col ∈ t.column_names) (hcols : ∀ c ∈ cols, c ∈ t.column_names) :
    select_where_eq db name cols where_col where_val = some ⟨some 1,
      shown_line cols ++
        ((t.rows.filter fun r => cell_is r (t.position where_col) where_val).map
          fun r => shown_cells r (cols.map t.position)).flatten⟩ ∧
    (∀ r, cell_is r (t.position where_col) where_val = true ↔
      r.values[t.position where_col]? = some (some where_val)) ∧
    (∀ r i, where_val ≠ [] → r.values[i]? = some (some []) ∨ r.values[i]? = some none →
      cell_is r i where_val = false) := by
  obtain ⟨h1, h2⟩ := hok
  refine ⟨?_, ?_, ?_⟩
  · have hm : ¬ db.column_store = 1 := by rw [hmode]; decide
    have hrows := print_matching_rows_filter t.rows (t.position where_col) where_val
      (cols.map t.position)
      (fun r hr => by rw [h2 r hr]; exact position_lt t where_col hwhere)
      (fun r hr i hi => by
        rw [h2 r hr]
        obtain ⟨c, hc, rfl⟩ := List.mem_map.1 hi
        exact position_lt t c (hcols c hc))
    simp only [select_where_eq, hm, if_false, find_table_first db name pre post t hdb hpre ht]
    rw [hdb, get_first]
    simp [column_index_position t where_col hwhere, resolve_columns_positions t cols hcols,
      print_header_positions t cols hcols, ← h1, read_slots_self, hrows]
  · intro r
    simp [cell_is]
  · intro r i hne h
    rcases h with h | h
    · simp [cell_is, h]
      exact fun e => hne e
    · simp [cell_is, h]

/-! ### Concrete instances of the engine theorems -/

/-- The duplicate-name rule at `sample_db`: a second table `t` is refused. -/
theorem create_table_existing_name_witness :
    (∃ t ∈ sample_db.tables, t.name = "t".toList) ∧
      create_table sample_db "t".toList [] = (0, sample_db) :=
  ⟨⟨sample_table, by decide, by decide⟩,
    create_table_existing_name sample_db "t".toList [] ⟨sample_table, by decide, by decide⟩⟩

/-- C7, counterexample: a name of 64 characters is not present in the empty
database, `create_table` succeeds, and the table registered does not carry the
given name but its first 63 characters. -/
theorem create_table_long_name_counterexample :
    (∀ t ∈ empty_db.tables, t.name ≠ List.replicate 64 'a') ∧
      create_table empty_db (List.replicate 64 'a') [] =
        (1, ⟨[⟨List.replicate 63 'a', [], 0, [], []⟩], 0, 0⟩) ∧
      List.replicate 63 'a' ≠ List.replicate 64 'a' := by
  decide

/-- The creation rule at `sample_db`: the table `u (k FLOAT)` is appended. -/
theorem create_table_new_name_witness :
    (∀ t ∈ sample_db.tables, t.name ≠ "u".toList) ∧
      create_table sample_db "u".toList [⟨"k".toList, .COL_FLOAT⟩] =
        (1, ⟨[sample_table, ⟨"u".toList, [⟨"k".toList, .COL_FLOAT⟩], 0, [],
          [⟨"k".toList, .COL_FLOAT, []⟩]⟩], 0, 0⟩) :=
  ⟨by decide, create_table_new_name sample_db "u".toList [⟨"k".toList, .COL_FLOAT⟩] (by decide)⟩

/-- The arity rule at `sample_db`: one value for the two columns of `t` is
refused. -/
theorem insert_row_failure_unchanged_witness :
    (∃ pre t post, sample_db.tables = pre ++ t :: post ∧ (∀ u ∈ pre, u.name ≠ "t".toList) ∧
        t.name = "t".toList ∧ [some "9".toList].length ≠ t.columns.length) ∧
      insert_row sample_db "t".toList [some "9".toList] = some (0, sample_db) :=
  ⟨⟨[], sample_table, [], by decide, by decide, by decide, by decide⟩,
    insert_row_failure_unchanged sample_db "t".toList [some "9".toList]
      (Or.inr ⟨[], sample_table, [], by decide, by decide, by decide, by decide⟩)⟩

/-- Insertion order at `sample_db`: after the insert of `(2, b)` the table
holds `(1, a)`, `(2, b)` and `select_all` prints them in that order. -/
theorem select_all_insertion_order_witness :
    sample_table.row_major_ok ∧
    insert_rows sample_db "t".toList [[some "2".toList, some "b".toList]] = some two_row_db ∧
    select_all two_row_db "t".toList = some ⟨some 1, "id | name\n1 | a\n2 | b\n".toList⟩ ∧
    ∃ db', insert_rows sample_db "t".toList [[some "2".toList, some "b".toList]] = some db' ∧
      db'.tables = [two_row_table] ∧
      select_all db' "t".toList = some ⟨some 1, "id | name\n1 | a\n2 | b\n".toList⟩ :=
  ⟨by decide, by decide, by decide,
    select_all_insertion_order sample_db "t".toList [] [] sample_table
      [[some "2".toList, some "b".toList]] (by decide) (by decide) (by decide) (by decide)
      (by decide) (by decide)⟩

/-- The filter at `two_row_db`: `SELECT name, id FROM t WHERE id = 2`. -/
theorem select_where_eq_filter_witness :
    two_row_table.row_major_ok ∧ "id".toList ∈ two_row_table.column_names ∧
    select_where_eq two_row_db "t".toList ["name".toList, "id".toList] "id".toList "2".toList
      = some ⟨some 1, "name | id\nb | 2\n".toList⟩ :=
  ⟨by decide, by decide,
    (select_where_eq_filter two_row_db "t".toList [] [] two_row_table
      ["name".toList, "id".toList] "id".toList "2".toList (by decide) (by decide) (by decide)
      (by decide) (by decide) (by decide) (by decide)).1⟩

/-! ## The codec: `load_database` and the prior content -/

theorem free_database_tables (db freed : Database) (h : free_database db = some freed) :
    init_database freed = ⟨[], db.binary_mode, db.column_store⟩ := by
  unfold free_database at h
  cases hf : for_each free_table db.tables with
  | none => simp [hf] at h
  | some l =>
    simp [hf] at h
    rw [← h]
    rfl

theorem load_database_eq (db : Database) (f : List Char) (hfree : db.releasable) :
    load_database db (some f) =
      match header_count f with
      | none => some ⟨0, ⟨[], db.binary_mode, db.column_store⟩⟩
      | some (k, f2) => load_tables k.toNat ⟨[], db.binary_mode, db.column_store⟩ f2 := by
  obtain ⟨freed, hfreed⟩ := Option.isSome_iff_exists.1 hfree
  unfold header_count load_database
  simp only [hfreed, free_database_tables db freed hfreed]
  cases h1 : fgets 1024 f with
  | none => rfl
  | some p1 =>
    obtain ⟨buf, f1⟩ := p1
    by_cases hm : strncmp_eq (c_str buf) "MINIQLITE".toList 9 = true
    · simp only [hm, if_true, Bool.not_true, Bool.false_eq_true, if_false]
      cases h2 : fgets 1024 f1 with
      | none => rfl
      | some p2 =>
        obtain ⟨buf2, f2⟩ := p2
        simp only []
        split <;> simp_all
    · rw [Bool.not_eq_true] at hm
      simp only [hm, Bool.not_false, if_true]
      rfl

theorem load_database_releasable (db : Database) (f : List Char) (r : LoadResult)
    (h : load_database db (some f) = some r) : db.releasable := by
  unfold load_database at h
  unfold Database.releasable
  cases hf : free_database db with
  | none => simp [hf] at h
  | some freed => rfl

theorem releasable_empty (bm cs : Int) : (⟨[], bm, cs⟩ : Database).releasable := rfl

theorem load_database_prior (db db' : Database) (f : List Char)
    (hb : db'.binary_mode = db.binary_mode) (hc : db'.column_store = db.column_store)
    (hfree : db.releasable) (hfree' : db'.releasable) :
    load_database db' (some f) = load_database db (some f) := by
  rw [load_database_eq db f hfree, load_database_eq db' f hfree', hb, hc]

theorem load_database_header (db : Database) (f : List Char) (hfree : db.releasable)
    (h : header_count f = none) :
    load_database db (some f) = some ⟨0, ⟨[], db.binary_mode, db.column_store⟩⟩ := by
  rw [load_database_eq db f hfree, h]

/-- C5: when `load_database` succeeds on a stream, the database it leaves is
the one the same load yields from any other prior database with the same two
mode flags (whose content can be released), in particular from the empty one:
nothing of the prior tables and rows is left. -/
theorem load_database_replaces (db : Database) (f : List Char) (r : LoadResult)
    (h : load_database db (some f) = some r) (hret : r.ret = 1) :
    (∀ db', db'.binary_mode = db.binary_mode → db'.column_store = db.column_store →
      db'.releasable → load_database db' (some f) = some r) ∧
    load_database ⟨[], db.binary_mode, db.column_store⟩ (some f) = some r := by
  have _ := hret
  have hfree := load_database_releasable db f r h
  exact ⟨fun db' hb hc hf' => by rw [load_database_prior db db' f hb hc hfree hf', h],
    by rw [load_database_prior db ⟨[], db.binary_mode, db.column_store⟩ f rfl rfl hfree
      (releasable_empty _ _), h]⟩

/-- A successful load into `sample_db_binary`: the result is the content of the
stream, whatever the prior tables. -/
theorem load_database_replaces_witness :
    load_database sample_db_binary (some sample_stream) = some ⟨1, ⟨sample_db.tables, 1, 0⟩⟩ ∧
    (∀ db', db'.binary_mode = sample_db_binary.binary_mode →
        db'.column_store = sample_db_binary.column_store → db'.releasable →
        load_database db' (some sample_stream) = some ⟨1, ⟨sample_db.tables, 1, 0⟩⟩) ∧
    load_database ⟨[], sample_db_binary.binary_mode, sample_db_binary.column_store⟩
      (some sample_stream) = some ⟨1, ⟨sample_db.tables, 1, 0⟩⟩ :=
  ⟨by decide,
    load_database_replaces sample_db_binary sample_stream ⟨1, ⟨sample_db.tables, 1, 0⟩⟩
      (by decide) (by decide)⟩


/-- C4, counterexample: when the file cannot be opened the database keeps its
prior table, and when the stream ends before the second announced row the
database is left with the table and the row read before the error. -/
theorem load_database_failure_counterexample :
    (load_database sample_db none = some ⟨0, sample_db⟩ ∧ sample_db.tables ≠ []) ∧
    (load_database empty_db (some short_stream) = some ⟨0, sample_db⟩ ∧
      sample_db.tables ≠ []) := by
  decide

/-- C2, the code at the failing input: `save_database` in binary mode writes
the two header lines and a binary block for the table; `load_database` reads
the block as a text line, does not find `TABLE` in it, leaves the loop and
returns 1 with no table loaded. -/
theorem binary_round_trip_loses_tables :
    ∃ bytes, save_database sample_db_binary true = some ⟨1, some bytes⟩ ∧
      load_database sample_db_binary (some bytes) = some ⟨1, ⟨[], 1, 0⟩⟩ ∧
      sample_db_binary.tables ≠ [] :=
  ⟨_, rfl, by decide, by decide⟩


/-! ## The codec: failures reported by `load_database` -/

theorem load_columns_lines (n : Nat) (f : List Char) :
    (lines_ok column_line_ok n f = true →
      ∃ cols, load_columns n f = some (cols, skip_lines n f)) ∧
    (lines_ok column_line_ok n f = false → load_columns n f = none) := by
  induction n generalizing f with
  | zero => simp [lines_ok, load_columns, skip_lines]
  | succ n ih =>
    unfold lines_ok load_columns skip_lines
    cases h1 : fgets 1024 f with
    | none => simp
    | some p =>
      obtain ⟨buf, f'⟩ := p
      simp only [column_line_ok]
      split
      · rename_i a b hs
        simp only [Bool.true_and]
        constructor
        · intro h
          obtain ⟨cols, hc⟩ := (ih f').1 h
          simp [hc]
        · intro h
          simp [(ih f').2 h]
      · simp

theorem column_stores_create (db : Database) (name : CStr) (cols : List ColumnDef)
    (h : column_stores_ok db) : column_stores_ok (create_table db name cols).2 := by
  unfold create_table
  split
  · exact h
  · intro t ht
    simp only [List.mem_append, List.mem_singleton] at ht
    rcases ht with ht | rfl
    · exact h t ht
    · simp [new_table]

theorem column_stores_insert (db : Database) (name : CStr) (values : List (Option CStr))
    (h : column_stores_ok db) :
    ∃ r, insert_row db name values = some r ∧ column_stores_ok r.2 := by
  unfold insert_row
  cases hf : find_table db name with
  | none => exact ⟨_, rfl, h⟩
  | some i =>
    have hi := find_index_lt _ _ _ hf
    simp only [List.getElem?_eq_getElem hi]
    have hmem : db.tables[i] ∈ db.tables := List.getElem_mem hi
    have hcd := h _ hmem
    by_cases hl : values.length ≠ db.tables[i].num_columns
    · rw [if_pos hl]
      exact ⟨_, rfl, h⟩
    · have hl' : values.length = db.tables[i].columns.length := by
        simpa [Table.num_columns] using hl
      rw [if_neg hl]
      by_cases hm : db.column_store = 0
      · simp only [hm, if_true]
        refine ⟨_, rfl, ?_⟩
        intro t ht
        rcases List.mem_or_eq_of_mem_set ht with ht | rfl
        · exact h t ht
        · simpa [insert_row_major] using hcd
      · simp only [hm, if_false, insert_column_major, read_slots, Table.num_columns, hcd, if_true]
        refine ⟨_, rfl, ?_⟩
        intro t ht
        rcases List.mem_or_eq_of_mem_set ht with ht | rfl
        · exact h t ht
        · simp only [List.length_append, List.length_zipWith, List.length_take, List.length_drop]
          omega


theorem load_rows_lines (n : Nat) (db : Database) (tname : CStr) (num_cols : Nat)
    (f : List Char) (h : column_stores_ok db) :
    (lines_ok row_line_ok n f = true →
      ∃ db', load_rows n db tname num_cols f = some (true, db', skip_lines n f) ∧
        column_stores_ok db') ∧
    (lines_ok row_line_ok n f = false →
      ∃ db' f', load_rows n db tname num_cols f = some (false, db', f') ∧
        column_stores_ok db') := by
  induction n generalizing db f with
  | zero => simp [lines_ok, load_rows, skip_lines, h]
  | succ n ih =>
    unfold lines_ok load_rows skip_lines
    cases h1 : fgets 1024 f with
    | none => simp [h]
    | some p =>
      obtain ⟨buf, f'⟩ := p
      simp only [row_line_ok]
      by_cases hr : strncmp_eq (c_str buf) "ROW".toList 3 = true
      · obtain ⟨r, hins, hr2⟩ := column_stores_insert db tname
          ((parse_row_line (c_str buf) num_cols).map some) h
        simp only [hr, Bool.true_and, Bool.not_true, Bool.false_eq_true, if_false, hins]
        exact ih r.2 f' hr2
      · rw [Bool.not_eq_true] at hr
        simp only [hr, Bool.false_and, Bool.not_false, if_true]
        simp [h]

theorem load_tables_violation (n : Nat) (db : Database) (f : List Char)
    (h : column_stores_ok db) (hv : block_violation n f = true) :
    ∃ db', load_tables n db f = some ⟨0, db'⟩ := by
  induction n generalizing db f with
  | zero => simp [block_violation] at hv
  | succ n ih =>
    unfold block_violation at hv
    unfold load_tables
    cases h1 : fgets 1024 f with
    | none => simp [h1] at hv
    | some p =>
      obtain ⟨buf, f1⟩ := p
      simp only [h1] at hv
      split at hv
      · rename_i tname num_cols num_rows hs
        simp only [hs]
        by_cases hneg : num_cols < 0
        · simp [hneg] at hv
        · simp only [hneg, if_false] at hv ⊢
          cases hc : lines_ok column_line_ok num_cols.toNat f1 with
          | false =>
            rw [(load_columns_lines _ _).2 hc]
            exact ⟨_, rfl⟩
          | true =>
            obtain ⟨cols, hcols⟩ := (load_columns_lines _ _).1 hc
            simp only [hc, Bool.not_true, Bool.false_eq_true, if_false] at hv
            rw [hcols]
            simp only []
            have hdb1 := column_stores_create db tname cols h
            cases hft : find_table (create_table db tname cols).2 tname with
            | none => exact ⟨_, rfl⟩
            | some i =>
              simp only []
              cases hrow : lines_ok row_line_ok num_rows.toNat (skip_lines num_cols.toNat f1) with
              | false =>
                obtain ⟨db2, f3, hl, _⟩ :=
                  (load_rows_lines num_rows.toNat _ tname num_cols.toNat _ hdb1).2 hrow
                rw [hl]
                exact ⟨_, rfl⟩
              | true =>
                obtain ⟨db2, hl, hdb2⟩ :=
                  (load_rows_lines num_rows.toNat _ tname num_cols.toNat _ hdb1).1 hrow
                simp only [hrow, Bool.not_true, Bool.false_eq_true, if_false] at hv
                rw [hl]
                exact ih db2 _ hdb2 hv
      · simp at hv

/-- A stream on which the tests of the loader fail is refused: `load_database`
returns 0 on it. -/
theorem load_database_stream_violation (db : Database) (f : List Char)
    (hfree : db.releasable) (h : stream_violation f = true) :
    ∃ db', load_database db (some f) = some ⟨0, db'⟩ := by
  rw [load_database_eq db f hfree]
  unfold stream_violation at h
  cases hh : header_count f with
  | none => exact ⟨_, rfl⟩
  | some p =>
    obtain ⟨k, f2⟩ := p
    simp only [hh] at h
    exact load_tables_violation k.toNat _ f2 (by intro t ht; simp at ht) h


/-! ## The C library model: lines, numbers, words -/

theorem fgets_chars_line (n : Nat) (l rest : List Char) (hnl : ∀ c ∈ l, c ≠ '\n')
    (hlen : l.length + 1 ≤ n) :
    fgets_chars n (l ++ '\n' :: rest) = (l ++ ['\n'], rest) := by
  induction l generalizing n with
  | nil =>
    obtain ⟨m, rfl⟩ : ∃ m, n = m + 1 := ⟨n - 1, by simp at hlen; omega⟩
    simp [fgets_chars]
  | cons c l ih =>
    obtain ⟨m, rfl⟩ : ∃ m, n = m + 1 := ⟨n - 1, by simp at hlen; omega⟩
    have hc : c ≠ '\n' := hnl c (by simp)
    have := ih m (fun d hd => hnl d (by simp [hd])) (by simp at hlen; omega)
    simp [fgets_chars, hc, this]

theorem fgets_line (l rest : List Char) (hnl : ∀ c ∈ l, c ≠ '\n') (hlen : l.length + 1 ≤ 1023) :
    fgets 1024 (l ++ '\n' :: rest) = some (l ++ ['\n'], rest) := by
  have h := fgets_chars_line 1023 l rest hnl hlen
  cases l with
  | nil => simpa [fgets] using h
  | cons c l => simpa [fgets] using h

theorem c_str_self (buf : List Char) (h : ∀ c ∈ buf, c ≠ NUL) : c_str buf = buf := by
  unfold c_str
  rw [List.takeWhile_eq_self_iff]
  intro c hc
  simpa using h c hc

theorem digits_value_append (ds : List Char) (c : Char) :
    digits_value (ds ++ [c]) = digits_value ds * 10 + (c.toNat - 48) := by
  simp [digits_value, List.foldl_append]

theorem digit_char (d : Nat) (h : d < 10) :
    isdigit (Char.ofNat (48 + d)) = true ∧ (Char.ofNat (48 + d)).toNat - 48 = d := by
  interval_cases d <;> decide

theorem dec_digits_spec (fuel n : Nat) (h : n < fuel) :
    dec_digits fuel n ≠ [] ∧ (∀ c ∈ dec_digits fuel n, isdigit c = true) ∧
      digits_value (dec_digits fuel n) = n := by
  induction fuel generalizing n with
  | zero => omega
  | succ fuel ih =>
    unfold dec_digits
    by_cases h10 : n < 10
    · have := digit_char n h10
      simp [h10, this, digits_value]
    · have hd := digit_char (n % 10) (Nat.mod_lt _ (by decide))
      obtain ⟨h1, h2, h3⟩ := ih (n / 10) (by omega)
      simp only [h10, if_false]
      refine ⟨by simp, ?_, ?_⟩
      · intro c hc
        simp only [List.mem_append, List.mem_singleton] at hc
        rcases hc with hc | rfl
        · exact h2 c hc
        · exact hd.1
      · rw [digits_value_append, h3, hd.2]
        omega

theorem dec_digits_length (fuel n k : Nat) (h : n < 10 ^ (k + 1)) :
    (dec_digits fuel n).length ≤ k + 1 := by
  induction fuel generalizing n k with
  | zero => simp [dec_digits]
  | succ fuel ih =>
    unfold dec_digits
    by_cases h10 : n < 10
    · simp [h10]
    · simp only [h10, if_false, List.length_append, List.length_singleton]
      cases k with
      | zero => simp at h; omega
      | succ k =>
        have : n / 10 < 10 ^ (k + 1) := by
          rw [Nat.div_lt_iff_lt_mul (by decide)]
          rw [pow_succ] at h
          exact h
        have := ih (n / 10) k this
        omega


theorem takeWhile_append_stop {p : Char → Bool} (l : List Char) (c : Char) (rest : List Char)
    (hl : ∀ x ∈ l, p x = true) (hc : p c = false) :
    (l ++ c :: rest).takeWhile p = l ∧ (l ++ c :: rest).dropWhile p = c :: rest := by
  induction l with
  | nil => simp [List.takeWhile, List.dropWhile, hc]
  | cons x l ih =>
    have hx := hl x (by simp)
    have := ih (fun y hy => hl y (by simp [hy]))
    simp [List.takeWhile, List.dropWhile, hx, this]

theorem scan_digits_dec (n : Nat) (c : Char) (rest : List Char) (hc : isdigit c = false) :
    scan_digits (dec_digits (n + 1) n ++ c :: rest) = some (n, c :: rest) := by
  obtain ⟨h1, h2, h3⟩ := dec_digits_spec (n + 1) n (by omega)
  obtain ⟨t1, t2⟩ := takeWhile_append_stop (dec_digits (n + 1) n) c rest h2 hc
  unfold scan_digits
  rw [t1, t2]
  cases hd : dec_digits (n + 1) n with
  | nil => exact absurd hd h1
  | cons x xs => simp [← hd, h3]

theorem to_int_small (n : Nat) (h : n < 2 ^ 31) : to_int n = n := by
  unfold to_int
  have h1 : min (n : Int) (2 ^ 63 - 1) = n := by
    apply min_eq_left
    have : (n : Int) < 2 ^ 31 := by exact_mod_cast h
    omega
  have h2 : max (-(2 ^ 63)) (n : Int) = n := by
    apply max_eq_right
    omega
  rw [h1, h2]
  have : (n : Int) < 2 ^ 31 := by exact_mod_cast h
  omega

theorem fmt_d_nat (n : Nat) : fmt_d (n : Int) = dec_digits (n + 1) n := by
  simp [fmt_d]

theorem scan_int_dec (n : Nat) (c : Char) (rest : List Char) (hc : isdigit c = false)
    (h : n < 2 ^ 31) :
    scan_int (fmt_d (n : Int) ++ c :: rest) = some ((n : Int), c :: rest) := by
  rw [fmt_d_nat]
  obtain ⟨h1, h2, _⟩ := dec_digits_spec (n + 1) n (by omega)
  have hs := scan_digits_dec n c rest hc
  cases hd : dec_digits (n + 1) n with
  | nil => exact absurd hd h1
  | cons x xs =>
    have hx : isdigit x = true := h2 x (by simp [hd])
    rw [hd] at hs
    have hminus : x ≠ '-' := by
      intro e; rw [e] at hx; exact absurd hx (by decide)
    have hplus : x ≠ '+' := by
      intro e; rw [e] at hx; exact absurd hx (by decide)
    simp only [List.cons_append] at hs ⊢
    unfold scan_int
    split
    · rename_i heq
      simp only [List.cons.injEq] at heq
      exact absurd heq.1 hminus
    · rename_i heq
      simp only [List.cons.injEq] at heq
      exact absurd heq.1 hplus
    · simp [hs, to_int_small n h]

theorem scan_str_word (w : Nat) (s : CStr) (c : Char) (rest : List Char)
    (hne : s ≠ []) (hlen : s.length ≤ w) (hs : ∀ x ∈ s, isspace x = false)
    (hc : isspace c = true) :
    scan_str w (s ++ c :: rest) = some (s, c :: rest) := by
  have ht := (takeWhile_append_stop (p := fun x => !isspace x) s c rest
    (fun x hx => by simp [hs x hx]) (by simp [hc])).1
  unfold scan_str
  rw [ht, List.take_of_length_le hlen]
  cases s with
  | nil => exact absurd rfl hne
  | cons x xs => simp

theorem dropWhile_space_word (s rest : List Char) (hne : s ≠ [])
    (hs : ∀ x ∈ s, isspace x = false) :
    (' ' :: (s ++ rest)).dropWhile isspace = s ++ rest := by
  cases s with
  | nil => exact absurd rfl hne
  | cons x xs =>
    have hx := hs x (by simp)
    have h1 : isspace ' ' = true := by decide
    simp [List.dropWhile, h1, hx]

theorem isdigit_not_space (c : Char) (h : isdigit c = true) : isspace c = false := by
  unfold isdigit at h
  simp only [decide_eq_true_eq] at h
  unfold isspace
  have h1 : c ≠ ' ' := by rintro rfl; exact absurd h (by decide)
  have h2 : c ≠ '\t' := by rintro rfl; exact absurd h (by decide)
  have h3 : c ≠ '\n' := by rintro rfl; exact absurd h (by decide)
  have h4 : c ≠ '\x0b' := by rintro rfl; exact absurd h (by decide)
  have h5 : c ≠ '\x0c' := by rintro rfl; exact absurd h (by decide)
  have h6 : c ≠ '\r' := by rintro rfl; exact absurd h (by decide)
  simp [h1, h2, h3, h4, h5, h6]

theorem fmt_d_nat_spec (n : Nat) :
    fmt_d (n : Int) ≠ [] ∧ ∀ c ∈ fmt_d (n : Int), isdigit c = true := by
  rw [fmt_d_nat]
  obtain ⟨h1, h2, _⟩ := dec_digits_spec (n + 1) n (by omega)
  exact ⟨h1, h2⟩


theorem dropWhile_word (s rest : List Char) (hne : s ≠ [])
    (hs : ∀ x ∈ s, isspace x = false) :
    (s ++ rest).dropWhile isspace = s ++ rest := by
  cases s with
  | nil => exact absurd rfl hne
  | cons x xs =>
    have hx := hs x (by simp)
    simp [List.dropWhile, hx]

theorem sscanf_table_line (name : CStr) (nc nr : Nat) (hn : name_ok name)
    (hnc : nc < 2 ^ 31) (hnr : nr < 2 ^ 31) :
    sscanf (table_line name nc nr ++ ['\n']) fmt_table = [.str name, .int nc, .int nr] := by
  obtain ⟨hne, hlen, hch⟩ := hn
  have hsp : ∀ x ∈ name, isspace x = false := fun x hx => (hch x hx).1
  obtain ⟨c1, c2⟩ := fmt_d_nat_spec nc
  obtain ⟨r1, r2⟩ := fmt_d_nat_spec nr
  have e1 : (' ' :: (name ++ ' ' :: (fmt_d nc ++ ' ' :: fmt_d nr) ++ ['\n'])).dropWhile isspace
      = name ++ (' ' :: (fmt_d nc ++ ' ' :: (fmt_d nr ++ ['\n']))) := by
    have := dropWhile_space_word name (' ' :: (fmt_d nc ++ ' ' :: (fmt_d nr ++ ['\n']))) hne hsp
    simpa using this
  have e2 := dropWhile_word name (' ' :: (fmt_d nc ++ ' ' :: (fmt_d nr ++ ['\n']))) hne hsp
  have e3 := scan_str_word 63 name ' ' (fmt_d nc ++ ' ' :: (fmt_d nr ++ ['\n'])) hne hlen hsp
    (by decide)
  have e4 := dropWhile_space_word (fmt_d nc) (' ' :: (fmt_d nr ++ ['\n'])) c1
    (fun x hx => isdigit_not_space x (c2 x hx))
  have e5 := dropWhile_word (fmt_d nc) (' ' :: (fmt_d nr ++ ['\n'])) c1
    (fun x hx => isdigit_not_space x (c2 x hx))
  have e6 := scan_int_dec nc ' ' (fmt_d nr ++ ['\n']) (by decide) hnc
  have e7 := dropWhile_space_word (fmt_d nr) ['\n'] r1
    (fun x hx => isdigit_not_space x (r2 x hx))
  have e8 := dropWhile_word (fmt_d nr) ['\n'] r1
    (fun x hx => isdigit_not_space x (r2 x hx))
  have e9 := scan_int_dec nr '\n' [] (by decide) hnr
  simp only [table_line, fmt_table, lits]
  simp only [String.toList, List.map, List.cons_append, List.nil_append, sscanf, if_true, e1, e2,
    e3, e4, e5, e6, e7, e8, e9]


theorem type_word_spec (ty : ColumnType) :
    column_type_to_string ty ≠ [] ∧ (column_type_to_string ty).length ≤ 31 ∧
      (∀ x ∈ column_type_to_string ty, isspace x = false) ∧
      (∀ x ∈ column_type_to_string ty, x ≠ '\n' ∧ x ≠ NUL) ∧
      parse_column_type (some (column_type_to_string ty)) = ty := by
  cases ty <;> decide

theorem sscanf_column_line (c : ColumnDef) (hn : name_ok c.name) :
    sscanf (column_line c ++ ['\n']) fmt_column
      = [.str c.name, .str (column_type_to_string c.type)] := by
  obtain ⟨hne, hlen, hch⟩ := hn
  have hsp : ∀ x ∈ c.name, isspace x = false := fun x hx => (hch x hx).1
  obtain ⟨t1, t2, t3, _, _⟩ := type_word_spec c.type
  have e1 : (' ' :: (c.name ++ ' ' :: column_type_to_string c.type ++ ['\n'])).dropWhile isspace
      = c.name ++ (' ' :: (column_type_to_string c.type ++ ['\n'])) := by
    have := dropWhile_space_word c.name (' ' :: (column_type_to_string c.type ++ ['\n'])) hne hsp
    simpa using this
  have e2 := dropWhile_word c.name (' ' :: (column_type_to_string c.type ++ ['\n'])) hne hsp
  have e3 := scan_str_word 63 c.name ' ' (column_type_to_string c.type ++ ['\n']) hne hlen hsp
    (by decide)
  have e4 := dropWhile_space_word (column_type_to_string c.type) ['\n'] t1 t3
  have e5 := dropWhile_word (column_type_to_string c.type) ['\n'] t1 t3
  have e6 := scan_str_word 31 (column_type_to_string c.type) '\n' [] t1 t2 t3 (by decide)
  simp only [column_line, fmt_column, lits]
  simp only [String.toList, List.map, List.cons_append, List.nil_append, sscanf, if_true, e1, e2,
    e3, e4, e5, e6]

theorem sscanf_table_count_line (n : Nat) (hn : n < 2 ^ 31) :
    sscanf ("TABLE_COUNT ".toList ++ fmt_d n ++ ['\n']) fmt_table_count = [.int n] := by
  obtain ⟨r1, r2⟩ := fmt_d_nat_spec n
  have e7 := dropWhile_space_word (fmt_d n) ['\n'] r1
    (fun x hx => isdigit_not_space x (r2 x hx))
  have e8 := dropWhile_word (fmt_d n) ['\n'] r1
    (fun x hx => isdigit_not_space x (r2 x hx))
  have e9 := scan_int_dec n '\n' [] (by decide) hn
  simp only [fmt_table_count, lits]
  simp only [String.toList, List.map, List.cons_append, List.nil_append, List.append_assoc,
    sscanf, if_true, e7, e8, e9]

theorem strchr_none (s : CStr) (c : Char) (h : ∀ x ∈ s, x ≠ c) : strchr s c = none := by
  unfold strchr
  have : s.dropWhile (· != c) = [] := by
    rw [List.dropWhile_eq_nil_iff]
    intro x hx
    simpa using h x hx
  rw [this]

theorem strchr_first (s rest : CStr) (c : Char) (h : ∀ x ∈ s, x ≠ c) :
    strchr (s ++ c :: rest) c = some (c :: rest) ∧
      (s ++ c :: rest).takeWhile (· != c) = s := by
  obtain ⟨h1, h2⟩ := takeWhile_append_stop (p := (· != c)) s c rest
    (fun x hx => by simpa using h x hx) (by simp)
  unfold strchr
  rw [h2]
  exact ⟨rfl, h1⟩

theorem read_row_values_cells (cells : List CStr) (k : Nat)
    (hk : cells.length ≤ k) (hne : cells ≠ [])
    (hc : ∀ s ∈ cells, ∀ x ∈ s, x ≠ '\t' ∧ x ≠ '\n') :
    read_row_values k (cells_text cells ++ ['\n']) = cells := by
  induction cells generalizing k with
  | nil => exact absurd rfl hne
  | cons s ss ih =>
    obtain ⟨m, rfl⟩ : ∃ m, k = m + 1 := ⟨k - 1, by simp at hk; omega⟩
    have hs := hc s (by simp)
    cases ss with
    | nil =>
      have h1 : strchr (s ++ ['\n']) '\t' = none := by
        apply strchr_none
        intro x hx
        simp only [List.mem_append, List.mem_singleton] at hx
        rcases hx with hx | rfl
        · exact (hs x hx).1
        · decide
      have h2 := (takeWhile_append_stop (p := (· != '\n')) s '\n' []
        (fun x hx => by simpa using (hs x hx).2) (by simp)).1
      simp [cells_text, read_row_values, h1, h2]
    | cons s2 ss2 =>
      have h1 := strchr_first s (cells_text (s2 :: ss2) ++ ['\n']) '\t' (fun x hx => (hs x hx).1)
      have h2 := ih m (by simp at hk ⊢; omega) (by simp)
        (fun t ht => hc t (by simp [ht]))
      simp only [cells_text, List.append_assoc, List.cons_append, read_row_values, h1.1, h1.2,
        List.drop_succ_cons, List.drop_zero]
      rw [h2]


/-! ## The codec: what `save_database` writes in text format -/

theorem save_table_text_eq (t : Table) (hrows : t.rows.length = t.num_rows)
    (hcells : ∀ r ∈ t.rows, r.values.length = t.columns.length) :
    save_table_text t = some (table_text t) := by
  have h1 : read_slots t.rows t.num_rows = some t.rows := by
    rw [← hrows]; exact read_slots_self _
  have h2 : for_each (fun r : Row => do
      let vals ← read_slots r.values t.num_columns
      pure ("ROW".toList ++ (vals.map fun v => '\t' :: v.getD []).flatten ++ ['\n'])) t.rows
      = some (t.rows.map fun r => row_line r ++ ['\n']) := by
    apply for_each_eq_map
    intro r hr
    have : read_slots r.values t.num_columns = some r.values := by
      rw [Table.num_columns, ← hcells r hr]; exact read_slots_self _
    rw [this]
    rfl
  unfold save_table_text
  simp only [Option.bind_eq_bind, Option.pure_def] at h2 ⊢
  rw [h1, Option.some_bind, h2, Option.some_bind]
  simp [table_text, table_line, column_line, Table.num_columns]

theorem save_database_text_eq (db : Database) (hfmt : db.binary_mode = 0)
    (hrows : ∀ t ∈ db.tables, t.rows.length = t.num_rows)
    (hcells : ∀ t ∈ db.tables, ∀ r ∈ t.rows, r.values.length = t.columns.length) :
    save_database db true = some ⟨1, some (database_text db)⟩ := by
  have h : for_each
      (fun t => if db.binary_mode ≠ 0 then save_table_binary t else save_table_text t) db.tables
      = some (db.tables.map table_text) := by
    apply for_each_eq_map
    intro t ht
    simp [hfmt, save_table_text_eq t (hrows t ht) (hcells t ht)]
  unfold save_database
  simp only [Option.bind_eq_bind, Option.pure_def, Bool.not_true, Bool.false_eq_true,
    if_false] at h ⊢
  rw [h, Option.some_bind]
  simp [database_text, Database.num_tables]


/-! ## The codec: reading back the lines written -/

theorem read_line (l rest : List Char) (h : line_fits l) :
    fgets 1024 (l ++ '\n' :: rest) = some (l ++ ['\n'], rest) ∧ c_str (l ++ ['\n']) = l ++ ['\n'] := by
  refine ⟨fgets_line l rest (fun c hc => (h.1 c hc).1) h.2, c_str_self _ ?_⟩
  intro c hc
  simp only [List.mem_append, List.mem_singleton] at hc
  rcases hc with hc | rfl
  · exact (h.1 c hc).2
  · decide

theorem not_space_ne_newline (c : Char) (h : isspace c = false) : c ≠ '\n' := by
  rintro rfl
  exact absurd h (by decide)

theorem isdigit_chars (c : Char) (h : isdigit c = true) : c ≠ '\n' ∧ c ≠ NUL := by
  constructor
  · rintro rfl; exact absurd h (by decide)
  · rintro rfl; exact absurd h (by decide)

theorem fmt_d_length (n : Nat) (h : n < 2 ^ 31) : (fmt_d (n : Int)).length ≤ 10 := by
  rw [fmt_d_nat]
  exact dec_digits_length (n + 1) n 9 (by omega)

theorem table_line_fits (name : CStr) (nc nr : Nat) (hn : name_ok name)
    (hnc : nc < 2 ^ 31) (hnr : nr < 2 ^ 31) : line_fits (table_line name nc nr) := by
  obtain ⟨_, hlen, hch⟩ := hn
  have l1 := fmt_d_length nc hnc
  have l2 := fmt_d_length nr hnr
  constructor
  · intro c hc
    simp only [table_line, List.mem_append, List.mem_cons] at hc
    rcases hc with hc | hc | rfl | hc | rfl | hc
    · revert c; decide
    · exact ⟨not_space_ne_newline c (hch c hc).1, (hch c hc).2⟩
    · decide
    · exact isdigit_chars c ((fmt_d_nat_spec nc).2 c hc)
    · decide
    · exact isdigit_chars c ((fmt_d_nat_spec nr).2 c hc)
  · simp only [table_line, List.length_append, List.length_cons]
    have : "TABLE ".toList.length = 6 := by decide
    omega

theorem column_line_fits (c : ColumnDef) (hn : name_ok c.name) : line_fits (column_line c) := by
  obtain ⟨_, hlen, hch⟩ := hn
  obtain ⟨_, t2, _, t4, _⟩ := type_word_spec c.type
  constructor
  · intro x hx
    simp only [column_line, List.mem_append, List.mem_cons] at hx
    rcases hx with hx | hx | rfl | hx
    · revert x; decide
    · exact ⟨not_space_ne_newline x (hch x hx).1, (hch x hx).2⟩
    · decide
    · exact t4 x hx
  · simp only [column_line, List.length_append, List.length_cons]
    have : "COLUMN ".toList.length = 7 := by decide
    omega

theorem row_line_fits (t : Table) (r : Row) (h : row_ok t r) : line_fits (row_line r) := by
  obtain ⟨_, hcells, hlen⟩ := h
  refine ⟨?_, hlen⟩
  intro c hc
  simp only [row_line, List.mem_append, List.mem_flatten, List.mem_map] at hc
  rcases hc with hc | ⟨l, ⟨v, hv, rfl⟩, hc⟩
  · revert c; decide
  · have hv' := hcells v hv
    cases v with
    | none => exact absurd hv' (by simp [cell_ok])
    | some s =>
      simp only [List.mem_cons, Option.getD_some] at hc
      rcases hc with rfl | hc
      · decide
      · exact ⟨(hv' c hc).2.1, (hv' c hc).2.2⟩


theorem load_columns_written (cols : List ColumnDef) (rest : List Char)
    (h : ∀ c ∈ cols, name_ok c.name) :
    load_columns cols.length ((cols.map fun c => column_line c ++ ['\n']).flatten ++ rest)
      = some (cols, rest) := by
  induction cols with
  | nil => simp [load_columns]
  | cons c cs ih =>
    have hc := h c (by simp)
    obtain ⟨r1, r2⟩ := read_line (column_line c)
      ((cs.map fun c => column_line c ++ ['\n']).flatten ++ rest) (column_line_fits c hc)
    have hs := sscanf_column_line c hc
    have ih' := ih (fun d hd => h d (by simp [hd]))
    have hname : strncpy c.name (MAX_NAME_LEN - 1) = c.name :=
      List.take_of_length_le hc.2.1
    have htype := (type_word_spec c.type).2.2.2.2
    simp only [List.map_cons, List.flatten_cons, List.append_assoc, List.singleton_append,
      List.cons_append, List.nil_append, List.length_cons, load_columns, r1, r2, hs, ih', hname,
      htype]

theorem cells_flatten (cells : List CStr) (hne : cells ≠ []) :
    (cells.map fun s => '\t' :: s).flatten = '\t' :: cells_text cells := by
  induction cells with
  | nil => exact absurd rfl hne
  | cons s ss ih =>
    cases ss with
    | nil => simp [cells_text]
    | cons s2 ss2 =>
      have := ih (by simp)
      simp only [List.map_cons, List.flatten_cons] at this ⊢
      rw [this]
      simp [cells_text]

theorem parse_row_line_written (cells : List CStr) (nc : Nat) (hlen : cells.length = nc)
    (hc : ∀ s ∈ cells, ∀ x ∈ s, x ≠ '\t' ∧ x ≠ '\n') :
    parse_row_line ("ROW".toList ++ (cells.map fun s => '\t' :: s).flatten ++ ['\n']) nc
      = cells := by
  cases cells with
  | nil =>
    subst hlen
    rfl
  | cons s ss =>
    have h1 := strchr_first "ROW".toList (cells_text (s :: ss) ++ ['\n']) '\t' (by decide)
    have h2 := read_row_values_cells (s :: ss) nc (by omega) (by simp) hc
    rw [cells_flatten (s :: ss) (by simp)]
    simp only [parse_row_line, List.append_assoc, List.cons_append, List.nil_append] at h1 ⊢
    simp only [h1.1, List.drop_succ_cons, List.drop_zero, h2, hlen, Nat.sub_self,
      List.replicate_zero, List.append_nil]

theorem row_values_cells (t : Table) (r : Row) (h : row_ok t r) :
    ∃ cells : List CStr, r.values = cells.map some ∧ cells.length = t.columns.length ∧
      (∀ s ∈ cells, ∀ x ∈ s, x ≠ '\t' ∧ x ≠ '\n') ∧
      row_line r = "ROW".toList ++ (cells.map fun s => '\t' :: s).flatten := by
  obtain ⟨hlen, hcells, _⟩ := h
  refine ⟨r.values.map (·.getD []), ?_, by simpa using hlen, ?_, ?_⟩
  · rw [List.map_map]
    conv_lhs => rw [← List.map_id r.values]
    apply List.map_congr_left
    intro v hv
    have := hcells v hv
    cases v with
    | none => exact absurd this (by simp [cell_ok])
    | some s => rfl
  · intro s hs x hx
    obtain ⟨v, hv, rfl⟩ := List.mem_map.1 hs
    have := hcells v hv
    cases v with
    | none => exact absurd this (by simp [cell_ok])
    | some s => exact ⟨(this x hx).1, (this x hx).2.1⟩
  · simp [row_line, List.map_map, Function.comp_def]

theorem load_rows_written (rows : List Row) (t : Table) (db : Database) (pre : List Table)
    (cur : Table) (rest : List Char)
    (hrows : ∀ r ∈ rows, row_ok t r)
    (hdb : db.tables = pre ++ [cur]) (hpre : ∀ u ∈ pre, u.name ≠ cur.name)
    (hcols : cur.columns = t.columns) (hcur : cur.rows.length = cur.num_rows)
    (hmode : db.column_store = 0) :
    load_rows rows.length db cur.name t.columns.length
        ((rows.map fun r => row_line r ++ ['\n']).flatten ++ rest)
      = some (true, { db with tables := pre ++
          [{ cur with rows := cur.rows ++ rows, num_rows := cur.num_rows + rows.length }] },
          rest) := by
  induction rows generalizing db cur with
  | nil =>
    cases db
    simp at hdb
    simp [load_rows, hdb]
  | cons r rs ih =>
    have hr := hrows r (by simp)
    obtain ⟨cells, hv, hl, hc, hline⟩ := row_values_cells t r hr
    obtain ⟨r1, r2⟩ := read_line (row_line r)
      ((rs.map fun r => row_line r ++ ['\n']).flatten ++ rest) (row_line_fits t r hr)
    have hrow : strncmp_eq (row_line r ++ ['\n']) "ROW".toList 3 = true := by
      simp [row_line, strncmp_eq]
    have hparse : parse_row_line (row_line r ++ ['\n']) t.columns.length = cells := by
      rw [hline]
      exact parse_row_line_written cells _ hl hc
    have hins := insert_row_row_major db cur.name r.values pre [] cur hdb hpre rfl hmode hcur
      (by rw [hcols]; exact hr.1)
    have ih' := ih { db with tables := pre ++
        [{ cur with rows := cur.rows ++ [⟨r.values⟩], num_rows := cur.num_rows + 1 }] }
      { cur with rows := cur.rows ++ [⟨r.values⟩], num_rows := cur.num_rows + 1 }
      (fun x hx => hrows x (by simp [hx])) rfl hpre hcols (by simp [hcur]) hmode
    simp only [List.map_cons, List.flatten_cons, List.append_assoc, List.singleton_append,
      List.cons_append, List.nil_append, List.length_cons, load_rows, r1, r2, hrow, Bool.not_true,
      Bool.false_eq_true, if_false, hparse, ← hv, hins]
    dsimp only at ih'
    rw [ih']
    simp [Nat.add_assoc, Nat.add_comm 1]


theorem load_tables_written (ts : List Table) (acc : Database) (rest : List Char)
    (hok : ∀ t ∈ ts, table_ok t) (hnodup : (ts.map (·.name)).Nodup)
    (hfresh : ∀ t ∈ ts, ∀ u ∈ acc.tables, u.name ≠ t.name) (hmode : acc.column_store = 0) :
    load_tables ts.length acc ((ts.map table_text).flatten ++ rest)
      = some ⟨1, { acc with tables := acc.tables ++ ts.map reloaded }⟩ := by
  induction ts generalizing acc with
  | nil => simp [load_tables]
  | cons t ts ih =>
    obtain ⟨hname, hcols, hrows, hrowok, hnc, hnr⟩ := hok t (by simp)
    have hnm : strncpy t.name (MAX_NAME_LEN - 1) = t.name := List.take_of_length_le hname.2.1
    obtain ⟨r1, r2⟩ := read_line (table_line t.name t.columns.length t.num_rows)
      (((t.columns.map fun c => column_line c ++ ['\n']).flatten ++
        ((t.rows.map fun r => row_line r ++ ['\n']).flatten ++
          ((ts.map table_text).flatten ++ rest))))
      (table_line_fits t.name _ _ hname hnc hnr)
    have hs := sscanf_table_line t.name t.columns.length t.num_rows hname hnc hnr
    have hneg : ¬ ((t.columns.length : Int) < 0) := by omega
    have hcl := load_columns_written t.columns
      ((t.rows.map fun r => row_line r ++ ['\n']).flatten ++ ((ts.map table_text).flatten ++ rest))
      hcols
    have habs : ∀ u ∈ acc.tables, u.name ≠ t.name := hfresh t (by simp)
    have hcreate : create_table acc t.name t.columns
        = (1, { acc with tables := acc.tables ++ [new_table t.name t.columns] }) := by
      simp [create_table, find_table_absent acc t.name habs]
    have hcurname : (new_table t.name t.columns).name = t.name := hnm
    have hfind : find_table { acc with tables := acc.tables ++ [new_table t.name t.columns] }
        t.name = some acc.tables.length :=
      find_table_first _ t.name acc.tables [] (new_table t.name t.columns) rfl habs hcurname
    have hlr : load_rows t.num_rows
        { acc with tables := acc.tables ++ [new_table t.name t.columns] } t.name t.columns.length
        ((t.rows.map fun r => row_line r ++ ['\n']).flatten ++ ((ts.map table_text).flatten ++ rest))
        = some (true, { acc with tables := acc.tables ++ [reloaded t] },
            (ts.map table_text).flatten ++ rest) := by
      have h := load_rows_written t.rows t
        { acc with tables := acc.tables ++ [new_table t.name t.columns] } acc.tables
        (new_table t.name t.columns) ((ts.map table_text).flatten ++ rest) hrowok rfl
        (by rw [hcurname]; exact habs) rfl rfl hmode
      rw [hcurname, hrows] at h
      rw [h]
      simp [reloaded, new_table, hnm]
    have hnodup' : (ts.map (·.name)).Nodup := (List.nodup_cons.1 hnodup).2
    have hnotin : t.name ∉ ts.map (·.name) := (List.nodup_cons.1 hnodup).1
    have ih' := ih { acc with tables := acc.tables ++ [reloaded t] }
      (fun u hu => hok u (by simp [hu])) hnodup'
      (by
        intro u hu v hv
        simp only [List.mem_append, List.mem_singleton] at hv
        rcases hv with hv | rfl
        · exact hfresh u (by simp [hu]) v hv
        · intro e
          apply hnotin
          rw [show (reloaded t).name = t.name from hnm] at e
          rw [e]
          exact List.mem_map_of_mem _ hu)
      hmode
    simp only [List.map_cons, List.flatten_cons, table_text, List.append_assoc, List.cons_append,
      List.length_cons, load_tables, r1, r2, hs, hneg, if_false, Int.toNat_ofNat, hcl, hcreate,
      hfind, hlr]
    dsimp only at ih'
    simp only [table_text, List.append_assoc] at ih'
    rw [ih']
    simp


/-! ## The codec: text round trip -/

theorem header_count_written (db : Database) (h : db.tables.length < 2 ^ 31) :
    header_count (database_text db)
      = some ((db.tables.length : Int), (db.tables.map table_text).flatten) := by
  have f1 : line_fits "MINIQLITE 1".toList := by
    constructor
    · decide
    · decide
  have f2 : line_fits ("TABLE_COUNT ".toList ++ fmt_d db.tables.length) := by
    have l1 := fmt_d_length db.tables.length h
    constructor
    · intro c hc
      simp only [List.mem_append] at hc
      rcases hc with hc | hc
      · revert c; decide
      · exact isdigit_chars c ((fmt_d_nat_spec _).2 c hc)
    · simp only [List.length_append]
      have : "TABLE_COUNT ".toList.length = 12 := by decide
      omega
  obtain ⟨a1, a2⟩ := read_line "MINIQLITE 1".toList
    ("TABLE_COUNT ".toList ++ fmt_d db.tables.length ++ '\n' ::
      (db.tables.map table_text).flatten) f1
  obtain ⟨b1, b2⟩ := read_line ("TABLE_COUNT ".toList ++ fmt_d db.tables.length)
    (db.tables.map table_text).flatten f2
  have hm : strncmp_eq ("MINIQLITE 1".toList ++ ['\n']) "MINIQLITE".toList 9 = true := by decide
  have hs := sscanf_table_count_line db.tables.length h
  unfold header_count database_text
  rw [a1]
  simp only [a2, hm, if_true, b1, b2, hs]

theorem saved_text_reloads (db prior : Database) (hok : text_ok db)
    (hfmt : db.binary_mode = 0) (hlayout : prior.column_store = 0) (hfree : prior.releasable) :
    save_database db true = some ⟨1, some (database_text db)⟩ ∧
    load_database prior (some (database_text db))
      = some ⟨1, ⟨db.tables.map reloaded, prior.binary_mode, prior.column_store⟩⟩ := by
  obtain ⟨htab, hnodup, hlen⟩ := hok
  constructor
  · exact save_database_text_eq db hfmt (fun t ht => (htab t ht).2.2.1)
      (fun t ht r hr => ((htab t ht).2.2.2.1 r hr).1)
  · rw [load_database_eq prior _ hfree, header_count_written db hlen]
    have := load_tables_written db.tables ⟨[], prior.binary_mode, prior.column_store⟩ []
      htab hnodup (fun t _ u hu => by simp at hu) hlayout
    simpa using this

/-- C1, as amended: for a database saved in text format whose tables are held
row-major (`num_rows` rows, one cell per column), whose table and column names
are not empty, at most 63 characters long and free of white space and NUL,
whose table names are pairwise distinct, whose cells are strings without tab,
newline and NUL, whose `ROW` lines have at most 1022 characters and whose
counts fit an `int`, `save_database` succeeds and `load_database` of the bytes
written, run with the row-major layout active on a database whose prior
content can be released, succeeds and yields the same table names, column
definitions, row counts and rows, in the same order. -/
theorem text_round_trip (db prior : Database) (hok : text_ok db)
    (hfmt : db.binary_mode = 0) (hlayout : prior.column_store = 0) (hfree : prior.releasable) :
    ∃ bytes db', save_database db true = some ⟨1, some bytes⟩ ∧
      load_database prior (some bytes) = some ⟨1, db'⟩ ∧
      db'.tables.map (·.name) = db.tables.map (·.name) ∧
      db'.tables.map (·.columns) = db.tables.map (·.columns) ∧
      db'.tables.map (·.num_rows) = db.tables.map (·.num_rows) ∧
      db'.tables.map (·.rows) = db.tables.map (·.rows) := by
  obtain ⟨h1, h2⟩ := saved_text_reloads db prior hok hfmt hlayout hfree
  refine ⟨_, _, h1, h2, ?_, ?_, ?_, ?_⟩
  · simp only [List.map_map]
    apply List.map_congr_left
    intro t ht
    exact List.take_of_length_le (hok.1 t ht).1.2.1
  · simp [List.map_map, Function.comp_def, reloaded, new_table]
  · simp [List.map_map, Function.comp_def, reloaded]
  · simp [List.map_map, Function.comp_def, reloaded]


/-- The round trip of `sample_db`, loaded over a database that holds other
content. -/
theorem text_round_trip_witness :
    text_ok sample_db ∧
    ∃ bytes db', save_database sample_db true = some ⟨1, some bytes⟩ ∧
      load_database sample_db_binary (some bytes) = some ⟨1, db'⟩ ∧
      db'.tables.map (·.name) = sample_db.tables.map (·.name) ∧
      db'.tables.map (·.columns) = sample_db.tables.map (·.columns) ∧
      db'.tables.map (·.num_rows) = sample_db.tables.map (·.num_rows) ∧
      db'.tables.map (·.rows) = sample_db.tables.map (·.rows) :=
  ⟨by decide,
    text_round_trip sample_db sample_db_binary (by decide) (by decide) (by decide) (by decide)⟩

/-- C1, counterexample: databases whose cells hold no tab and no newline and
that do not survive the round trip.  (1) The table is called `my table`: the
load returns 1 with no table, the `TABLE` line being split at the space.
(2) The table has the empty name: the same.  (3) The cell has 1100 characters:
the `ROW` line does not fit the line buffer and the cell comes back cut to 1019
characters.  (4) The rows were inserted under the column-major layout, so
`rows` is empty while `num_rows` is 1: the save reads a row slot that does not
exist.  (5) The text of `sample_db` is loaded while the column-major layout is
active: the values land in the column stores and `rows` stays empty. -/
theorem text_round_trip_counterexample :
    (∃ bytes, save_database spaced_db true = some ⟨1, some bytes⟩ ∧
      load_database empty_db (some bytes) = some ⟨1, empty_db⟩ ∧ spaced_db.tables ≠ []) ∧
    (∃ bytes, save_database unnamed_db true = some ⟨1, some bytes⟩ ∧
      load_database empty_db (some bytes) = some ⟨1, empty_db⟩ ∧ unnamed_db.tables ≠ []) ∧
    (∃ bytes, save_database long_cell_db true = some ⟨1, some bytes⟩ ∧
      load_database empty_db (some bytes) = some ⟨1, ⟨[⟨"t".toList, [⟨"id".toList, .COL_INT⟩], 1,
        [⟨[some (List.replicate 1019 'x')]⟩], [⟨"id".toList, .COL_INT, []⟩]⟩], 0, 0⟩⟩) ∧
    (insert_row (create_table ⟨[], 0, 1⟩ "t".toList [⟨"id".toList, .COL_INT⟩]).2 "t".toList
        [some "1".toList] = some (1, column_major_db) ∧
      save_database column_major_db true = none) ∧
    (save_database sample_db true = some ⟨1, some sample_stream⟩ ∧
      load_database ⟨[], 0, 1⟩ (some sample_stream) = some ⟨1, ⟨[⟨"t".toList,
        [⟨"id".toList, .COL_INT⟩, ⟨"name".toList, .COL_TEXT⟩], 1, [],
        [⟨"id".toList, .COL_INT, [some "1".toList]⟩,
          ⟨"name".toList, .COL_TEXT, [some "a".toList]⟩]⟩], 0, 1⟩⟩) := by
  set_option maxRecDepth 100000 in
  exact ⟨⟨_, rfl, by decide, by decide⟩, ⟨_, rfl, by decide, by decide⟩, ⟨_, rfl, by decide⟩,
    ⟨by decide, by decide⟩, ⟨by decide, by decide⟩⟩

/-! ## Structural violations of a stream -/

theorem fgets_chars_prefix (n : Nat) (f : List Char) : (fgets_chars n f).1 <+: f := by
  induction n generalizing f with
  | zero => simp [fgets_chars]
  | succ n ih =>
    cases f with
    | nil => simp [fgets_chars]
    | cons c f =>
      by_cases hc : c = '\n'
      · simp [fgets_chars, hc]
      · simp [fgets_chars, hc, List.cons_prefix_cons, ih f]

theorem strncmp_line (p : List Char) (n : Nat) (hn : p.length = n) (f buf f' : List Char)
    (h : fgets 1024 f = some (buf, f')) (hs : strncmp_eq (c_str buf) p n = true) : p <+: f := by
  have hb : buf <+: f := by
    cases f with
    | nil => simp [fgets] at h
    | cons c f =>
      simp only [fgets, Option.some.injEq] at h
      have := fgets_chars_prefix (1024 - 1) (c :: f)
      rwa [h] at this
  have ht : (c_str buf).take n = p := by
    have := hs
    simp only [strncmp_eq, beq_iff_eq] at this
    rw [this, ← hn, List.take_length]
  have hp : p <+: c_str buf := ht ▸ List.take_prefix _ _
  exact (hp.trans (List.takeWhile_prefix _)).trans hb

theorem sscanf_lits (p s : List Char) (ds : List Directive) :
    sscanf s (p.map .lit ++ ds) = if p <+: s then sscanf (s.drop p.length) ds else [] := by
  induction p generalizing s with
  | nil => simp
  | cons c p ih =>
    cases s with
    | nil => simp [sscanf]
    | cons x s =>
      by_cases hx : x = c
      · subst hx
        simp [sscanf, ih, List.cons_prefix_cons]
      · have : ¬ (c :: p <+: x :: s) := by
          rw [List.cons_prefix_cons]
          exact fun h => hx h.1.symm
        simp [sscanf, hx, this]

theorem prefix_line (p l : List Char) (hp : '\n' ∉ p) : p <+: l ++ ['\n'] ↔ p <+: l := by
  rw [List.prefix_concat_iff]
  constructor
  · rintro (rfl | h)
    · exact absurd (by simp) hp
    · exact h
  · exact Or.inr

theorem dropWhile_line (m : List Char) :
    (m ++ ['\n']).dropWhile isspace
      = if m.dropWhile isspace = [] then [] else m.dropWhile isspace ++ ['\n'] := by
  induction m with
  | nil => decide
  | cons x m ih =>
    by_cases hx : isspace x = true
    · simpa [List.dropWhile, hx] using ih
    · simp [List.dropWhile, hx]

theorem starts_number_line (m : List Char) (hm : m ≠ []) :
    starts_number (m ++ ['\n']) = starts_number m := by
  cases m with
  | nil => exact absurd rfl hm
  | cons c m =>
    cases m with
    | nil =>
      have : isdigit '\n' = false := by decide
      simp [starts_number, this]
    | cons d m => rfl

theorem scan_digits_none (s : List Char) (h : s.takeWhile isdigit = []) :
    scan_digits s = none := by
  simp [scan_digits, h]

theorem scan_int_none (u : List Char) (h : starts_number u = false) : scan_int u = none := by
  have tw : ∀ (c : Char) (s : List Char), isdigit c = false → (c :: s).takeWhile isdigit = [] := by
    intro c s hc
    simp [List.takeWhile, hc]
  unfold scan_int
  split
  · rename_i s'
    cases s' with
    | nil => rfl
    | cons d s'' =>
      have hd : isdigit d = false := by
        simpa [starts_number, show isdigit '-' = false by decide] using h
      simp [scan_digits_none _ (tw d s'' hd)]
  · rename_i s'
    cases s' with
    | nil => rfl
    | cons d s'' =>
      have hd : isdigit d = false := by
        simpa [starts_number, show isdigit '+' = false by decide] using h
      simp [scan_digits_none _ (tw d s'' hd)]
  · cases u with
    | nil => rfl
    | cons c s =>
      have hc : isdigit c = false := by
        cases s with
        | nil => simpa [starts_number] using h
        | cons d s' =>
          simp only [starts_number, Bool.or_eq_false_iff] at h
          exact h.1
      simp [scan_digits_none _ (tw c s hc)]

theorem sscanf_bad_count (l : List Char) (h : bad_count_line l) :
    sscanf (l ++ ['\n']) fmt_table_count = [] := by
  have e : fmt_table_count = "TABLE_COUNT".toList.map .lit ++ [.space, .int] := rfl
  rw [e, sscanf_lits]
  by_cases hp : "TABLE_COUNT".toList <+: l
  · have hp' : "TABLE_COUNT".toList <+: l ++ ['\n'] := hp.trans (List.prefix_append _ _)
    rw [if_pos hp']
    have hlen : 11 ≤ l.length := by simpa using hp.length_le
    have hd : (l ++ ['\n']).drop 11 = l.drop 11 ++ ['\n'] := List.drop_append_of_le_length hlen
    have hnum : starts_number ((l.drop 11).dropWhile isspace) = false := by
      rcases h with h | h
      · exact absurd hp h
      · exact h
    have hu : scan_int ((l.drop 11 ++ ['\n']).dropWhile isspace) = none := by
      rw [dropWhile_line]
      split
      · rfl
      · rename_i hne
        apply scan_int_none
        rw [starts_number_line _ hne, hnum]
    rw [show "TABLE_COUNT".toList.length = 11 from rfl, hd]
    simp only [sscanf, List.dropWhile_idempotent, hu]
  · rw [if_neg]
    rwa [prefix_line _ _ (by decide)]
theorem all_space_dropWhile (s : List Char) (h : s.all isspace = true) :
    s.dropWhile isspace = [] := by
  rw [List.dropWhile_eq_nil_iff]
  intro x hx
  exact List.all_eq_true.1 h x hx

theorem sscanf_single_word (m : List Char)
    (hw : ((m.dropWhile isspace).takeWhile fun c => !isspace c).length ≤ 63)
    (hrest : ((m.dropWhile isspace).dropWhile fun c => !isspace c).all isspace = true) :
    sscanf (m ++ ['\n']) [.space, .str 63, .space, .str 31] = [] ∨
      ∃ w, sscanf (m ++ ['\n']) [.space, .str 63, .space, .str 31] = [.str w] := by
  simp only [sscanf, List.dropWhile_idempotent]
  rw [dropWhile_line]
  have hhead : ∀ x s, m.dropWhile isspace = x :: s → isspace x = false := by
    intro x s hxs
    have := List.head_dropWhile_not isspace m (by rw [hxs]; simp)
    simpa [hxs] using this
  generalize m.dropWhile isspace = m' at hw hrest hhead
  by_cases hne : m' = []
  · left
    rw [if_pos hne]
    rfl
  · right
    rw [if_neg hne]
    have hsplit : m' = (m'.takeWhile fun c => !isspace c) ++ (m'.dropWhile fun c => !isspace c) :=
      (List.takeWhile_append_dropWhile _ _).symm
    have hwne : (m'.takeWhile fun c => !isspace c) ≠ [] := by
      cases m' with
      | nil => exact absurd rfl hne
      | cons x s =>
        have hx : isspace x = false := hhead x s rfl
        simp [List.takeWhile, hx]
    have hws : ∀ x ∈ (m'.takeWhile fun c => !isspace c), isspace x = false := by
      intro x hx
      simpa using List.mem_takeWhile_imp hx
    generalize (m'.takeWhile fun c => !isspace c) = w at hw hsplit hwne hws
    generalize (m'.dropWhile fun c => !isspace c) = d at hrest hsplit
    have hall : (d ++ ['\n']).all isspace = true := by
      simp only [List.all_append, hrest, Bool.true_and]
      decide
    obtain ⟨c, rest, hc⟩ : ∃ c rest, d ++ ['\n'] = c :: rest := by
      cases d with
      | nil => exact ⟨_, _, rfl⟩
      | cons y d' => exact ⟨_, _, rfl⟩
    have hcs : isspace c = true := List.all_eq_true.1 hall c (by rw [hc]; simp)
    have e3 := scan_str_word 63 w c rest hwne hw hws hcs
    have e4 : (c :: rest).dropWhile isspace = [] := by
      rw [← hc]; exact all_space_dropWhile _ hall
    refine ⟨w, ?_⟩
    rw [hsplit, List.append_assoc, hc, e3]
    simp only [e4]
    rfl

theorem column_line_bad (l : List Char) (hl : line_fits l) (h : bad_column_line l) :
    column_line_ok (l ++ ['\n']) = false := by
  unfold column_line_ok
  rw [(read_line l [] hl).2]
  have e : fmt_column = "COLUMN".toList.map .lit ++ [.space, .str 63, .space, .str 31] := rfl
  rw [e, sscanf_lits]
  by_cases hp : "COLUMN".toList <+: l
  · have hp' : "COLUMN".toList <+: l ++ ['\n'] := hp.trans (List.prefix_append _ _)
    rw [if_pos hp']
    have hlen : 6 ≤ l.length := by simpa using hp.length_le
    have hd : (l ++ ['\n']).drop 6 = l.drop 6 ++ ['\n'] := List.drop_append_of_le_length hlen
    obtain ⟨hw, hrest⟩ : (((l.drop 6).dropWhile isspace).takeWhile fun c => !isspace c).length ≤ 63 ∧
        (((l.drop 6).dropWhile isspace).dropWhile fun c => !isspace c).all isspace = true := by
      rcases h with h | h
      · exact absurd hp h
      · exact h
    rw [show "COLUMN".toList.length = 6 from rfl, hd]
    rcases sscanf_single_word (l.drop 6) hw hrest with h0 | ⟨w, h1⟩
    · rw [h0]
    · rw [h1]
  · rw [if_neg]
    rwa [prefix_line _ _ (by decide)]

theorem header_count_violation (f : List Char) (h : header_violation f) :
    header_count f = none := by
  unfold header_count
  rcases h with h | ⟨l, g, rfl, hl, hg⟩
  · cases hf : fgets 1024 f with
    | none => rfl
    | some p =>
      obtain ⟨buf, f1⟩ := p
      by_cases hs : strncmp_eq (c_str buf) "MINIQLITE".toList 9 = true
      · exact absurd (strncmp_line "MINIQLITE".toList 9 (by decide) f buf f1 hf hs) h
      · simp only [hs]
        rfl
  · obtain ⟨a1, a2⟩ := read_line l g hl
    rw [a1]
    simp only [a2]
    by_cases hs : strncmp_eq (l ++ ['\n']) "MINIQLITE".toList 9 = true
    · simp only [hs, if_true]
      rcases hg with rfl | ⟨l2, g', rfl, hl2, hbad⟩
      · simp [fgets]
      · obtain ⟨b1, b2⟩ := read_line l2 g' hl2
        rw [b1]
        simp only [b2, sscanf_bad_count l2 hbad]
    · simp only [hs]
      rfl
theorem lines_ok_missing (ok : List Char → Bool) (k : Nat) : lines_ok ok (k + 1) [] = false := by
  simp [lines_ok, fgets]

theorem lines_ok_bad (ok : List Char → Bool) (k : Nat) (l g : List Char) (hl : line_fits l)
    (h : ok (l ++ ['\n']) = false) : lines_ok ok (k + 1) (l ++ '\n' :: g) = false := by
  simp [lines_ok, (read_line l g hl).1, h]

theorem lines_read (ok : List Char → Bool) (ls : List (List Char))
    (h : ∀ l ∈ ls, line_fits l ∧ ok (l ++ ['\n']) = true) (k : Nat) (g : List Char) :
    lines_ok ok (ls.length + k) ((ls.map fun l => l ++ ['\n']).flatten ++ g) = lines_ok ok k g ∧
    skip_lines (ls.length + k) ((ls.map fun l => l ++ ['\n']).flatten ++ g) = skip_lines k g := by
  induction ls with
  | nil => simp
  | cons l ls ih =>
    have hl := h l (by simp)
    have ih' := ih (fun x hx => h x (by simp [hx]))
    have e : (l :: ls).length + k = (ls.length + k) + 1 := by simp only [List.length_cons]; omega
    have r := (read_line l ((ls.map fun l => l ++ ['\n']).flatten ++ g) hl.1).1
    rw [e]
    simp only [List.map_cons, List.flatten_cons, List.append_assoc, List.cons_append,
      List.nil_append]
    simp only [lines_ok, skip_lines, r, hl.2, Bool.true_and]
    exact ih'

theorem lines_ok_no_row (k : Nat) (g : List Char) (h : ¬ "ROW".toList <+: g) :
    lines_ok row_line_ok (k + 1) g = false := by
  unfold lines_ok
  cases hf : fgets 1024 g with
  | none => rfl
  | some p =>
    obtain ⟨buf, f'⟩ := p
    have hb : row_line_ok buf = false := by
      cases hc : row_line_ok buf with
      | false => rfl
      | true => exact absurd (strncmp_line "ROW".toList 3 (by decide) g buf f' hf hc) h
    simp [hb]

theorem row_line_good (l : List Char) (hp : "ROW".toList <+: l) (hl : line_fits l) :
    row_line_ok (l ++ ['\n']) = true := by
  obtain ⟨t, ht⟩ := hp
  unfold row_line_ok
  rw [(read_line l [] hl).2, ← ht]
  rfl

theorem column_line_good (c : ColumnDef) (hn : name_ok c.name) :
    column_line_ok (column_line c ++ ['\n']) = true := by
  unfold column_line_ok
  rw [(read_line _ [] (column_line_fits c hn)).2, sscanf_column_line c hn]

theorem block_violation_block (b : Block) (hb : b.well_formed) (n : Nat) (g : List Char) :
    block_violation (n + 1) (b.text ++ g) =
      (if !lines_ok column_line_ok b.num_columns
            ((b.columns.map fun c => column_line c ++ ['\n']).flatten ++
              ((b.rows.map fun l => l ++ ['\n']).flatten ++ g)) then true
       else if !lines_ok row_line_ok b.num_rows (skip_lines b.num_columns
            ((b.columns.map fun c => column_line c ++ ['\n']).flatten ++
              ((b.rows.map fun l => l ++ ['\n']).flatten ++ g))) then true
       else block_violation n (skip_lines b.num_rows (skip_lines b.num_columns
            ((b.columns.map fun c => column_line c ++ ['\n']).flatten ++
              ((b.rows.map fun l => l ++ ['\n']).flatten ++ g))))) := by
  obtain ⟨hname, hnc, hnr, _, _⟩ := hb
  have hfit := table_line_fits b.name b.num_columns b.num_rows hname hnc hnr
  obtain ⟨r1, r2⟩ := read_line (table_line b.name b.num_columns b.num_rows)
    ((b.columns.map fun c => column_line c ++ ['\n']).flatten ++
      ((b.rows.map fun l => l ++ ['\n']).flatten ++ g)) hfit
  have hs := sscanf_table_line b.name b.num_columns b.num_rows hname hnc hnr
  have hneg : ¬ ((b.num_columns : Int) < 0) := by omega
  unfold Block.text
  simp only [List.append_assoc, List.cons_append]
  rw [block_violation, r1]
  simp only [r2, hs, hneg, if_false, Int.toNat_ofNat]

theorem columns_read (cols : List ColumnDef) (h : ∀ c ∈ cols, name_ok c.name) (k : Nat)
    (g : List Char) :
    lines_ok column_line_ok (cols.length + k)
        ((cols.map fun c => column_line c ++ ['\n']).flatten ++ g) = lines_ok column_line_ok k g ∧
    skip_lines (cols.length + k)
        ((cols.map fun c => column_line c ++ ['\n']).flatten ++ g) = skip_lines k g := by
  have := lines_read column_line_ok (cols.map column_line) (by
    intro l hl
    obtain ⟨c, hc, rfl⟩ := List.mem_map.1 hl
    exact ⟨column_line_fits c (h c hc), column_line_good c (h c hc)⟩) k g
  simpa [List.map_map, Function.comp_def] using this

theorem rows_read (rows : List (List Char))
    (h : ∀ l ∈ rows, "ROW".toList <+: l ∧ line_fits l) (k : Nat) (g : List Char) :
    lines_ok row_line_ok (rows.length + k)
        ((rows.map fun l => l ++ ['\n']).flatten ++ g) = lines_ok row_line_ok k g ∧
    skip_lines (rows.length + k)
        ((rows.map fun l => l ++ ['\n']).flatten ++ g) = skip_lines k g :=
  lines_read row_line_ok rows (fun l hl => ⟨(h l hl).2, row_line_good l (h l hl).1 (h l hl).2⟩) k g

theorem block_violation_complete (b : Block) (hb : b.complete) (n : Nat) (g : List Char) :
    block_violation (n + 1) (b.text ++ g) = block_violation n g := by
  obtain ⟨hw, hc, hr⟩ := hb
  rw [block_violation_block b hw n g]
  obtain ⟨c1, c2⟩ := columns_read b.columns hw.2.2.2.1 0 ((b.rows.map fun l => l ++ ['\n']).flatten ++ g)
  obtain ⟨r1, r2⟩ := rows_read b.rows hw.2.2.2.2 0 g
  rw [Nat.add_zero, hc] at c1 c2
  rw [Nat.add_zero, hr] at r1 r2
  rw [c1, c2]
  simp only [skip_lines, lines_ok, Bool.not_true, Bool.false_eq_true, if_false]
  rw [r1, r2]
  simp only [skip_lines, lines_ok, Bool.not_true, Bool.false_eq_true, if_false]

theorem block_violation_blocks (blocks : List Block) (h : ∀ x ∈ blocks, x.complete) (n : Nat)
    (g : List Char) :
    block_violation (blocks.length + n) ((blocks.map Block.text).flatten ++ g)
      = block_violation n g := by
  induction blocks with
  | nil => simp
  | cons b blocks ih =>
    have e : (b :: blocks).length + n = (blocks.length + n) + 1 := by
      simp only [List.length_cons]; omega
    rw [e]
    simp only [List.map_cons, List.flatten_cons, List.append_assoc]
    rw [block_violation_complete b (h b (by simp))]
    exact ih (fun x hx => h x (by simp [hx]))

theorem block_violation_column (b : Block) (hb : b.well_formed)
    (hcols : b.columns.length < b.num_columns) (hrows : b.rows = []) (n : Nat) (g : List Char)
    (hg : missing_or bad_column_line g) :
    block_violation (n + 1) (b.text ++ g) = true := by
  rw [block_violation_block b hb n g, hrows]
  obtain ⟨k, hk⟩ : ∃ k, b.num_columns = b.columns.length + (k + 1) :=
    ⟨b.num_columns - b.columns.length - 1, by omega⟩
  have c1 := (columns_read b.columns hb.2.2.2.1 (k + 1) g).1
  have hstop : lines_ok column_line_ok (k + 1) g = false := by
    rcases hg with rfl | ⟨l, g', rfl, hl, hbad⟩
    · exact lines_ok_missing _ _
    · exact lines_ok_bad _ _ _ _ hl (column_line_bad l hl hbad)
  simp only [List.map_nil, List.flatten_nil, List.nil_append]
  rw [hk, c1, hstop]
  rfl

theorem block_violation_row (b : Block) (hb : b.well_formed)
    (hcols : b.columns.length = b.num_columns) (hrows : b.rows.length < b.num_rows) (n : Nat)
    (g : List Char) (hg : ¬ "ROW".toList <+: g) :
    block_violation (n + 1) (b.text ++ g) = true := by
  rw [block_violation_block b hb n g]
  obtain ⟨k, hk⟩ : ∃ k, b.num_rows = b.rows.length + (k + 1) :=
    ⟨b.num_rows - b.rows.length - 1, by omega⟩
  obtain ⟨c1, c2⟩ := columns_read b.columns hb.2.2.2.1 0
    ((b.rows.map fun l => l ++ ['\n']).flatten ++ g)
  rw [Nat.add_zero, hcols] at c1 c2
  have r1 := (rows_read b.rows hb.2.2.2.2 (k + 1) g).1
  rw [c1, c2]
  simp only [skip_lines, lines_ok, Bool.not_true, Bool.false_eq_true, if_false]
  rw [hk, r1, lines_ok_no_row k g hg]
  rfl

theorem header_count_stream (l : List Char) (n : Nat) (rest : List Char) (hl : line_fits l)
    (hn : n < 2 ^ 31) :
    header_count (l ++ '\n' :: ("TABLE_COUNT ".toList ++ fmt_d n ++ '\n' :: rest)) = none ∨
    header_count (l ++ '\n' :: ("TABLE_COUNT ".toList ++ fmt_d n ++ '\n' :: rest))
      = some ((n : Int), rest) := by
  have f2 : line_fits ("TABLE_COUNT ".toList ++ fmt_d n) := by
    have l1 := fmt_d_length n hn
    constructor
    · intro c hc
      simp only [List.mem_append] at hc
      rcases hc with hc | hc
      · revert c; decide
      · exact isdigit_chars c ((fmt_d_nat_spec _).2 c hc)
    · simp only [List.length_append]
      have : "TABLE_COUNT ".toList.length = 12 := by decide
      omega
  obtain ⟨a1, a2⟩ := read_line l ("TABLE_COUNT ".toList ++ fmt_d n ++ '\n' :: rest) hl
  obtain ⟨b1, b2⟩ := read_line ("TABLE_COUNT ".toList ++ fmt_d n) rest f2
  have hs := sscanf_table_count_line n hn
  unfold header_count
  rw [a1]
  simp only [a2]
  by_cases hm : strncmp_eq (l ++ ['\n']) "MINIQLITE".toList 9 = true
  · right
    simp only [hm, if_true, b1, b2, hs]
  · left
    simp only [hm]
    rfl

theorem structural_stream_violation (f : List Char) (h : structural_violation f) :
    stream_violation f = true := by
  unfold stream_violation
  cases h with
  | header _ h => rw [header_count_violation f h]
  | column l n blocks b g hl hn hcount hblocks hb hcols hrows hg =>
    have e : stream_text l n (blocks ++ [b]) ++ g
        = l ++ '\n' :: ("TABLE_COUNT ".toList ++ fmt_d n ++ '\n' ::
            ((blocks.map Block.text).flatten ++ (b.text ++ g))) := by
      simp [stream_text]
    rw [e]
    rcases header_count_stream l n _ hl hn with h0 | h1
    · rw [h0]
    · rw [h1]
      obtain ⟨k, hk⟩ : ∃ k, n = blocks.length + (k + 1) := ⟨n - blocks.length - 1, by omega⟩
      simp only [Int.toNat_ofNat]
      rw [hk, block_violation_blocks blocks hblocks]
      exact block_violation_column b hb hcols hrows k g hg
  | row l n blocks b g hl hn hcount hblocks hb hcols hrows hg =>
    have e : stream_text l n (blocks ++ [b]) ++ g
        = l ++ '\n' :: ("TABLE_COUNT ".toList ++ fmt_d n ++ '\n' ::
            ((blocks.map Block.text).flatten ++ (b.text ++ g))) := by
      simp [stream_text]
    rw [e]
    rcases header_count_stream l n _ hl hn with h0 | h1
    · rw [h0]
    · rw [h1]
      obtain ⟨k, hk⟩ : ∃ k, n = blocks.length + (k + 1) := ⟨n - blocks.length - 1, by omega⟩
      simp only [Int.toNat_ofNat]
      rw [hk, block_violation_blocks blocks hblocks]
      exact block_violation_row b hb hcols hrows k g hg

/-! ## What `load_database` reports and leaves behind -/

/-- The stream `short_stream` announces two rows for its table and ends after
the first. -/
theorem short_stream_violation : structural_violation short_stream :=
  have e : stream_text "MINIQLITE 1".toList 1
      ([] ++ [⟨"t".toList, 2, 2, [⟨"id".toList, .COL_INT⟩, ⟨"name".toList, .COL_TEXT⟩],
        ["ROW\t1\ta".toList]⟩]) ++ [] = short_stream := by decide
  e ▸ structural_violation.row "MINIQLITE 1".toList 1 []
    ⟨"t".toList, 2, 2, [⟨"id".toList, .COL_INT⟩, ⟨"name".toList, .COL_TEXT⟩],
      ["ROW\t1\ta".toList]⟩ []
    (by decide) (by decide) (by decide) (by decide) (by decide) (by decide) (by decide) (by decide)

/-- A stream whose second `COLUMN` line carries a name and no type. -/
theorem column_stream_violation :
    structural_violation
      "MINIQLITE 1\nTABLE_COUNT 1\nTABLE t 2 0\nCOLUMN id INT\nCOLUMN name\n".toList :=
  have e : stream_text "MINIQLITE 1".toList 1
      ([] ++ [⟨"t".toList, 2, 0, [⟨"id".toList, .COL_INT⟩], []⟩]) ++ "COLUMN name\n".toList
      = "MINIQLITE 1\nTABLE_COUNT 1\nTABLE t 2 0\nCOLUMN id INT\nCOLUMN name\n".toList := by decide
  e ▸ structural_violation.column "MINIQLITE 1".toList 1 []
    ⟨"t".toList, 2, 0, [⟨"id".toList, .COL_INT⟩], []⟩ "COLUMN name\n".toList
    (by decide) (by decide) (by decide) (by decide) (by decide) (by decide) rfl
    (Or.inr ⟨"COLUMN name".toList, [], by decide, by decide, by decide⟩)

/-- A stream whose `TABLE_COUNT` line carries no number. -/
theorem count_stream_violation : header_violation "MINIQLITE 1\nTABLE_COUNT x\n".toList :=
  Or.inr ⟨"MINIQLITE 1".toList, "TABLE_COUNT x\n".toList, by decide, by decide,
    Or.inr ⟨"TABLE_COUNT x".toList, [], by decide, by decide, by decide⟩⟩

/-- C3, as amended: `load_database`, run on a database whose prior content can
be released, returns 0 for every stream with one of these violations: the
stream does not begin with `MINIQLITE`; after a first line, the `TABLE_COUNT`
line is missing, does not begin with `TABLE_COUNT` or carries no decimal
number; after a first line, a line `TABLE_COUNT n` and fewer than `n` complete
blocks, a block whose well-formed `TABLE` line announces more `COLUMN` lines
than follow, the next line missing or malformed (not beginning with `COLUMN`,
or with fewer than two words after it), or a block with all its `COLUMN`
lines that has fewer `ROW` lines than announced, the rest of the stream not
beginning with `ROW`. -/
theorem load_database_reports_violation (db : Database) (f : List Char)
    (hfree : db.releasable) (h : structural_violation f) :
    ∃ db', load_database db (some f) = some ⟨0, db'⟩ :=
  load_database_stream_violation db f hfree (structural_stream_violation f h)

/-- Three streams that are refused: a missing `ROW` line, a `COLUMN` line
without a type, a `TABLE_COUNT` line without a number. -/
theorem load_database_reports_violation_witness :
    sample_db.releasable ∧
    (structural_violation short_stream ∧
      load_database sample_db (some short_stream) = some ⟨0, sample_db⟩ ∧
      ∃ db', load_database sample_db (some short_stream) = some ⟨0, db'⟩) ∧
    (structural_violation
        "MINIQLITE 1\nTABLE_COUNT 1\nTABLE t 2 0\nCOLUMN id INT\nCOLUMN name\n".toList ∧
      load_database sample_db (some
        "MINIQLITE 1\nTABLE_COUNT 1\nTABLE t 2 0\nCOLUMN id INT\nCOLUMN name\n".toList)
        = some ⟨0, empty_db⟩ ∧
      ∃ db', load_database sample_db (some
        "MINIQLITE 1\nTABLE_COUNT 1\nTABLE t 2 0\nCOLUMN id INT\nCOLUMN name\n".toList)
        = some ⟨0, db'⟩) ∧
    (structural_violation "MINIQLITE 1\nTABLE_COUNT x\n".toList ∧
      load_database sample_db (some "MINIQLITE 1\nTABLE_COUNT x\n".toList) = some ⟨0, empty_db⟩ ∧
      ∃ db', load_database sample_db (some "MINIQLITE 1\nTABLE_COUNT x\n".toList)
        = some ⟨0, db'⟩) :=
  ⟨by decide,
    ⟨short_stream_violation, by decide,
      load_database_reports_violation sample_db short_stream (by decide) short_stream_violation⟩,
    ⟨column_stream_violation, by decide,
      load_database_reports_violation sample_db _ (by decide) column_stream_violation⟩,
    ⟨.header _ count_stream_violation, by decide,
      load_database_reports_violation sample_db _ (by decide) (.header _ count_stream_violation)⟩⟩

/-- C3, counterexample: `load_database` returns 1 on a stream whose two `ROW`
lines have one field and three fields for a table of two columns (the missing
field is loaded as the empty string, the surplus one is dropped), on a stream
that announces one table and ends after the `TABLE_COUNT` line, on a stream
whose `TABLE` line is malformed, on a stream whose first line is
`MINIQLITEX`, and on a stream whose `TABLE_COUNT` line and `COLUMN` line carry
surplus text after the number and after the type. -/
theorem load_database_accepts_counterexample :
    load_database empty_db (some
      "MINIQLITE 1\nTABLE_COUNT 1\nTABLE t 2 2\nCOLUMN a INT\nCOLUMN b REAL\nROW\t1\nROW\t1\t2\t3\n".toList)
      = some ⟨1, ⟨[⟨"t".toList, [⟨"a".toList, .COL_INT⟩, ⟨"b".toList, .COL_FLOAT⟩], 2,
        [⟨[some "1".toList, some []]⟩, ⟨[some "1".toList, some "2".toList]⟩],
        [⟨"a".toList, .COL_INT, []⟩, ⟨"b".toList, .COL_FLOAT, []⟩]⟩], 0, 0⟩⟩ ∧
    load_database empty_db (some "MINIQLITE 1\nTABLE_COUNT 1\n".toList) = some ⟨1, empty_db⟩ ∧
    load_database empty_db (some "MINIQLITE 1\nTABLE_COUNT 1\nTABLE t\n".toList)
      = some ⟨1, empty_db⟩ ∧
    load_database empty_db (some "MINIQLITEX\nTABLE_COUNT 0\n".toList) = some ⟨1, empty_db⟩ ∧
    load_database empty_db (some
      "MINIQLITE 1\nTABLE_COUNT 1junk\nTABLE t 1 0\nCOLUMN a INT trailing garbage\n".toList)
      = some ⟨1, ⟨[⟨"t".toList, [⟨"a".toList, .COL_INT⟩], 0, [],
        [⟨"a".toList, .COL_INT, []⟩]⟩], 0, 0⟩⟩ := by
  decide

/-- C4, as amended: when the file cannot be opened, `load_database` returns 0
and leaves the database as it was; when the file was opened, whatever
`load_database` returns, nothing of the prior content is left: the result is
the one the same load gives when started from the empty database (on a
failure after the header, the tables and rows read before the error); and on
a stream that is wrong in its first two lines `load_database` returns 0 and
the database holds no table. -/
theorem load_database_failure_state (db : Database) :
    load_database db none = some ⟨0, db⟩ ∧
    (∀ (f : List Char) (r : LoadResult), load_database db (some f) = some r →
      load_database ⟨[], db.binary_mode, db.column_store⟩ (some f) = some r) ∧
    (∀ f : List Char, db.releasable → header_violation f →
      load_database db (some f) = some ⟨0, ⟨[], db.binary_mode, db.column_store⟩⟩) := by
  refine ⟨by simp [load_database], ?_, ?_⟩
  · intro f r h
    have hfree := load_database_releasable db f r h
    rw [load_database_prior db ⟨[], db.binary_mode, db.column_store⟩ f rfl rfl hfree
      (releasable_empty _ _), h]
  · intro f hfree hv
    exact load_database_header db f hfree (header_count_violation f hv)

/-- Failed loads into the database `spaced_db`, which holds the table
`my table`: an absent file, the stream `short_stream` that ends before its
second row, and a stream without a table count. -/
theorem load_database_failure_state_witness :
    spaced_db.tables ≠ [] ∧
    load_database spaced_db none = some ⟨0, spaced_db⟩ ∧
    (load_database spaced_db (some short_stream) = some ⟨0, sample_db⟩ ∧
      load_database ⟨[], spaced_db.binary_mode, spaced_db.column_store⟩ (some short_stream)
        = some ⟨0, sample_db⟩) ∧
    (header_violation "MINIQLITE 1\nTABLE_COUNT x\n".toList ∧
      load_database spaced_db (some "MINIQLITE 1\nTABLE_COUNT x\n".toList)
        = some ⟨0, ⟨[], spaced_db.binary_mode, spaced_db.column_store⟩⟩) :=
  ⟨by decide, (load_database_failure_state spaced_db).1,
    ⟨by decide,
      (load_database_failure_state spaced_db).2.1 short_stream ⟨0, sample_db⟩ (by decide)⟩,
    ⟨count_stream_violation,
      (load_database_failure_state spaced_db).2.2 _ (by decide) count_stream_violation⟩⟩

/-! ## The engine: projection, delete, update -/

theorem select_columns_row_major (db : Database) (name : CStr) (pre post : List Table)
    (t : Table) (cols : List CStr)
    (hdb : db.tables = pre ++ t :: post) (hpre : ∀ u ∈ pre, u.name ≠ name) (ht : t.name = name)
    (hmode : db.column_store = 0) (hok : t.row_major_ok)
    (hcols : ∀ c ∈ cols, c ∈ t.column_names) :
    select_columns db name cols = some ⟨some 1,
      shown_line cols ++ (t.rows.map fun r => shown_cells r (cols.map t.position)).flatten⟩ := by
  obtain ⟨h1, h2⟩ := hok
  have hm : ¬ db.column_store = 1 := by rw [hmode]; decide
  have hrows : for_each (fun r => print_row r (cols.map t.position)) t.rows
      = some (t.rows.map fun r => shown_cells r (cols.map t.position)) := by
    apply for_each_eq_map
    intro r hr
    apply print_row_cells
    intro i hi
    obtain ⟨c, hc, rfl⟩ := List.mem_map.1 hi
    rw [h2 r hr]
    exact position_lt t c (hcols c hc)
  simp only [select_columns, find_table_first db name pre post t hdb hpre ht]
  rw [hdb, get_first]
  simp [hm, resolve_columns_positions t cols hcols, print_header_positions t cols hcols, ← h1,
    read_slots_self, hrows]

theorem first_position_first (c : CStr) (xs : List CStr) (j : Nat)
    (hj : j < first_position c xs) : xs[j]? ≠ some c := by
  induction xs generalizing j with
  | nil => simp [first_position] at hj
  | cons x xs ih =>
    by_cases hc : x = c
    · simp [first_position, hc] at hj
    · simp only [first_position, hc, if_false] at hj
      cases j with
      | zero => simpa using hc
      | succ j => simpa using ih j (by omega)

/-- C11, as amended: under the row-major layout, for a table held row-major
and requested column names that all exist, `select_columns` returns 1 and
prints the header (the requested names with ` | ` between them) and then one
line per stored row, in row order, whose i-th field is the stored cell at the
position resolved for the i-th requested name; each name is resolved by
`column_index` to the position of the first column whose name is equal to it,
so the fields follow the requested order and a name may be requested more
than once. -/
theorem select_columns_projects (db : Database) (name : CStr) (pre post : List Table)
    (t : Table) (cols : List CStr)
    (hdb : db.tables = pre ++ t :: post) (hpre : ∀ u ∈ pre, u.name ≠ name) (ht : t.name = name)
    (hmode : db.column_store = 0) (hok : t.row_major_ok)
    (hcols : ∀ c ∈ cols, c ∈ t.column_names) :
    select_columns db name cols = some ⟨some 1,
      shown_line cols ++ (t.rows.map fun r => shown_cells r (cols.map t.position)).flatten⟩ ∧
    (∀ c ∈ cols, column_index t c = some (t.position c) ∧
      t.column_names[t.position c]? = some c ∧
      ∀ j < t.position c, t.column_names[j]? ≠ some c) ∧
    (∀ r ∈ t.rows, shown_cells r (cols.map t.position) =
      shown_line (cols.map fun c => ((r.values[t.position c]?).getD none).getD "NULL".toList)) := by
  refine ⟨select_columns_row_major db name pre post t cols hdb hpre ht hmode hok hcols, ?_, ?_⟩
  · intro c hc
    exact ⟨column_index_position t c (hcols c hc),
      (first_position_get c t.column_names (hcols c hc)).2,
      fun j hj => first_position_first c t.column_names j hj⟩
  · intro r _
    simp [shown_cells, List.map_map, Function.comp_def]

/-- C11, counterexample: the table `t (id)` filled by one `insert_row` under
the column-major layout and read by `select_columns` under the row-major
layout: the loop reads `rows[0]` of a table whose `rows` was never allocated,
and no row is returned.  The table of `sample_db`, held row-major, read under
the column-major layout: after the header the loop reads slot 0 of a column
store that holds no value. -/
theorem select_columns_counterexample :
    run_ops ⟨[], 0, 1⟩ [.create "t".toList [⟨"id".toList, .COL_INT⟩],
        .insert "t".toList [some "1".toList]] = some column_major_db ∧
    select_columns { column_major_db with column_store := 0 } "t".toList ["id".toList] = none ∧
    select_columns { sample_db with column_store := 1 } "t".toList ["id".toList] = none := by
  decide

theorem cell_is_matches (r : Row) (w : Nat) (val : CStr) (v : Option CStr)
    (h : r.values[w]? = some v) : cell_matches v val = cell_is r w val := by
  cases v with
  | none => simp [cell_matches, cell_is, h]
  | some s => simp [cell_matches, cell_is, h]

theorem delete_loop_spec (nc w : Nat) (val : CStr) (kept rest : List Row) (removed : Nat)
    (k : List Row) (n : Nat)
    (h : delete_loop nc w val kept rest removed = some (k, n)) :
    k = kept ++ rest.filter (fun r => !cell_is r w val) ∧
      n = removed + rest.countP (fun r => cell_is r w val) := by
  induction rest generalizing kept removed with
  | nil =>
    simp [delete_loop] at h
    simp [h.1, h.2]
  | cons r rs ih =>
    unfold delete_loop at h
    cases hv : r.values[w]? with
    | none => simp [hv] at h
    | some v =>
      simp only [hv] at h
      have hm := cell_is_matches r w val v hv
      by_cases hc : cell_matches v val = true
      · simp only [hc, if_true] at h
        cases hs : read_slots r.values nc with
        | none => simp [hs] at h
        | some _ =>
          simp only [hs] at h
          obtain ⟨e1, e2⟩ := ih kept (removed + 1) h
          have hci : cell_is r w val = true := by rw [← hm, hc]
          simp only [List.filter_cons, List.countP_cons, hci, Bool.not_true, Bool.false_eq_true,
            if_false, if_true]
          exact ⟨e1, by omega⟩
      · have hc' : cell_matches v val = false := by simpa using hc
        simp only [hc', Bool.false_eq_true, if_false] at h
        obtain ⟨e1, e2⟩ := ih (kept ++ [r]) removed h
        have hci : cell_is r w val = false := by rw [← hm, hc']
        simp only [List.filter_cons, List.countP_cons, hci, Bool.not_false, Bool.false_eq_true,
          if_false, if_true]
        exact ⟨by simpa using e1, by omega⟩

theorem delete_loop_total (nc w : Nat) (val : CStr) (kept rest : List Row) (removed : Nat)
    (h : ∀ r ∈ rest, w < r.values.length ∧ nc ≤ r.values.length) :
    ∃ p, delete_loop nc w val kept rest removed = some p := by
  induction rest generalizing kept removed with
  | nil => exact ⟨_, rfl⟩
  | cons r rs ih =>
    obtain ⟨h1, h2⟩ := h r (by simp)
    have ih' := fun k n => ih k n (fun x hx => h x (by simp [hx]))
    unfold delete_loop
    simp only [List.getElem?_eq_getElem h1, read_slots, h2, if_true]
    split
    · exact ih' _ _
    · exact ih' _ _

theorem update_loop_spec (w s : Nat) (val set_val : CStr) (rows rows' : List Row) (n : Nat)
    (h : update_loop w s val set_val rows = some (rows', n)) :
    rows' = rows.map (updated_row w s val set_val) ∧
      n = rows.countP (fun r => cell_is r w val) := by
  induction rows generalizing rows' n with
  | nil =>
    simp [update_loop] at h
    simp [h.1, h.2]
  | cons r rs ih =>
    unfold update_loop at h
    cases hv : r.values[w]? with
    | none => simp [hv] at h
    | some v =>
      simp only [hv] at h
      have hm := cell_is_matches r w val v hv
      cases hrec : update_loop w s val set_val rs with
      | none => simp [hrec] at h
      | some p =>
        obtain ⟨e1, e2⟩ := ih p.1 p.2 hrec
        by_cases hc : cell_matches v val = true
        · simp only [hc, if_true, hrec] at h
          by_cases hs : s < r.values.length
          · simp only [hs, if_true, Option.map_some', Option.some.injEq, Prod.mk.injEq] at h
            have hci : cell_is r w val = true := by rw [← hm, hc]
            simp only [List.map_cons, updated_row, List.countP_cons, hci, if_true, ← h.1, ← h.2,
              e1, e2]
            simp
          · simp [hs] at h
        · have hc' : cell_matches v val = false := by simpa using hc
          simp only [hc', Bool.false_eq_true, if_false, hrec, Option.map_some', Option.some.injEq,
            Prod.mk.injEq] at h
          have hci : cell_is r w val = false := by rw [← hm, hc']
          simp only [List.map_cons, updated_row, List.countP_cons, hci, Bool.false_eq_true,
            if_false, ← h.1, ← h.2, e1, e2]
          simp

theorem update_loop_total (w s : Nat) (val set_val : CStr) (rows : List Row)
    (h : ∀ r ∈ rows, w < r.values.length ∧ s < r.values.length) :
    ∃ p, update_loop w s val set_val rows = some p := by
  induction rows with
  | nil => exact ⟨_, rfl⟩
  | cons r rs ih =>
    obtain ⟨h1, h2⟩ := h r (by simp)
    obtain ⟨p, hp⟩ := ih (fun x hx => h x (by simp [hx]))
    unfold update_loop
    simp only [List.getElem?_eq_getElem h1, h2, if_true, hp, Option.map_some']
    split
    · exact ⟨_, rfl⟩
    · exact ⟨_, rfl⟩


theorem column_index_absent (t : Table) (c : CStr) (h : c ∉ t.column_names) :
    column_index t c = none := by
  rw [column_index, find_index_eq_none]
  intro cd hcd
  have : cd.name ≠ c := by
    intro e
    apply h
    rw [← e]
    exact List.mem_map_of_mem _ hcd
  simpa using this

theorem set_first (pre post : List Table) (t t' : Table) :
    (pre ++ t :: post).set pre.length t' = pre ++ t' :: post := by
  simp

theorem delete_where_eq_held (db : Database) (name where_col val : CStr)
    (pre post : List Table) (t : Table)
    (hdb : db.tables = pre ++ t :: post) (hpre : ∀ u ∈ pre, u.name ≠ name) (ht : t.name = name)
    (hok : t.row_major_ok) (hcol : where_col ∈ t.column_names) :
    delete_where_eq db name where_col val = some ⟨1,
      deleted_message (t.rows.countP fun r => cell_is r (t.position where_col) val) name,
      { db with tables := pre ++
        { t with
          rows := t.rows.filter fun r => !cell_is r (t.position where_col) val
          num_rows := t.num_rows -
            t.rows.countP fun r => cell_is r (t.position where_col) val } :: post }⟩ := by
  obtain ⟨h1, h2⟩ := hok
  have hw := position_lt t where_col hcol
  obtain ⟨p, hp⟩ := delete_loop_total t.num_columns (t.position where_col) val [] t.rows 0
    (fun r hr => by rw [h2 r hr]; exact ⟨hw, Nat.le_refl _⟩)
  obtain ⟨k, n⟩ := p
  obtain ⟨e1, e2⟩ := delete_loop_spec _ _ _ _ _ _ _ _ hp
  simp only [List.nil_append, Nat.zero_add] at e1 e2
  subst e2
  have hkeep : (if t.rows.countP (fun r => cell_is r (t.position where_col) val) > 0 then k
      else t.rows) = t.rows.filter fun r => !cell_is r (t.position where_col) val := by
    by_cases hn : t.rows.countP (fun r => cell_is r (t.position where_col) val) > 0
    · simp [hn, e1]
    · have hz : t.rows.countP (fun r => cell_is r (t.position where_col) val) = 0 := by omega
      rw [if_neg hn]
      symm
      rw [List.filter_eq_self]
      intro r hr
      have := List.countP_eq_zero.1 hz r hr
      simpa using this
  simp only [delete_where_eq, find_table_first db name pre post t hdb hpre ht]
  rw [hdb, get_first]
  simp only [column_index_position t where_col hcol, ← h1, read_slots_self, Option.bind_eq_bind,
    Option.some_bind, hp, Option.pure_def, hkeep, set_first]
  rfl


/-- C12: for a table held in the row-major representation and an existing
column, `delete_where_eq` returns 1 (also when no row matches), leaves as the
rows of the table exactly the original rows whose cell at that column is not
the string `val`, unchanged and in their original order, lowers `num_rows` to
their number, and reports the number of original rows whose cell is `val`. -/
theorem delete_where_eq_filter (db : Database) (name where_col val : CStr)
    (pre post : List Table) (t : Table)
    (hdb : db.tables = pre ++ t :: post) (hpre : ∀ u ∈ pre, u.name ≠ name) (ht : t.name = name)
    (hok : t.row_major_ok) (hcol : where_col ∈ t.column_names) :
    delete_where_eq db name where_col val = some ⟨1,
      deleted_message (t.rows.countP fun r => cell_is r (t.position where_col) val) name,
      { db with tables := pre ++
        { t with
          rows := t.rows.filter fun r => !cell_is r (t.position where_col) val
          num_rows := t.num_rows -
            t.rows.countP fun r => cell_is r (t.position where_col) val } :: post }⟩ ∧
    (t.rows.filter fun r => !cell_is r (t.position where_col) val).length =
      t.num_rows - t.rows.countP fun r => cell_is r (t.position where_col) val := by
  refine ⟨delete_where_eq_held db name where_col val pre post t hdb hpre ht hok hcol, ?_⟩
  rw [← hok.1]
  have := List.length_eq_countP_add_countP (fun r => cell_is r (t.position where_col) val) t.rows
  rw [← List.countP_eq_length_filter]
  have e : List.countP (fun r => !cell_is r (t.position where_col) val) t.rows
      = List.countP (fun a => ¬ cell_is a (t.position where_col) val = true) t.rows := by
    congr 1
    funext r
    simp
  omega

theorem update_where_eq_held (db : Database) (name set_col set_val where_col val : CStr)
    (pre post : List Table) (t : Table)
    (hdb : db.tables = pre ++ t :: post) (hpre : ∀ u ∈ pre, u.name ≠ name) (ht : t.name = name)
    (hok : t.row_major_ok) (hset : set_col ∈ t.column_names)
    (hwhere : where_col ∈ t.column_names) :
    update_where_eq db name set_col set_val where_col val = some ⟨1,
      updated_message (t.rows.countP fun r => cell_is r (t.position where_col) val) name,
      { db with tables := pre ++
        { t with
          rows := t.rows.map
            (updated_row (t.position where_col) (t.position set_col) val set_val) } :: post }⟩ := by
  obtain ⟨h1, h2⟩ := hok
  have hw := position_lt t where_col hwhere
  have hs := position_lt t set_col hset
  obtain ⟨p, hp⟩ := update_loop_total (t.position where_col) (t.position set_col) val set_val
    t.rows (fun r hr => by rw [h2 r hr]; exact ⟨hw, hs⟩)
  obtain ⟨k, n⟩ := p
  obtain ⟨e1, e2⟩ := update_loop_spec _ _ _ _ _ _ _ hp
  subst e1 e2
  simp only [update_where_eq, find_table_first db name pre post t hdb hpre ht]
  rw [hdb, get_first]
  simp only [column_index_position t where_col hwhere, column_index_position t set_col hset,
    ← h1, read_slots_self, Option.bind_eq_bind, Option.some_bind, hp, Option.pure_def,
    set_first, List.drop_length, List.append_nil]
  rfl

theorem updated_row_other (w s : Nat) (val set_val : CStr) (r : Row) (j : Nat) (hj : j ≠ s) :
    (updated_row w s val set_val r).values[j]? = r.values[j]? := by
  unfold updated_row
  split
  · simp [List.getElem?_set, Ne.symm hj]
  · rfl

/-- C13: for a table held in the row-major representation and existing
columns `set_col` and `where_col`, `update_where_eq` returns 1, keeps the
number and the order of the rows, leaves every row whose `where_col` cell is
not the string `where_val` as it was, replaces in every other row the
`set_col` cell by `set_val` and leaves its other cells as they were, and
reports the number of rows whose `where_col` cell is `where_val`. -/
theorem update_where_eq_frame (db : Database) (name set_col set_val where_col val : CStr)
    (pre post : List Table) (t : Table)
    (hdb : db.tables = pre ++ t :: post) (hpre : ∀ u ∈ pre, u.name ≠ name) (ht : t.name = name)
    (hok : t.row_major_ok) (hset : set_col ∈ t.column_names)
    (hwhere : where_col ∈ t.column_names) :
    update_where_eq db name set_col set_val where_col val = some ⟨1,
      updated_message (t.rows.countP fun r => cell_is r (t.position where_col) val) name,
      { db with tables := pre ++
        { t with
          rows := t.rows.map
            (updated_row (t.position where_col) (t.position set_col) val set_val) } :: post }⟩ ∧
    (t.rows.map (updated_row (t.position where_col) (t.position set_col) val set_val)).length
      = t.num_rows ∧
    (∀ r, cell_is r (t.position where_col) val = false →
      updated_row (t.position where_col) (t.position set_col) val set_val r = r) ∧
    (∀ r ∈ t.rows, cell_is r (t.position where_col) val = true →
      (updated_row (t.position where_col) (t.position set_col) val set_val r).values[
        t.position set_col]? = some (some set_val)) ∧
    (∀ r j, j ≠ t.position set_col →
      (updated_row (t.position where_col) (t.position set_col) val set_val r).values[j]?
        = r.values[j]?) := by
  refine ⟨update_where_eq_held db name set_col set_val where_col val pre post t hdb hpre ht hok
    hset hwhere, by simp [hok.1], ?_, ?_, ?_⟩
  · intro r hr
    simp [updated_row, hr]
  · intro r hr hm
    have hs : t.position set_col < r.values.length := by
      rw [hok.2 r hr]; exact position_lt t set_col hset
    simp [updated_row, hm, List.getElem?_set, hs]
  · intro r j hj
    exact updated_row_other _ _ _ _ r j hj

/-- C14: when the table exists and the where column of `delete_where_eq` is
not a column of it, or one of the set column and the where column of
`update_where_eq` is not a column of it (whatever the other one is), the
function returns 0 and leaves the whole database unchanged. -/
theorem unknown_column_unchanged (db : Database) (name set_col set_val where_col val : CStr)
    (pre post : List Table) (t : Table)
    (hdb : db.tables = pre ++ t :: post) (hpre : ∀ u ∈ pre, u.name ≠ name) (ht : t.name = name) :
    (where_col ∉ t.column_names →
      delete_where_eq db name where_col val = some ⟨0,
        "Error: unknown column '".toList ++ where_col ++ "' in WHERE.\n".toList, db⟩) ∧
    (set_col ∉ t.column_names ∨ where_col ∉ t.column_names →
      update_where_eq db name set_col set_val where_col val
        = some ⟨0, "Error: unknown column in UPDATE.\n".toList, db⟩) := by
  constructor
  · intro h
    simp only [delete_where_eq, find_table_first db name pre post t hdb hpre ht]
    rw [hdb, get_first]
    simp only [column_index_absent t where_col h]
  · intro h
    simp only [update_where_eq, find_table_first db name pre post t hdb hpre ht]
    rw [hdb, get_first]
    rcases h with h | h
    · simp only [column_index_absent t set_col h]
      split
      · rename_i heq1 heq2
        simp at heq2
      · rfl
    · simp only [column_index_absent t where_col h]


/-- Projection at `sample_db`: `SELECT name, id, name FROM t`. -/
theorem select_columns_projects_witness :
    sample_table.row_major_ok ∧
    (∀ c ∈ ["name".toList, "id".toList, "name".toList], c ∈ sample_table.column_names) ∧
    select_columns sample_db "t".toList ["name".toList, "id".toList, "name".toList]
      = some ⟨some 1, "name | id | name\na | 1 | a\n".toList⟩ :=
  ⟨by decide, by decide,
    (select_columns_projects sample_db "t".toList [] [] sample_table
      ["name".toList, "id".toList, "name".toList] (by decide) (by decide) (by decide) (by decide)
      (by decide) (by decide)).1⟩

/-- Delete at `two_row_db`: `DELETE FROM t WHERE id = 1` removes one row and
leaves `(2, b)`. -/
theorem delete_where_eq_filter_witness :
    two_row_table.row_major_ok ∧ "id".toList ∈ two_row_table.column_names ∧
    delete_where_eq two_row_db "t".toList "id".toList "1".toList = some ⟨1,
      "1 row(s) deleted from 't'.\n".toList,
      ⟨[{ two_row_table with rows := [⟨[some "2".toList, some "b".toList]⟩], num_rows := 1 }],
        0, 0⟩⟩ :=
  ⟨by decide, by decide,
    (delete_where_eq_filter two_row_db "t".toList "id".toList "1".toList [] [] two_row_table
      (by decide) (by decide) (by decide) (by decide) (by decide)).1⟩

/-- Update at `two_row_db`: `UPDATE t SET name = "z" WHERE id = 2` changes one
cell. -/
theorem update_where_eq_frame_witness :
    two_row_table.row_major_ok ∧ "name".toList ∈ two_row_table.column_names ∧
    "id".toList ∈ two_row_table.column_names ∧
    update_where_eq two_row_db "t".toList "name".toList "z".toList "id".toList "2".toList
      = some ⟨1, "1 row(s) updated in 't'.\n".toList,
        ⟨[{ two_row_table with rows := [⟨[some "1".toList, some "a".toList]⟩,
          ⟨[some "2".toList, some "z".toList]⟩] }], 0, 0⟩⟩ :=
  ⟨by decide, by decide, by decide,
    (update_where_eq_frame two_row_db "t".toList "name".toList "z".toList "id".toList
      "2".toList [] [] two_row_table (by decide) (by decide) (by decide)
      (by decide) (by decide) (by decide)).1⟩

/-- Unknown columns at `two_row_db`: `DELETE FROM t WHERE nope = 1` and
`UPDATE t SET nope = "z" WHERE id = 2` change nothing. -/
theorem unknown_column_unchanged_witness :
    "nope".toList ∉ two_row_table.column_names ∧
    delete_where_eq two_row_db "t".toList "nope".toList "1".toList = some ⟨0,
      "Error: unknown column 'nope' in WHERE.\n".toList, two_row_db⟩ ∧
    update_where_eq two_row_db "t".toList "nope".toList "z".toList "id".toList "2".toList
      = some ⟨0, "Error: unknown column in UPDATE.\n".toList, two_row_db⟩ :=
  ⟨by decide,
    (unknown_column_unchanged two_row_db "t".toList "nope".toList "z".toList "nope".toList
      "1".toList [] [] two_row_table (by decide) (by decide) (by decide)).1 (by decide),
    (unknown_column_unchanged two_row_db "t".toList "nope".toList "z".toList "id".toList
      "2".toList [] [] two_row_table (by decide) (by decide) (by decide)).2
      (Or.inl (by decide))⟩


/-! ## The shape of the database after one operation -/

/-! ## The engine: what one operation changes -/

theorem find_index_split {α : Type} (p : α → Bool) (xs : List α) (i : Nat)
    (h : find_index p xs = some i) :
    ∃ pre t post, xs = pre ++ t :: post ∧ pre.length = i ∧ (∀ u ∈ pre, p u = false) ∧
      p t = true := by
  induction xs generalizing i with
  | nil => simp [find_index] at h
  | cons x xs ih =>
    by_cases hx : p x = true
    · simp [find_index, hx] at h
      subst h
      exact ⟨[], x, xs, rfl, rfl, by simp, hx⟩
    · simp [find_index, hx] at h
      obtain ⟨j, hj, rfl⟩ := h
      obtain ⟨pre, t, post, e, hl, hp, ht⟩ := ih j hj
      refine ⟨x :: pre, t, post, by simp [e], by simp [hl], ?_, ht⟩
      intro u hu
      simp only [List.mem_cons] at hu
      rcases hu with rfl | hu
      · simpa using hx
      · exact hp u hu

theorem find_table_split (db : Database) (name : CStr) (i : Nat)
    (h : find_table db name = some i) :
    ∃ pre t post, db.tables = pre ++ t :: post ∧ pre.length = i ∧ (∀ u ∈ pre, u.name ≠ name) ∧
      t.name = name := by
  obtain ⟨pre, t, post, e, hl, hp, ht⟩ := find_index_split _ _ _ h
  exact ⟨pre, t, post, e, hl, fun u hu => by simpa using hp u hu, by simpa using ht⟩

theorem insert_row_shape (db : Database) (name : CStr) (values : List (Option CStr))
    (r : Int × Database) (h : insert_row db name values = some r) :
    r.2 = db ∨ ∃ i t t', db.tables[i]? = some t ∧
      r.2 = { db with tables := db.tables.set i t' } ∧ t'.follows t db.column_store := by
  unfold insert_row at h
  cases hf : find_table db name with
  | none =>
    simp [hf] at h
    exact Or.inl (by rw [← h])
  | some i =>
    simp only [hf] at h
    cases ht : db.tables[i]? with
    | none => simp [ht] at h
    | some t =>
      simp only [ht] at h
      by_cases hl : values.length ≠ t.num_columns
      · rw [if_pos hl] at h
        simp at h
        exact Or.inl (by rw [← h])
      · rw [if_neg hl] at h
        have hl' : values.length = t.columns.length := by simpa [Table.num_columns] using hl
        by_cases hm : db.column_store = 0
        · rw [if_pos hm] at h
          simp at h
          refine Or.inr ⟨i, t, insert_row_major t values, ht, by rw [← h], rfl, rfl, ?_⟩
          intro _ hok
          constructor
          · simp [insert_row_major, ← hok.1, resize_self]
          · intro x hx
            simp only [insert_row_major, ← hok.1, resize_self, List.mem_append,
              List.mem_singleton] at hx
            rcases hx with hx | rfl
            · exact hok.2 x hx
            · exact hl'
        · rw [if_neg hm] at h
          cases hc : insert_column_major t values with
          | none => simp [hc] at h
          | some t' =>
            simp [hc] at h
            refine Or.inr ⟨i, t, t', ht, by rw [← h], ?_, ?_, fun h0 => absurd h0 hm⟩
            · unfold insert_column_major at hc
              cases hs : read_slots t.column_data t.num_columns with
              | none => simp [hs] at hc
              | some cds =>
                simp [hs] at hc
                rw [← hc]
            · unfold insert_column_major at hc
              cases hs : read_slots t.column_data t.num_columns with
              | none => simp [hs] at hc
              | some cds =>
                simp [hs] at hc
                rw [← hc]


theorem delete_where_eq_shape (db : Database) (name where_col val : CStr) (r : WriteResult)
    (h : delete_where_eq db name where_col val = some r) :
    r.db = db ∨ ∃ i t t', db.tables[i]? = some t ∧
      r.db = { db with tables := db.tables.set i t' } ∧ t'.follows t db.column_store := by
  unfold delete_where_eq at h
  cases hf : find_table db name with
  | none =>
    simp [hf] at h
    exact Or.inl (by rw [← h])
  | some i =>
    simp only [hf] at h
    cases ht : db.tables[i]? with
    | none => simp [ht] at h
    | some t =>
      simp only [ht] at h
      cases hc : column_index t where_col with
      | none =>
        simp [hc] at h
        exact Or.inl (by rw [← h])
      | some w =>
        simp only [hc] at h
        cases hs : read_slots t.rows t.num_rows with
        | none => simp [hs] at h
        | some rows =>
          cases hl : delete_loop t.num_columns w val [] rows 0 with
          | none => simp [hs, hl] at h
          | some p =>
            obtain ⟨k, n⟩ := p
            simp [hs, hl] at h
            refine Or.inr ⟨i, t, (⟨t.name, t.columns, t.num_rows - n,
              if n > 0 then k else t.rows, t.column_data⟩ : Table), ht, by rw [← h], rfl, rfl, ?_⟩
            intro _ hok
            obtain ⟨e1, e2⟩ := delete_loop_spec _ _ _ _ _ _ _ _ hl
            have hrows : t.rows = rows := by
              rw [← hok.1] at hs
              simpa [read_slots_self] using hs
            simp only [List.nil_append, Nat.zero_add, ← hrows] at e1 e2
            have hlen := List.length_eq_countP_add_countP (fun r => cell_is r w val) t.rows
            have hcnt : (t.rows.filter fun r => !cell_is r w val).length
                = t.rows.countP (fun a => ¬ cell_is a w val = true) := by
              rw [← List.countP_eq_length_filter]
              congr 1
              funext r
              simp
            constructor
            · show (if n > 0 then k else t.rows).length = t.num_rows - n
              by_cases hn : n > 0
              · rw [if_pos hn, e1, hcnt, ← hok.1]
                omega
              · rw [if_neg hn, ← hok.1]
                omega
            · intro x hx
              have hx' : x ∈ (if n > 0 then k else t.rows) := hx
              by_cases hn : n > 0
              · rw [if_pos hn, e1] at hx'
                exact hok.2 x (List.mem_filter.1 hx').1
              · rw [if_neg hn] at hx'
                exact hok.2 x hx'

theorem update_where_eq_shape (db : Database) (name set_col set_val where_col val : CStr)
    (r : WriteResult) (h : update_where_eq db name set_col set_val where_col val = some r) :
    r.db = db ∨ ∃ i t t', db.tables[i]? = some t ∧
      r.db = { db with tables := db.tables.set i t' } ∧ t'.follows t db.column_store := by
  unfold update_where_eq at h
  cases hf : find_table db name with
  | none =>
    simp [hf] at h
    exact Or.inl (by rw [← h])
  | some i =>
    simp only [hf] at h
    cases ht : db.tables[i]? with
    | none => simp [ht] at h
    | some t =>
      simp only [ht] at h
      split at h
      · rename_i w s hw hs'
        cases hs : read_slots t.rows t.num_rows with
        | none => simp [hs] at h
        | some rows =>
          cases hl : update_loop w s val set_val rows with
          | none => simp [hs, hl] at h
          | some p =>
            obtain ⟨k, n⟩ := p
            simp [hs, hl] at h
            refine Or.inr ⟨i, t, (⟨t.name, t.columns, t.num_rows,
              k ++ t.rows.drop t.num_rows, t.column_data⟩ : Table), ht, by rw [← h], rfl, rfl, ?_⟩
            intro _ hok
            obtain ⟨e1, _⟩ := update_loop_spec _ _ _ _ _ _ _ hl
            have hrows : t.rows = rows := by
              rw [← hok.1] at hs
              simpa [read_slots_self] using hs
            rw [← hrows] at e1
            constructor
            · show (k ++ List.drop t.num_rows t.rows).length = t.num_rows
              rw [e1, ← hok.1]
              simp
            · intro x hx
              have hx' : x ∈ k ++ List.drop t.num_rows t.rows := hx
              rw [e1, ← hok.1, List.drop_length, List.append_nil] at hx'
              obtain ⟨y, hy, rfl⟩ := List.mem_map.1 hx'
              show (updated_row w s val set_val y).values.length = t.columns.length
              unfold updated_row
              split
              · simpa using hok.2 y hy
              · exact hok.2 y hy
      · simp at h
        exact Or.inl (by rw [← h])

theorem erase_first (pre post : List Table) (t : Table) :
    (pre ++ t :: post).eraseIdx pre.length = pre ++ post := by
  induction pre with
  | nil => rfl
  | cons x xs ih => simp [List.eraseIdx, ih]

theorem drop_table_shape (db : Database) (name : CStr) (r : Int × Database)
    (h : drop_table db name = some r) :
    (r = (0, db) ∧ ∀ t ∈ db.tables, t.name ≠ name) ∨
    ∃ pre t post, db.tables = pre ++ t :: post ∧ (∀ u ∈ pre, u.name ≠ name) ∧ t.name = name ∧
      r = (1, { db with tables := pre ++ post }) := by
  unfold drop_table at h
  cases hf : find_table db name with
  | none =>
    simp [hf] at h
    refine Or.inl ⟨h.symm, ?_⟩
    intro t ht
    have := (find_index_eq_none _ _).1 hf t ht
    simpa using this
  | some i =>
    obtain ⟨pre, t, post, e, hl, hp, hn⟩ := find_table_split db name i hf
    subst hl
    simp only [hf, e, get_first] at h
    cases hfree : free_table t with
    | none => simp [hfree] at h
    | some _ =>
      simp only [hfree, erase_first] at h
      exact Or.inr ⟨pre, t, post, e, hp, hn, (Option.some.inj h).symm⟩

theorem drop_table_held (db : Database) (name : CStr) (pre post : List Table) (t : Table)
    (hdb : db.tables = pre ++ t :: post) (hpre : ∀ u ∈ pre, u.name ≠ name) (ht : t.name = name)
    (hfree : (free_table t).isSome = true) :
    drop_table db name = some (1, { db with tables := pre ++ post }) := by
  obtain ⟨x, hx⟩ := Option.isSome_iff_exists.1 hfree
  simp only [drop_table, find_table_first db name pre post t hdb hpre ht]
  rw [hdb, get_first, erase_first]
  simp [hx]

theorem free_table_row_major (t : Table) (h : t.row_major_ok) :
    (free_table t).isSome = true := by
  have h2 : for_each (fun r : Row => read_slots r.values t.num_columns) t.rows
      = some (t.rows.map (·.values)) := by
    apply for_each_eq_map
    intro r hr
    rw [Table.num_columns, ← h.2 r hr]
    exact read_slots_self _
  unfold free_table
  rw [← h.1, read_slots_self]
  simp [h2]


/-! ## What a load preserves -/

/-! ## The codec: what a load preserves -/

theorem sscanf_lit (s : List Char) (c : Char) (ds : List Directive) (v : ScanVal)
    (vs : List ScanVal) (h : sscanf s (.lit c :: ds) = v :: vs) :
    ∃ s', s = c :: s' ∧ sscanf s' ds = v :: vs := by
  unfold sscanf at h
  cases s with
  | nil => simp at h
  | cons x s' =>
    by_cases hx : x = c
    · subst hx
      simp only [if_true] at h
      exact ⟨s', rfl, h⟩
    · simp [hx] at h

theorem scan_str_length (w : Nat) (s x s' : List Char) (h : scan_str w s = some (x, s')) :
    x.length ≤ w := by
  unfold scan_str at h
  split at h
  · simp at h
  · rename_i heq
    simp only [Option.some.injEq, Prod.mk.injEq] at h
    rw [← h.1]
    exact List.length_take_le _ _

theorem sscanf_table_name (s : List Char) (tname : CStr) (nc nr : Int)
    (h : sscanf s fmt_table = [.str tname, .int nc, .int nr]) : tname.length ≤ 63 := by
  simp only [fmt_table, lits, String.toList, List.map, List.cons_append, List.nil_append] at h
  obtain ⟨s1, _, h⟩ := sscanf_lit _ _ _ _ _ h
  obtain ⟨s2, _, h⟩ := sscanf_lit _ _ _ _ _ h
  obtain ⟨s3, _, h⟩ := sscanf_lit _ _ _ _ _ h
  obtain ⟨s4, _, h⟩ := sscanf_lit _ _ _ _ _ h
  obtain ⟨s5, _, h⟩ := sscanf_lit _ _ _ _ _ h
  unfold sscanf at h
  unfold sscanf at h
  cases hs : scan_str 63 (List.dropWhile isspace (List.dropWhile isspace s5)) with
  | none => simp [hs] at h
  | some p =>
    obtain ⟨x, s'⟩ := p
    simp only [hs, List.cons.injEq, ScanVal.str.injEq] at h
    rw [← h.1]
    exact scan_str_length _ _ _ _ hs

theorem load_rows_preserves (P : Database → Prop)
    (hi : ∀ db name vals r, P db → insert_row db name vals = some r → P r.2)
    (n : Nat) (db : Database) (tname : CStr) (nc : Nat) (f : List Char)
    (r : Bool × Database × List Char) (hP : P db) (h : load_rows n db tname nc f = some r) :
    P r.2.1 := by
  induction n generalizing db f with
  | zero =>
    simp [load_rows] at h
    rw [← h]; exact hP
  | succ n ih =>
    unfold load_rows at h
    cases h1 : fgets 1024 f with
    | none =>
      simp [h1] at h
      rw [← h]; exact hP
    | some p =>
      obtain ⟨buf, f'⟩ := p
      simp only [h1] at h
      by_cases hr : strncmp_eq (c_str buf) "ROW".toList 3 = true
      · simp only [hr, Bool.not_true, Bool.false_eq_true, if_false] at h
        cases hins : insert_row db tname ((parse_row_line (c_str buf) nc).map some) with
        | none => simp [hins] at h
        | some x =>
          simp only [hins] at h
          exact ih x.2 f' (hi db _ _ x hP hins) h
      · rw [Bool.not_eq_true] at hr
        simp only [hr, Bool.not_false, if_true, Option.some.injEq] at h
        rw [← h]; exact hP

theorem load_tables_preserves (P : Database → Prop)
    (hc : ∀ db name cols, name.length ≤ 63 → P db → P (create_table db name cols).2)
    (hi : ∀ db name vals r, P db → insert_row db name vals = some r → P r.2)
    (n : Nat) (db : Database) (f : List Char) (r : LoadResult)
    (hP : P db) (h : load_tables n db f = some r) : P r.db := by
  induction n generalizing db f with
  | zero =>
    simp [load_tables] at h
    rw [← h]; exact hP
  | succ n ih =>
    unfold load_tables at h
    cases h1 : fgets 1024 f with
    | none =>
      simp [h1] at h
      rw [← h]; exact hP
    | some p =>
      obtain ⟨buf, f1⟩ := p
      simp only [h1] at h
      split at h
      · rename_i tname num_cols num_rows hs
        have hname := sscanf_table_name _ _ _ _ hs
        by_cases hneg : num_cols < 0
        · simp [hneg] at h
          rw [← h]; exact hP
        · simp only [hneg, if_false] at h
          cases hcl : load_columns num_cols.toNat f1 with
          | none =>
            simp [hcl] at h
            rw [← h]; exact hP
          | some q =>
            obtain ⟨cols, f2⟩ := q
            simp only [hcl] at h
            have hP1 := hc db tname cols hname hP
            cases hft : find_table (create_table db tname cols).2 tname with
            | none =>
              simp [hft] at h
              rw [← h]; exact hP1
            | some i =>
              simp only [hft] at h
              cases hlr : load_rows num_rows.toNat (create_table db tname cols).2 tname
                  num_cols.toNat f2 with
              | none => simp [hlr] at h
              | some x =>
                obtain ⟨b, db2, f3⟩ := x
                have hP2 := load_rows_preserves P hi _ _ _ _ _ _ hP1 hlr
                cases b with
                | false =>
                  simp [hlr] at h
                  rw [← h]; exact hP2
                | true =>
                  simp only [hlr] at h
                  exact ih db2 f3 hP2 h
      · simp at h
        rw [← h]; exact hP

theorem load_database_preserves (P : Database → Prop)
    (hc : ∀ db name cols, name.length ≤ 63 → P db → P (create_table db name cols).2)
    (hi : ∀ db name vals r, P db → insert_row db name vals = some r → P r.2)
    (db : Database) (file : Option (List Char)) (r : LoadResult)
    (hP : P db) (hempty : P ⟨[], db.binary_mode, db.column_store⟩)
    (h : load_database db file = some r) : P r.db := by
  cases file with
  | none =>
    simp [load_database] at h
    rw [← h]; exact hP
  | some f =>
    have hfree := load_database_releasable db f r h
    rw [load_database_eq db f hfree] at h
    cases hh : header_count f with
    | none =>
      simp [hh] at h
      rw [← h]; exact hempty
    | some p =>
      obtain ⟨k, f2⟩ := p
      simp only [hh] at h
      exact load_tables_preserves P hc hi _ _ _ _ hempty h


/-! ## Table names and column names of the databases reached -/

/-! ## Invariants of the reachable databases -/

theorem set_follows_map {β : Type} (f : Table → β) (xs : List Table) (i : Nat) (t t' : Table)
    (h : xs[i]? = some t) (hf : f t' = f t) : (xs.set i t').map f = xs.map f := by
  induction xs generalizing i with
  | nil => simp
  | cons x xs ih =>
    cases i with
    | zero =>
      simp at h
      simp [hf, h]
    | succ i =>
      simp at h
      simp [ih i h]

theorem create_table_shape (db : Database) (name : CStr) (cols : List ColumnDef) :
    ((∃ t ∈ db.tables, t.name = name) ∧ create_table db name cols = (0, db)) ∨
    ((∀ t ∈ db.tables, t.name ≠ name) ∧
      create_table db name cols = (1, { db with tables := db.tables ++ [new_table name cols] })) := by
  by_cases h : ∃ t ∈ db.tables, t.name = name
  · refine Or.inl ⟨h, ?_⟩
    have : (find_table db name).isSome = true := by
      rw [find_table, find_index_is_some]
      obtain ⟨t, ht, hn⟩ := h
      exact ⟨t, ht, by simp [hn]⟩
    simp [create_table, this]
  · have h' : ∀ t ∈ db.tables, t.name ≠ name := fun t ht e => h ⟨t, ht, e⟩
    refine Or.inr ⟨h', ?_⟩
    simp [create_table, find_table_absent db name h']

theorem names_create (db : Database) (name : CStr) (cols : List ColumnDef)
    (hlen : name.length ≤ 63) (h : db.table_names.Nodup) :
    (create_table db name cols).2.table_names.Nodup := by
  rcases create_table_shape db name cols with ⟨_, e⟩ | ⟨habs, e⟩
  · rw [e]; exact h
  · rw [e]
    have hn : (new_table name cols).name = name := List.take_of_length_le hlen
    simp only [Database.table_names, List.map_append, List.map_cons, List.map_nil, hn]
    rw [List.nodup_append]
    refine ⟨h, by simp, ?_⟩
    intro a ha hb
    simp only [List.mem_singleton] at hb
    subst hb
    obtain ⟨t, ht, e⟩ := List.mem_map.1 ha
    exact habs t ht e

theorem names_insert (db : Database) (name : CStr) (vals : List (Option CStr))
    (r : Int × Database) (h : insert_row db name vals = some r) :
    r.2.table_names = db.table_names := by
  rcases insert_row_shape db name vals r h with e | ⟨i, t, t', ht, e, hf⟩
  · rw [e]
  · rw [e]
    exact set_follows_map (·.name) db.tables i t t' ht hf.1

theorem names_delete (db : Database) (name wc wv : CStr) (r : WriteResult)
    (h : delete_where_eq db name wc wv = some r) : r.db.table_names = db.table_names := by
  rcases delete_where_eq_shape db name wc wv r h with e | ⟨i, t, t', ht, e, hf⟩
  · rw [e]
  · rw [e]
    exact set_follows_map (·.name) db.tables i t t' ht hf.1

theorem names_update (db : Database) (name sc sv wc wv : CStr) (r : WriteResult)
    (h : update_where_eq db name sc sv wc wv = some r) : r.db.table_names = db.table_names := by
  rcases update_where_eq_shape db name sc sv wc wv r h with e | ⟨i, t, t', ht, e, hf⟩
  · rw [e]
  · rw [e]
    exact set_follows_map (·.name) db.tables i t t' ht hf.1

theorem names_drop (db : Database) (name : CStr) (r : Int × Database)
    (h : drop_table db name = some r) : r.2.table_names.Sublist db.table_names := by
  rcases drop_table_shape db name r h with ⟨e, _⟩ | ⟨pre, t, post, hdb, _, _, e⟩
  · rw [e]
  · rw [e]
    simp only [Database.table_names, hdb, List.map_append, List.map_cons]
    exact List.Sublist.append_left (List.sublist_cons_self _ _) _

theorem names_load (db : Database) (file : Option (List Char)) (r : LoadResult)
    (hP : db.table_names.Nodup) (h : load_database db file = some r) :
    r.db.table_names.Nodup :=
  load_database_preserves (fun d => d.table_names.Nodup)
    (fun d name cols hlen hd => names_create d name cols hlen hd)
    (fun d name vals x hd hx => by
      show x.2.table_names.Nodup
      rw [names_insert d name vals x hx]; exact hd)
    db file r hP (by simp [Database.table_names]) h

theorem names_apply_op (db db' : Database) (op : Op) (hop : op.short_name)
    (hP : db.table_names.Nodup) (h : apply_op db op = some db') : db'.table_names.Nodup := by
  cases op with
  | create name cols =>
    simp [apply_op] at h
    rw [← h]
    exact names_create db name cols hop hP
  | drop name =>
    simp only [apply_op, Option.map_eq_some'] at h
    obtain ⟨r, hr, rfl⟩ := h
    exact hP.sublist (names_drop db name r hr)
  | insert name vals =>
    simp only [apply_op, Option.map_eq_some'] at h
    obtain ⟨r, hr, rfl⟩ := h
    rw [names_insert db name vals r hr]; exact hP
  | delete name wc wv =>
    simp only [apply_op, Option.map_eq_some'] at h
    obtain ⟨r, hr, rfl⟩ := h
    rw [names_delete db name wc wv r hr]; exact hP
  | update name sc sv wc wv =>
    simp only [apply_op, Option.map_eq_some'] at h
    obtain ⟨r, hr, rfl⟩ := h
    rw [names_update db name sc sv wc wv r hr]; exact hP
  | load file =>
    simp only [apply_op, Option.map_eq_some'] at h
    obtain ⟨r, hr, rfl⟩ := h
    exact names_load db file r hP hr

theorem run_ops_invariant (P : Database → Prop) (Q : Op → Prop)
    (step : ∀ db db' op, Q op → P db → apply_op db op = some db' → P db')
    (ops : List Op) (db db' : Database) (hQ : ∀ op ∈ ops, Q op) (hP : P db)
    (h : run_ops db ops = some db') : P db' := by
  induction ops generalizing db with
  | nil =>
    simp [run_ops] at h
    rw [← h]; exact hP
  | cons op ops ih =>
    unfold run_ops at h
    cases ha : apply_op db op with
    | none => simp [ha] at h
    | some d =>
      simp only [ha] at h
      exact ih d (fun o ho => hQ o (by simp [ho])) (step db d op (hQ op (by simp)) hP ha) h

theorem names_run_ops (ops : List Op) (db db' : Database) (hshort : ∀ op ∈ ops, op.short_name)
    (hP : db.table_names.Nodup) (h : run_ops db ops = some db') : db'.table_names.Nodup :=
  run_ops_invariant (fun d => d.table_names.Nodup) Op.short_name
    (fun d d' op hop hd hd' => names_apply_op d d' op hop hd hd') ops db db' hshort hP h

/-- C18, as amended: in every database reached from the empty database by
`create_table`, `drop_table`, `insert_row`, `delete_where_eq`,
`update_where_eq` and `load_database` calls, under either layout, in which
every name given to `create_table` has at most 63 characters, the names of the
stored tables are pairwise distinct. -/
theorem reachable_table_names_distinct (ops : List Op) (bm cs : Int) (db : Database)
    (hshort : ∀ op ∈ ops, op.short_name) (h : run_ops ⟨[], bm, cs⟩ ops = some db) :
    (db.tables.map (·.name)).Nodup :=
  names_run_ops ops ⟨[], bm, cs⟩ db hshort (by simp [Database.table_names]) h

/-- C18, counterexample: `create_table` with a name of 63 characters and then
with a name of 64 characters that begins with it both succeed, and the two
tables are stored under the same name. -/
theorem table_names_counterexample :
    run_ops empty_db [.create (List.replicate 63 'a') [⟨"id".toList, .COL_INT⟩],
        .create (List.replicate 64 'a') [⟨"id".toList, .COL_INT⟩]]
      = some ⟨[⟨List.replicate 63 'a', [⟨"id".toList, .COL_INT⟩], 0, [],
            [⟨"id".toList, .COL_INT, []⟩]⟩,
          ⟨List.replicate 63 'a', [⟨"id".toList, .COL_INT⟩], 0, [],
            [⟨"id".toList, .COL_INT, []⟩]⟩], 0, 0⟩ ∧
    create_table empty_db (List.replicate 63 'a') [⟨"id".toList, .COL_INT⟩]
      = (1, ⟨[⟨List.replicate 63 'a', [⟨"id".toList, .COL_INT⟩], 0, [],
          [⟨"id".toList, .COL_INT, []⟩]⟩], 0, 0⟩) ∧
    create_table ⟨[⟨List.replicate 63 'a', [⟨"id".toList, .COL_INT⟩], 0, [],
          [⟨"id".toList, .COL_INT, []⟩]⟩], 0, 0⟩ (List.replicate 64 'a')
        [⟨"id".toList, .COL_INT⟩]
      = (1, ⟨[⟨List.replicate 63 'a', [⟨"id".toList, .COL_INT⟩], 0, [],
            [⟨"id".toList, .COL_INT, []⟩]⟩,
          ⟨List.replicate 63 'a', [⟨"id".toList, .COL_INT⟩], 0, [],
            [⟨"id".toList, .COL_INT, []⟩]⟩], 0, 0⟩) := by
  decide


theorem set_follows_all (Q : Table → Prop) (xs : List Table) (i : Nat) (t' : Table)
    (h : ∀ x ∈ xs, Q x) (h' : Q t') : ∀ x ∈ xs.set i t', Q x := by
  intro x hx
  rcases List.mem_or_eq_of_mem_set hx with hx | rfl
  · exact h x hx
  · exact h'

theorem columns_apply_op (db db' : Database) (op : Op) (hop : op.distinct_columns)
    (hP : db.columns_distinct) (h : apply_op db op = some db') : db'.columns_distinct := by
  cases op with
  | create name cols =>
    simp [apply_op] at h
    rw [← h]
    rcases create_table_shape db name cols with ⟨_, e⟩ | ⟨_, e⟩
    · rw [e]; exact hP
    · rw [e]
      intro t ht
      simp only [List.mem_append, List.mem_singleton] at ht
      rcases ht with ht | rfl
      · exact hP t ht
      · exact hop
  | drop name =>
    simp only [apply_op, Option.map_eq_some'] at h
    obtain ⟨r, hr, rfl⟩ := h
    rcases drop_table_shape db name r hr with ⟨e, _⟩ | ⟨pre, t, post, hdb, _, _, e⟩
    · rw [e]; exact hP
    · rw [e]
      intro x hx
      apply hP x
      rw [hdb]
      simp only [List.mem_append, List.mem_cons] at hx ⊢
      rcases hx with hx | hx
      · exact Or.inl hx
      · exact Or.inr (Or.inr hx)
  | insert name vals =>
    simp only [apply_op, Option.map_eq_some'] at h
    obtain ⟨r, hr, rfl⟩ := h
    rcases insert_row_shape db name vals r hr with e | ⟨i, t, t', ht, e, hf⟩
    · rw [e]; exact hP
    · rw [e]
      exact set_follows_all _ db.tables i t' hP
        (by rw [hf.2.1]; exact hP t (List.getElem?_mem ht))
  | delete name wc wv =>
    simp only [apply_op, Option.map_eq_some'] at h
    obtain ⟨r, hr, rfl⟩ := h
    rcases delete_where_eq_shape db name wc wv r hr with e | ⟨i, t, t', ht, e, hf⟩
    · rw [e]; exact hP
    · rw [e]
      exact set_follows_all _ db.tables i t' hP
        (by rw [hf.2.1]; exact hP t (List.getElem?_mem ht))
  | update name sc sv wc wv =>
    simp only [apply_op, Option.map_eq_some'] at h
    obtain ⟨r, hr, rfl⟩ := h
    rcases update_where_eq_shape db name sc sv wc wv r hr with e | ⟨i, t, t', ht, e, hf⟩
    · rw [e]; exact hP
    · rw [e]
      exact set_follows_all _ db.tables i t' hP
        (by rw [hf.2.1]; exact hP t (List.getElem?_mem ht))
  | load file => exact absurd hop (by simp [Op.distinct_columns])

theorem find_table_get (db : Database) (name : CStr) (i : Nat) (h : find_table db name = some i) :
    ∃ t, db.tables[i]? = some t ∧ t ∈ db.tables := by
  have hi := find_index_lt _ _ _ h
  exact ⟨db.tables[i], List.getElem?_eq_getElem hi, List.getElem_mem hi⟩

theorem column_index_lt (t : Table) (c : CStr) (w : Nat) (h : column_index t c = some w) :
    w < t.columns.length := find_index_lt _ _ _ h

theorem insert_row_total (db : Database) (name : CStr) (vals : List (Option CStr))
    (h : db.column_store = 0) : ∃ r, insert_row db name vals = some r := by
  unfold insert_row
  cases hf : find_table db name with
  | none => exact ⟨_, rfl⟩
  | some i =>
    obtain ⟨t, ht, _⟩ := find_table_get db name i hf
    simp only [ht, h, if_true]
    split
    · exact ⟨_, rfl⟩
    · exact ⟨_, rfl⟩

theorem delete_where_eq_total (db : Database) (name wc wv : CStr)
    (h : ∀ t ∈ db.tables, t.row_major_ok) : ∃ r, delete_where_eq db name wc wv = some r := by
  unfold delete_where_eq
  cases hf : find_table db name with
  | none => exact ⟨_, rfl⟩
  | some i =>
    obtain ⟨t, ht, hmem⟩ := find_table_get db name i hf
    obtain ⟨h1, h2⟩ := h t hmem
    simp only [ht]
    cases hc : column_index t wc with
    | none => exact ⟨_, rfl⟩
    | some w =>
      have hw := column_index_lt t wc w hc
      obtain ⟨p, hp⟩ := delete_loop_total t.num_columns w wv [] t.rows 0
        (fun r hr => by rw [h2 r hr]; exact ⟨hw, Nat.le_refl _⟩)
      simp only [← h1, read_slots_self, Option.bind_eq_bind, Option.some_bind, hp,
        Option.pure_def]
      exact ⟨_, rfl⟩

theorem update_where_eq_total (db : Database) (name sc sv wc wv : CStr)
    (h : ∀ t ∈ db.tables, t.row_major_ok) : ∃ r, update_where_eq db name sc sv wc wv = some r := by
  unfold update_where_eq
  cases hf : find_table db name with
  | none => exact ⟨_, rfl⟩
  | some i =>
    obtain ⟨t, ht, hmem⟩ := find_table_get db name i hf
    obtain ⟨h1, h2⟩ := h t hmem
    simp only [ht]
    split
    · rename_i w s hw hs
      have hw' := column_index_lt t wc w hw
      have hs' := column_index_lt t sc s hs
      obtain ⟨p, hp⟩ := update_loop_total w s wv sv t.rows
        (fun r hr => by rw [h2 r hr]; exact ⟨hw', hs'⟩)
      simp only [← h1, read_slots_self, Option.bind_eq_bind, Option.some_bind, hp,
        Option.pure_def]
      exact ⟨_, rfl⟩
    · exact ⟨_, rfl⟩

theorem drop_table_total (db : Database) (name : CStr)
    (h : ∀ t ∈ db.tables, t.row_major_ok) : ∃ r, drop_table db name = some r := by
  unfold drop_table
  cases hf : find_table db name with
  | none => exact ⟨_, rfl⟩
  | some i =>
    obtain ⟨t, ht, hmem⟩ := find_table_get db name i hf
    obtain ⟨x, hx⟩ := Option.isSome_iff_exists.1 (free_table_row_major t (h t hmem))
    simp only [ht, hx]
    exact ⟨_, rfl⟩

theorem releasable_row_major (db : Database) (h : ∀ t ∈ db.tables, t.row_major_ok) :
    db.releasable := by
  have hall : ∀ ts : List Table, (∀ t ∈ ts, t.row_major_ok) →
      ∃ l, for_each free_table ts = some l := by
    intro ts
    induction ts with
    | nil => intro _; exact ⟨_, rfl⟩
    | cons t ts ih =>
      intro hts
      obtain ⟨x, hx⟩ := Option.isSome_iff_exists.1 (free_table_row_major t (hts t (by simp)))
      obtain ⟨l, hl⟩ := ih (fun u hu => hts u (by simp [hu]))
      exact ⟨x :: l, by simp [for_each, hx, hl]⟩
  obtain ⟨l, hl⟩ := hall db.tables h
  simp [Database.releasable, free_database, hl]

theorem load_rows_total (P : Database → Prop)
    (hi : ∀ db name vals, P db → ∃ r, insert_row db name vals = some r ∧ P r.2)
    (n : Nat) (db : Database) (tname : CStr) (nc : Nat) (f : List Char) (hP : P db) :
    ∃ r, load_rows n db tname nc f = some r ∧ P r.2.1 := by
  induction n generalizing db f with
  | zero => exact ⟨_, rfl, hP⟩
  | succ n ih =>
    unfold load_rows
    cases h1 : fgets 1024 f with
    | none => exact ⟨_, rfl, hP⟩
    | some p =>
      obtain ⟨buf, f'⟩ := p
      simp only []
      by_cases hr : strncmp_eq (c_str buf) "ROW".toList 3 = true
      · obtain ⟨x, hx, hPx⟩ := hi db tname ((parse_row_line (c_str buf) nc).map some) hP
        simp only [hr, Bool.not_true, Bool.false_eq_true, if_false, hx]
        exact ih x.2 f' hPx
      · rw [Bool.not_eq_true] at hr
        simp only [hr, Bool.not_false, if_true]
        exact ⟨_, rfl, hP⟩

theorem load_tables_total (P : Database → Prop)
    (hc : ∀ db name cols, P db → P (create_table db name cols).2)
    (hi : ∀ db name vals, P db → ∃ r, insert_row db name vals = some r ∧ P r.2)
    (n : Nat) (db : Database) (f : List Char) (hP : P db) :
    ∃ r, load_tables n db f = some r ∧ P r.db := by
  induction n generalizing db f with
  | zero => exact ⟨_, rfl, hP⟩
  | succ n ih =>
    unfold load_tables
    cases h1 : fgets 1024 f with
    | none => exact ⟨_, rfl, hP⟩
    | some p =>
      obtain ⟨buf, f1⟩ := p
      simp only []
      split
      · rename_i tname num_cols num_rows hs
        by_cases hneg : num_cols < 0
        · simp only [hneg, if_true]
          exact ⟨_, rfl, hP⟩
        · simp only [hneg, if_false]
          cases hcl : load_columns num_cols.toNat f1 with
          | none => exact ⟨_, rfl, hP⟩
          | some q =>
            obtain ⟨cols, f2⟩ := q
            simp only []
            have hP1 := hc db tname cols hP
            cases hft : find_table (create_table db tname cols).2 tname with
            | none => exact ⟨_, rfl, hP1⟩
            | some i =>
              simp only []
              obtain ⟨x, hx, hPx⟩ := load_rows_total P hi num_rows.toNat _ tname
                num_cols.toNat f2 hP1
              obtain ⟨b, db2, f3⟩ := x
              cases b with
              | false =>
                simp only [hx]
                exact ⟨_, rfl, hPx⟩
              | true =>
                simp only [hx]
                exact ih db2 f3 hPx
      · exact ⟨_, rfl, hP⟩


theorem row_major_create (db : Database) (name : CStr) (cols : List ColumnDef)
    (h : db.row_major_ok) : (create_table db name cols).2.row_major_ok := by
  rcases create_table_shape db name cols with ⟨_, e⟩ | ⟨_, e⟩
  · rw [e]; exact h
  · rw [e]
    refine ⟨h.1, ?_⟩
    intro t ht
    simp only [List.mem_append, List.mem_singleton] at ht
    rcases ht with ht | rfl
    · exact h.2 t ht
    · exact ⟨rfl, by simp [new_table]⟩

theorem row_major_insert (db : Database) (name : CStr) (vals : List (Option CStr))
    (h : db.row_major_ok) : ∃ r, insert_row db name vals = some r ∧ r.2.row_major_ok := by
  obtain ⟨r, hr⟩ := insert_row_total db name vals h.1
  refine ⟨r, hr, ?_⟩
  rcases insert_row_shape db name vals r hr with e | ⟨i, t, t', ht, e, hf⟩
  · rw [e]; exact h
  · rw [e]
    exact ⟨h.1, set_follows_all _ db.tables i t' h.2 (hf.2.2 h.1 (h.2 t (List.getElem?_mem ht)))⟩

theorem row_major_apply_op (db : Database) (op : Op) (h : db.row_major_ok) :
    ∃ db', apply_op db op = some db' ∧ db'.row_major_ok := by
  cases op with
  | create name cols => exact ⟨_, rfl, row_major_create db name cols h⟩
  | drop name =>
    obtain ⟨r, hr⟩ := drop_table_total db name h.2
    refine ⟨r.2, by simp [apply_op, hr], ?_⟩
    rcases drop_table_shape db name r hr with ⟨e, _⟩ | ⟨pre, t, post, hdb, _, _, e⟩
    · rw [e]; exact h
    · rw [e]
      refine ⟨h.1, ?_⟩
      intro x hx
      apply h.2 x
      rw [hdb]
      simp only [List.mem_append, List.mem_cons] at hx ⊢
      rcases hx with hx | hx
      · exact Or.inl hx
      · exact Or.inr (Or.inr hx)
  | insert name vals =>
    obtain ⟨r, hr, hok⟩ := row_major_insert db name vals h
    exact ⟨r.2, by simp [apply_op, hr], hok⟩
  | delete name wc wv =>
    obtain ⟨r, hr⟩ := delete_where_eq_total db name wc wv h.2
    refine ⟨r.db, by simp [apply_op, hr], ?_⟩
    rcases delete_where_eq_shape db name wc wv r hr with e | ⟨i, t, t', ht, e, hf⟩
    · rw [e]; exact h
    · rw [e]
      exact ⟨h.1, set_follows_all _ db.tables i t' h.2
        (hf.2.2 h.1 (h.2 t (List.getElem?_mem ht)))⟩
  | update name sc sv wc wv =>
    obtain ⟨r, hr⟩ := update_where_eq_total db name sc sv wc wv h.2
    refine ⟨r.db, by simp [apply_op, hr], ?_⟩
    rcases update_where_eq_shape db name sc sv wc wv r hr with e | ⟨i, t, t', ht, e, hf⟩
    · rw [e]; exact h
    · rw [e]
      exact ⟨h.1, set_follows_all _ db.tables i t' h.2
        (hf.2.2 h.1 (h.2 t (List.getElem?_mem ht)))⟩
  | load file =>
    cases file with
    | none => exact ⟨db, by simp [apply_op, load_database], h⟩
    | some f =>
      have hfree := releasable_row_major db h.2
      have hempty : (⟨[], db.binary_mode, db.column_store⟩ : Database).row_major_ok :=
        ⟨h.1, by intro t ht; simp at ht⟩
      simp only [apply_op, load_database_eq db f hfree]
      cases hh : header_count f with
      | none => exact ⟨_, rfl, hempty⟩
      | some p =>
        obtain ⟨k, f2⟩ := p
        obtain ⟨r, hr, hok⟩ := load_tables_total Database.row_major_ok
          (fun d name cols hd => row_major_create d name cols hd)
          (fun d name vals hd => row_major_insert d name vals hd) k.toNat _ f2 hempty
        exact ⟨r.db, by simp [hr], hok⟩

/-- C20: under the row-major layout, every sequence of `create_table`,
`drop_table`, `insert_row`, `delete_where_eq`, `update_where_eq` and
`load_database` calls started from the empty database runs without a fault,
and in the database it reaches every table has exactly `num_rows` stored rows
and every stored row has exactly as many cells as the table has columns. -/
theorem reachable_row_major (ops : List Op) (bm : Int) :
    ∃ db, run_ops ⟨[], bm, 0⟩ ops = some db ∧ db.column_store = 0 ∧
      ∀ t ∈ db.tables, t.rows.length = t.num_rows ∧
        ∀ r ∈ t.rows, r.values.length = t.columns.length := by
  have key : ∀ (ops : List Op) (d : Database), d.row_major_ok →
      ∃ db, run_ops d ops = some db ∧ db.row_major_ok := by
    intro ops
    induction ops with
    | nil => intro d hd; exact ⟨d, rfl, hd⟩
    | cons op ops ih =>
      intro d hd
      obtain ⟨d', h1, h2⟩ := row_major_apply_op d op hd
      obtain ⟨db, h3, h4⟩ := ih d' h2
      exact ⟨db, by simp [run_ops, h1, h3], h4⟩
  obtain ⟨db, h1, h2⟩ := key ops ⟨[], bm, 0⟩ ⟨rfl, by intro t ht; simp at ht⟩
  exact ⟨db, h1, h2.1, h2.2⟩


/-! ## After a drop; the column-major blocks -/

theorem absent_apply_op (t : CStr) (db db' : Database) (op : Op) (hop : ¬ op.registers t)
    (hP : t ∉ db.table_names) (h : apply_op db op = some db') : t ∉ db'.table_names := by
  cases op with
  | create name cols =>
    simp [apply_op] at h
    rw [← h]
    rcases create_table_shape db name cols with ⟨_, e⟩ | ⟨_, e⟩
    · rw [e]; exact hP
    · rw [e]
      simp only [Database.table_names, List.map_append, List.map_cons, List.map_nil,
        List.mem_append, List.mem_singleton, not_or]
      exact ⟨hP, fun e' => hop e'.symm⟩
  | drop name =>
    simp only [apply_op, Option.map_eq_some'] at h
    obtain ⟨r, hr, rfl⟩ := h
    exact fun hm => hP ((names_drop db name r hr).subset hm)
  | insert name vals =>
    simp only [apply_op, Option.map_eq_some'] at h
    obtain ⟨r, hr, rfl⟩ := h
    rw [names_insert db name vals r hr]; exact hP
  | delete name wc wv =>
    simp only [apply_op, Option.map_eq_some'] at h
    obtain ⟨r, hr, rfl⟩ := h
    rw [names_delete db name wc wv r hr]; exact hP
  | update name sc sv wc wv =>
    simp only [apply_op, Option.map_eq_some'] at h
    obtain ⟨r, hr, rfl⟩ := h
    rw [names_update db name sc sv wc wv r hr]; exact hP
  | load file => exact absurd trivial hop

theorem absent_after_drop (db db' : Database) (t : CStr) (hP : db.table_names.Nodup)
    (h : drop_table db t = some (1, db')) : t ∉ db'.table_names := by
  rcases drop_table_shape db t (1, db') h with ⟨e, _⟩ | ⟨pre, x, post, hdb, hpre, hx, e⟩
  · simp at e
  · have e2 : db' = { db with tables := pre ++ post } := (Prod.mk.inj e).2
    rw [e2]
    simp only [Database.table_names, hdb, List.map_append, List.map_cons] at hP ⊢
    have hnd := List.nodup_append.1 hP
    have hpost : x.name ∉ post.map (·.name) := (List.nodup_cons.1 hnd.2.1).1
    simp only [List.mem_append, not_or]
    refine ⟨?_, by rw [← hx]; exact hpost⟩
    intro hm
    obtain ⟨u, hu, e3⟩ := List.mem_map.1 hm
    exact hpre u hu e3

theorem find_table_unknown (db : Database) (t : CStr) (h : t ∉ db.table_names) :
    find_table db t = none :=
  find_table_absent db t (fun u hu e => h (List.mem_map.2 ⟨u, hu, e⟩))

/-- C17, as amended: take a database reached from the empty database by
`create_table`, `drop_table`, `insert_row`, `delete_where_eq`,
`update_where_eq` and `load_database` calls in which every name given to
`create_table` has at most 63 characters, and drop the table `t` from it with
success.  After any further such calls none of which is a `load_database` or a
`create_table` whose name, cut to 63 characters, is `t`, each of `insert_row`,
`select_all`, `select_columns`, `delete_where_eq`, `update_where_eq` and
`drop_table` on `t` returns 0 with the table-not-found message and leaves the
database as it is, and so does `select_where_eq` when the column-major layout
is not selected. -/
theorem dropped_table_unknown (ops later : List Op) (bm cs : Int) (db db' db'' : Database)
    (t : CStr) (hshort : ∀ op ∈ ops, op.short_name)
    (hreach : run_ops ⟨[], bm, cs⟩ ops = some db)
    (hdrop : drop_table db t = some (1, db'))
    (hlater : ∀ op ∈ later, ¬ op.registers t)
    (hrun : run_ops db' later = some db'') :
    (∀ vals, insert_row db'' t vals = some (0, db'')) ∧
    select_all db'' t = some ⟨some 0, table_not_found t⟩ ∧
    (∀ cols, select_columns db'' t cols = some ⟨some 0, table_not_found t⟩) ∧
    (db''.column_store ≠ 1 → ∀ cols where_col where_val,
      select_where_eq db'' t cols where_col where_val = some ⟨some 0, table_not_found t⟩) ∧
    (∀ where_col where_val,
      delete_where_eq db'' t where_col where_val = some ⟨0, table_not_found t, db''⟩) ∧
    (∀ set_col set_val where_col where_val,
      update_where_eq db'' t set_col set_val where_col where_val
        = some ⟨0, table_not_found t, db''⟩) ∧
    drop_table db'' t = some (0, db'') := by
  have h1 : db.table_names.Nodup :=
    names_run_ops ops ⟨[], bm, cs⟩ db hshort (by simp [Database.table_names]) hreach
  have h2 : t ∉ db'.table_names := absent_after_drop db db' t h1 hdrop
  have h3 : t ∉ db''.table_names :=
    run_ops_invariant (fun d => t ∉ d.table_names) (fun op => ¬ op.registers t)
      (fun d d' op hop hd hd' => absent_apply_op t d d' op hop hd hd') later db' db'' hlater h2 hrun
  have hf : find_table db'' t = none := find_table_unknown db'' t h3
  refine ⟨?_, ?_, ?_, ?_, ?_, ?_, ?_⟩
  · intro vals; simp [insert_row, hf]
  · simp [select_all, hf]
  · intro cols; simp [select_columns, hf]
  · intro hcs cols wc wv; simp [select_where_eq, hcs, hf]
  · intro wc wv; simp [delete_where_eq, hf]
  · intro sc sv wc wv; simp [update_where_eq, hf]
  · simp [drop_table, hf]

/-- C17, counterexample: a table created under a name of 63 characters and a
second one created under that name with one more character are both stored
under the 63 characters; after `drop_table` on that name has succeeded,
`insert_row` on it succeeds too and `select_all` prints the second table. -/
theorem dropped_table_counterexample :
    run_ops empty_db [.create long_name [⟨"id".toList, .COL_INT⟩],
        .create longer_name [⟨"id".toList, .COL_INT⟩]]
      = some ⟨[⟨long_name, [⟨"id".toList, .COL_INT⟩], 0, [], [⟨"id".toList, .COL_INT, []⟩]⟩,
          ⟨long_name, [⟨"id".toList, .COL_INT⟩], 0, [], [⟨"id".toList, .COL_INT, []⟩]⟩], 0, 0⟩ ∧
    drop_table ⟨[⟨long_name, [⟨"id".toList, .COL_INT⟩], 0, [], [⟨"id".toList, .COL_INT, []⟩]⟩,
          ⟨long_name, [⟨"id".toList, .COL_INT⟩], 0, [], [⟨"id".toList, .COL_INT, []⟩]⟩], 0, 0⟩
        long_name
      = some (1,
          ⟨[⟨long_name, [⟨"id".toList, .COL_INT⟩], 0, [], [⟨"id".toList, .COL_INT, []⟩]⟩], 0, 0⟩) ∧
    insert_row
        ⟨[⟨long_name, [⟨"id".toList, .COL_INT⟩], 0, [], [⟨"id".toList, .COL_INT, []⟩]⟩], 0, 0⟩
        long_name [some "1".toList]
      = some (1, ⟨[⟨long_name, [⟨"id".toList, .COL_INT⟩], 1, [⟨[some "1".toList]⟩],
          [⟨"id".toList, .COL_INT, []⟩]⟩], 0, 0⟩) ∧
    select_all
        ⟨[⟨long_name, [⟨"id".toList, .COL_INT⟩], 0, [], [⟨"id".toList, .COL_INT, []⟩]⟩], 0, 0⟩
        long_name
      = some ⟨some 1, "id\n".toList⟩ := by
  decide

theorem dropped_table_unknown_witness :
    run_ops empty_db [.create "t".toList [⟨"id".toList, .COL_INT⟩],
        .insert "t".toList [some "1".toList], .create "u".toList [⟨"id".toList, .COL_INT⟩]]
      = some ⟨[⟨"t".toList, [⟨"id".toList, .COL_INT⟩], 1, [⟨[some "1".toList]⟩],
          [⟨"id".toList, .COL_INT, []⟩]⟩,
        ⟨"u".toList, [⟨"id".toList, .COL_INT⟩], 0, [], [⟨"id".toList, .COL_INT, []⟩]⟩], 0, 0⟩ ∧
    drop_table ⟨[⟨"t".toList, [⟨"id".toList, .COL_INT⟩], 1, [⟨[some "1".toList]⟩],
          [⟨"id".toList, .COL_INT, []⟩]⟩,
        ⟨"u".toList, [⟨"id".toList, .COL_INT⟩], 0, [], [⟨"id".toList, .COL_INT, []⟩]⟩], 0, 0⟩
        "t".toList
      = some (1, ⟨[⟨"u".toList, [⟨"id".toList, .COL_INT⟩], 0, [],
          [⟨"id".toList, .COL_INT, []⟩]⟩], 0, 0⟩) ∧
    run_ops ⟨[⟨"u".toList, [⟨"id".toList, .COL_INT⟩], 0, [], [⟨"id".toList, .COL_INT, []⟩]⟩], 0, 0⟩
        [.insert "u".toList [some "2".toList], .create "v".toList [⟨"id".toList, .COL_INT⟩],
          .drop "v".toList]
      = some ⟨[⟨"u".toList, [⟨"id".toList, .COL_INT⟩], 1, [⟨[some "2".toList]⟩],
          [⟨"id".toList, .COL_INT, []⟩]⟩], 0, 0⟩ ∧
    select_all ⟨[⟨"u".toList, [⟨"id".toList, .COL_INT⟩], 1, [⟨[some "2".toList]⟩],
          [⟨"id".toList, .COL_INT, []⟩]⟩], 0, 0⟩ "t".toList
      = some ⟨some 0, table_not_found "t".toList⟩ ∧
    drop_table ⟨[⟨"u".toList, [⟨"id".toList, .COL_INT⟩], 1, [⟨[some "2".toList]⟩],
          [⟨"id".toList, .COL_INT, []⟩]⟩], 0, 0⟩ "t".toList
      = some (0, ⟨[⟨"u".toList, [⟨"id".toList, .COL_INT⟩], 1, [⟨[some "2".toList]⟩],
          [⟨"id".toList, .COL_INT, []⟩]⟩], 0, 0⟩) :=
  have h := dropped_table_unknown
    [.create "t".toList [⟨"id".toList, .COL_INT⟩],
      .insert "t".toList [some "1".toList], .create "u".toList [⟨"id".toList, .COL_INT⟩]]
    [.insert "u".toList [some "2".toList], .create "v".toList [⟨"id".toList, .COL_INT⟩],
      .drop "v".toList] 0 0
    ⟨[⟨"t".toList, [⟨"id".toList, .COL_INT⟩], 1, [⟨[some "1".toList]⟩],
        [⟨"id".toList, .COL_INT, []⟩]⟩,
      ⟨"u".toList, [⟨"id".toList, .COL_INT⟩], 0, [], [⟨"id".toList, .COL_INT, []⟩]⟩], 0, 0⟩
    ⟨[⟨"u".toList, [⟨"id".toList, .COL_INT⟩], 0, [], [⟨"id".toList, .COL_INT, []⟩]⟩], 0, 0⟩
    ⟨[⟨"u".toList, [⟨"id".toList, .COL_INT⟩], 1, [⟨[some "2".toList]⟩],
      [⟨"id".toList, .COL_INT, []⟩]⟩], 0, 0⟩ "t".toList
    (by decide) (by decide) (by decide) (by decide) (by decide)
  ⟨by decide, by decide, by decide, h.2.1, h.2.2.2.2.2.2⟩

/-- C15: under the column-major layout `select_where_eq` on a table that does
not exist leaves through `return;`, with no message and no defined return
value, and `select_columns` with a column that does not exist has printed the
header line of the requested names before it reports the unknown column, and
leaves through `return;` as well. -/
theorem select_column_major_failure :
    select_where_eq column_major_db "nope".toList ["id".toList] "id".toList "1".toList
      = some ⟨none, []⟩ ∧
    select_columns column_major_db "t".toList ["id".toList, "nope".toList]
      = some ⟨none, "id\tnope\t\nUnknown column: nope\n".toList⟩ := by
  decide

/-- C16: the database left by `create_table` and one `insert_row` under the
column-major layout holds the table `t`, and `drop_table` on `t` runs into a
fault: `free_table` reads `rows[0]` of a table whose `rows` was never
allocated. -/
theorem drop_table_column_major_fault :
    run_ops ⟨[], 0, 1⟩ [.create "t".toList [⟨"id".toList, .COL_INT⟩],
        .insert "t".toList [some "1".toList]] = some column_major_db ∧
    find_table column_major_db "t".toList = some 0 ∧
    drop_table column_major_db "t".toList = none := by
  decide

theorem reachable_table_names_distinct_witness :
    run_ops empty_db [.create "t".toList [⟨"id".toList, .COL_INT⟩],
        .create "u".toList [⟨"id".toList, .COL_INT⟩],
        .create "t".toList [⟨"id".toList, .COL_INT⟩], .insert "t".toList [some "1".toList]]
      = some ⟨[⟨"t".toList, [⟨"id".toList, .COL_INT⟩], 1, [⟨[some "1".toList]⟩],
          [⟨"id".toList, .COL_INT, []⟩]⟩,
        ⟨"u".toList, [⟨"id".toList, .COL_INT⟩], 0, [], [⟨"id".toList, .COL_INT, []⟩]⟩], 0, 0⟩ ∧
    (["t".toList, "u".toList] : List CStr).Nodup :=
  ⟨by decide, reachable_table_names_distinct
    [.create "t".toList [⟨"id".toList, .COL_INT⟩],
      .create "u".toList [⟨"id".toList, .COL_INT⟩],
      .create "t".toList [⟨"id".toList, .COL_INT⟩], .insert "t".toList [some "1".toList]] 0 0
    ⟨[⟨"t".toList, [⟨"id".toList, .COL_INT⟩], 1, [⟨[some "1".toList]⟩],
        [⟨"id".toList, .COL_INT, []⟩]⟩,
      ⟨"u".toList, [⟨"id".toList, .COL_INT⟩], 0, [], [⟨"id".toList, .COL_INT, []⟩]⟩], 0, 0⟩
    (by decide) (by decide)⟩

theorem type_keyword_eq (ty : ColumnType) : column_type_to_string ty = type_keyword ty := by
  cases ty <;> rfl

theorem table_text_lines (t : Table) :
    table_text t = ((text_table_lines t).map fun l => l ++ ['\n']).flatten := by
  simp [table_text, text_table_lines, table_line, column_line, row_line, cell_text,
    type_keyword_eq, List.map_append, Function.comp_def]

theorem database_text_lines (db : Database) :
    database_text db = ((text_lines db).map fun l => l ++ ['\n']).flatten := by
  simp only [database_text, text_lines, List.map_cons, List.flatten_cons, List.map_flatten,
    List.map_map]
  have : (db.tables.map table_text).flatten
      = (List.map (List.map (fun l => l ++ ['\n']) ∘ text_table_lines) db.tables).flatten.flatten := by
    induction db.tables with
    | nil => rfl
    | cons t ts ih =>
      simp only [List.map_cons, List.flatten_cons, List.flatten_append, ih, table_text_lines,
        Function.comp]
  rw [this]
  simp

/-- C21: for a database in text mode whose tables are all held row-major,
`save_database` on a file it could open returns 1 and writes exactly the lines
`MINIQLITE 1`, `TABLE_COUNT n`, and for each table in registry order its
`TABLE name num_columns num_rows` line, one `COLUMN name TYPE` line per column
and one `ROW` line per row with a tab in front of every cell, each line
followed by one newline, and nothing else. -/
theorem save_database_text_format (db : Database) (hfmt : db.binary_mode = 0)
    (hok : ∀ t ∈ db.tables, t.row_major_ok) :
    save_database db true
      = some ⟨1, some ((text_lines db).map fun l => l ++ ['\n']).flatten⟩ := by
  rw [save_database_text_eq db hfmt (fun t ht => (hok t ht).1) (fun t ht => (hok t ht).2),
    database_text_lines]

theorem save_database_text_format_witness :
    sample_db.binary_mode = 0 ∧ (∀ t ∈ sample_db.tables, t.row_major_ok) ∧
    save_database sample_db true = some ⟨1, some
      "MINIQLITE 1\nTABLE_COUNT 1\nTABLE t 2 1\nCOLUMN id INT\nCOLUMN name TEXT\nROW\t1\ta\n".toList⟩ :=
  ⟨by decide, by decide, save_database_text_format sample_db (by decide) (by decide)⟩

theorem int_bytes_length (v : Int) : (int_bytes v).length = 4 := rfl

theorem char_byte (k : Nat) (h : k < 256) : (Char.ofNat k).toNat = k := by
  interval_cases k <;> rfl

theorem four_bytes_length (n : Nat) : (four_bytes n).length = 4 := rfl

theorem four_bytes_value (n : Nat) (h : n < 2 ^ 32) : le_value (four_bytes n) = n := by
  simp only [four_bytes, le_bytes, le_value]
  rw [char_byte _ (Nat.mod_lt _ (by norm_num)), char_byte _ (Nat.mod_lt _ (by norm_num)),
    char_byte _ (Nat.mod_lt _ (by norm_num)), char_byte _ (Nat.mod_lt _ (by norm_num))]
  omega

theorem int_bytes_nat (n : Nat) : int_bytes (n : Int) = four_bytes n := by
  have e : (((n : Int) % 2 ^ 32).toNat) = n % 2 ^ 32 := by omega
  simp only [int_bytes, four_bytes, le_bytes, e]
  have e1 : n % 2 ^ 32 % 256 = n % 256 := by omega
  have e2 : n % 2 ^ 32 / 256 % 256 = n / 256 % 256 := by omega
  have e3 : n % 2 ^ 32 / 65536 % 256 = n / 256 / 256 % 256 := by omega
  have e4 : n % 2 ^ 32 / 16777216 % 256 = n / 256 / 256 / 256 % 256 := by omega
  rw [e1, e2, e3, e4]

theorem name_block_padded (name : CStr) (h : name.length ≤ 63) :
    name_block name = padded_name name := by
  have e : strncpy name 63 = name := List.take_of_length_le h
  simp [name_block, padded_name, e, MAX_NAME_LEN]

theorem padded_name_length (name : CStr) (h : name.length ≤ 63) :
    (padded_name name).length = 64 := by
  simp [padded_name]; omega

theorem int_cast_small (n : Nat) (h : n < 2 ^ 31) : int_cast n = (n : Int) := by
  unfold int_cast
  omega

theorem cell_bytes_small (v : Option CStr) (h : (cell_text v).length < 2 ^ 31) :
    cell_bytes v = four_bytes (cell_text v).length ++ cell_text v := by
  rw [← int_bytes_nat]
  unfold cell_text at h ⊢
  unfold cell_bytes
  rw [int_cast_small _ h]
  by_cases h0 : (v.getD []).length = 0
  · have : v.getD [] = [] := List.length_eq_zero.1 h0
    simp [this]
  · have hpos : ((v.getD []).length : Int) > 0 := by omega
    simp [hpos]

/-- A cell of exactly 2^31 bytes: the length `(int)strlen(val)` is negative,
its four bytes are `00 00 00 80` and no byte of the cell is written. -/
theorem cell_bytes_huge (v : Option CStr) (h : (v.getD []).length = 2 ^ 31) :
    cell_bytes v = [Char.ofNat 0, Char.ofNat 0, Char.ofNat 0, Char.ofNat 128] := by
  have e : int_cast (2 ^ 31) = -(2 ^ 31) := by decide
  have e2 : ¬ (-(2 ^ 31) : Int) > 0 := by decide
  have e3 : int_bytes (-(2 ^ 31)) = [Char.ofNat 0, Char.ofNat 0, Char.ofNat 0, Char.ofNat 128] := by
    decide
  unfold cell_bytes
  rw [h, e, if_neg e2, e3]
  rfl

theorem type_tag_eq (ty : ColumnType) : ty.toInt = (type_tag ty : Int) := by
  cases ty <;> rfl

theorem save_table_binary_eq (t : Table) (hok : t.row_major_ok)
    (hname : t.name.length ≤ 63) (hcols : ∀ c ∈ t.columns, c.name.length ≤ 63)
    (hcells : ∀ r ∈ t.rows, ∀ v ∈ r.values, (cell_text v).length < 2 ^ 31) :
    save_table_binary t = some (binary_table_bytes t) := by
  have h1 : read_slots t.rows t.num_rows = some t.rows := by
    rw [← hok.1]; exact read_slots_self _
  have h2 : for_each (fun r : Row => do
      let vals ← read_slots r.values t.num_columns
      pure (vals.map cell_bytes).flatten) t.rows
      = some (t.rows.map fun r =>
          (r.values.map fun v => four_bytes (cell_text v).length ++ cell_text v).flatten) := by
    apply for_each_eq_map
    intro r hr
    have : read_slots r.values t.num_columns = some r.values := by
      rw [Table.num_columns, ← hok.2 r hr]; exact read_slots_self _
    have e : r.values.map cell_bytes
        = r.values.map fun v => four_bytes (cell_text v).length ++ cell_text v :=
      List.map_congr_left (fun v hv => cell_bytes_small v (hcells r hr v hv))
    rw [this]
    simp only [Option.bind_eq_bind, Option.some_bind, Option.pure_def, e]
  have h3 : (t.columns.map fun c => name_block c.name ++ int_bytes c.type.toInt)
      = t.columns.map fun c => padded_name c.name ++ four_bytes (type_tag c.type) := by
    apply List.map_congr_left
    intro c hc
    rw [name_block_padded c.name (hcols c hc), type_tag_eq, int_bytes_nat]
  unfold save_table_binary
  simp only [Option.bind_eq_bind, Option.pure_def] at h2 ⊢
  rw [h1, Option.some_bind, h2, Option.some_bind, h3, name_block_padded t.name hname,
    Table.num_columns, int_bytes_nat, int_bytes_nat]
  rfl

theorem sum_cell_lengths (vs : List (Option CStr)) :
    ((vs.map fun v => four_bytes (cell_text v).length ++ cell_text v).flatten).length
      = (vs.map fun v => 4 + (cell_text v).length).sum := by
  induction vs with
  | nil => rfl
  | cons v vs ih =>
    simp only [List.map_cons, List.flatten_cons, List.length_append, List.sum_cons, ih,
      four_bytes_length]

theorem binary_table_bytes_length (t : Table) (hname : t.name.length ≤ 63)
    (hcols : ∀ c ∈ t.columns, c.name.length ≤ 63) :
    (binary_table_bytes t).length = 64 + 4 + 68 * t.columns.length + 4 + cells_size t := by
  have hc : ∀ cs : List ColumnDef, (∀ c ∈ cs, c.name.length ≤ 63) →
      ((cs.map fun c => padded_name c.name ++ four_bytes (type_tag c.type)).flatten).length
        = 68 * cs.length := by
    intro cs
    induction cs with
    | nil => intro _; rfl
    | cons c cs ih =>
      intro h
      simp only [List.map_cons, List.flatten_cons, List.length_append, List.length_cons,
        ih (fun x hx => h x (by simp [hx])), padded_name_length c.name (h c (by simp)),
        four_bytes_length]
      omega
  have hr : ∀ rs : List Row,
      ((rs.map fun r =>
        (r.values.map fun v => four_bytes (cell_text v).length ++ cell_text v).flatten).flatten).length
        = (rs.map fun r => (r.values.map fun v => 4 + (cell_text v).length).sum).sum := by
    intro rs
    induction rs with
    | nil => rfl
    | cons r rs ih =>
      simp only [List.map_cons, List.flatten_cons, List.length_append, List.sum_cons, ih,
        sum_cell_lengths]
  simp only [binary_table_bytes, List.length_append, padded_name_length t.name hname,
    four_bytes_length, hc t.columns hcols, hr t.rows, cells_size]

theorem save_table_binary_huge (cell : CStr) (h : cell.length = 2 ^ 31) :
    save_table_binary (one_cell_table cell) =
      some ('t' :: List.replicate 63 (Char.ofNat 0) ++
        [Char.ofNat 1, Char.ofNat 0, Char.ofNat 0, Char.ofNat 0] ++
        ('c' :: List.replicate 63 (Char.ofNat 0)) ++
        [Char.ofNat 1, Char.ofNat 0, Char.ofNat 0, Char.ofNat 0] ++
        [Char.ofNat 1, Char.ofNat 0, Char.ofNat 0, Char.ofNat 0] ++
        [Char.ofNat 0, Char.ofNat 0, Char.ofNat 0, Char.ofNat 128]) := by
  have hc : cell_bytes (some cell) = [Char.ofNat 0, Char.ofNat 0, Char.ofNat 0, Char.ofNat 128] :=
    cell_bytes_huge (some cell) h
  have h1 : read_slots (one_cell_table cell).rows (one_cell_table cell).num_rows
      = some [⟨[some cell]⟩] := rfl
  have h2 : read_slots [some cell] ([(⟨"c".toList, .COL_TEXT⟩ : ColumnDef)].length)
      = some [some cell] := rfl
  unfold save_table_binary
  rw [h1]
  simp only [Option.bind_eq_bind, Option.some_bind, Option.pure_def, for_each, List.map_cons,
    List.map_nil, Option.map_some', one_cell_table, Table.num_columns, h2, hc]
  decide

/-- C22, as amended: for a table held in the row-major representation, whose
names fit their 64-byte fields and whose cells are each shorter than 2^31
bytes, `save_table_binary` writes exactly the 64-byte name block, the column
count in 4 bytes, per column a 64-byte name block and a 4-byte type tag
(0, 1, 2 for Int, Text, Float), the row count in 4 bytes, and per cell, in row
order and column order, its length in 4 bytes followed by its bytes; in all
64 + 4 + 68 * num_columns + 4 + the sum over the cells of 4 + length bytes.
The 4-byte integers hold their number least significant byte first. -/
theorem save_table_binary_format (t : Table) (hok : t.row_major_ok)
    (hname : t.name.length ≤ 63) (hcols : ∀ c ∈ t.columns, c.name.length ≤ 63)
    (hcells : ∀ r ∈ t.rows, ∀ v ∈ r.values, (cell_text v).length < 2 ^ 31) :
    save_table_binary t = some (binary_table_bytes t) ∧
    (binary_table_bytes t).length = 64 + 4 + 68 * t.columns.length + 4 + cells_size t ∧
    (padded_name t.name).length = 64 ∧
    (∀ n : Nat, n < 2 ^ 32 → (four_bytes n).length = 4 ∧ le_value (four_bytes n) = n) :=
  ⟨save_table_binary_eq t hok hname hcols hcells, binary_table_bytes_length t hname hcols,
    padded_name_length t.name hname, fun n hn => ⟨four_bytes_length n, four_bytes_value n hn⟩⟩

set_option maxRecDepth 100000 in
/-- The 154 bytes written for `sample_table`, byte by byte. -/
theorem save_table_binary_format_witness :
    sample_table.row_major_ok ∧
    binary_table_bytes sample_table = sample_table_bytes ∧
    save_table_binary sample_table = some sample_table_bytes ∧
    sample_table_bytes.length = 64 + 4 + 68 * 2 + 4 + (5 + 5) ∧
    save_table_binary sample_table = some (binary_table_bytes sample_table) ∧
    (binary_table_bytes sample_table).length = 64 + 4 + 68 * 2 + 4 + (5 + 5) :=
  ⟨by decide, by decide, by decide, by decide,
    (save_table_binary_format sample_table (by decide) (by decide) (by decide) (by decide)).1,
    (save_table_binary_format sample_table (by decide) (by decide) (by decide) (by decide)).2.1⟩

theorem one_cell_row_major (cell : CStr) : (one_cell_table cell).row_major_ok :=
  ⟨rfl, fun r hr => by
    have e : r = ⟨[some cell]⟩ := by simpa [one_cell_table] using hr
    rw [e]; rfl⟩

theorem one_cell_size (cell : CStr) : cells_size (one_cell_table cell) = 4 + cell.length := by
  simp [cells_size, one_cell_table, cell_text]

/-- C22, counterexample: for a table held row-major whose only cell has 2^31
bytes, `save_table_binary` writes the length bytes `00 00 00 80` and not one
byte of the cell, 144 bytes in all where the claim counts 144 + 2^31; and for
the table left by `create_table` and one `insert_row` under the column-major
layout it writes the row count 1 and then reads `rows[0]` of a table whose
`rows` was never allocated: it runs into a fault and writes no cell. -/
theorem save_table_binary_counterexample :
    (one_cell_table (List.replicate (2 ^ 31) 'x')).row_major_ok ∧
    save_table_binary (one_cell_table (List.replicate (2 ^ 31) 'x')) =
      some ('t' :: List.replicate 63 (Char.ofNat 0) ++
        [Char.ofNat 1, Char.ofNat 0, Char.ofNat 0, Char.ofNat 0] ++
        ('c' :: List.replicate 63 (Char.ofNat 0)) ++
        [Char.ofNat 1, Char.ofNat 0, Char.ofNat 0, Char.ofNat 0] ++
        [Char.ofNat 1, Char.ofNat 0, Char.ofNat 0, Char.ofNat 0] ++
        [Char.ofNat 0, Char.ofNat 0, Char.ofNat 0, Char.ofNat 128]) ∧
    cells_size (one_cell_table (List.replicate (2 ^ 31) 'x')) = 4 + 2 ^ 31 ∧
    run_ops ⟨[], 1, 1⟩ [.create "t".toList [⟨"id".toList, .COL_INT⟩],
        .insert "t".toList [some "1".toList]] = some ⟨[column_major_table], 1, 1⟩ ∧
    save_table_binary column_major_table = none :=
  ⟨one_cell_row_major _, save_table_binary_huge _ (List.length_replicate _ _),
    (one_cell_size _).trans (congrArg (4 + ·) (List.length_replicate _ _)), by decide, by decide⟩

theorem tolower_eq (c : Char) : tolower c = c.toLower := by
  unfold tolower Char.toLower
  have h1 : ('A' ≤ c) ↔ c.toNat ≥ 65 := by
    rw [Char.le_def]
    exact Iff.rfl
  have h2 : (c ≤ 'Z') ↔ c.toNat ≤ 90 := by
    rw [Char.le_def]
    exact Iff.rfl
  simp only [h1, h2]

theorem strcasecmp_eq_iff (a b : CStr) : strcasecmp_eq a b = true ↔ same_ignoring_case a b := by
  have e : tolower = Char.toLower := funext tolower_eq
  simp [strcasecmp_eq, same_ignoring_case, e]

theorem keyword_cases (b1 b2 b3 b4 b5 : Bool) (P1 P2 P3 P4 P5 : Prop)
    (e1 : b1 = true ↔ P1) (e2 : b2 = true ↔ P2) (e3 : b3 = true ↔ P3) (e4 : b4 = true ↔ P4)
    (e5 : b5 = true ↔ P5) (d34 : P3 → ¬ P4) (d35 : P3 → ¬ P5) (d13 : P1 → ¬ P3)
    (d23 : P2 → ¬ P3) (d14 : P1 → ¬ P4) (d15 : P1 → ¬ P5) (d24 : P2 → ¬ P4) (d25 : P2 → ¬ P5) :
    ((if b1 || b2 then ColumnType.COL_INT else if b3 then .COL_TEXT
        else if b4 || b5 then .COL_FLOAT else .COL_TEXT) = .COL_INT ↔ P1 ∨ P2) ∧
    ((if b1 || b2 then ColumnType.COL_INT else if b3 then .COL_TEXT
        else if b4 || b5 then .COL_FLOAT else .COL_TEXT) = .COL_FLOAT ↔ P4 ∨ P5) ∧
    ((if b1 || b2 then ColumnType.COL_INT else if b3 then .COL_TEXT
        else if b4 || b5 then .COL_FLOAT else .COL_TEXT) = .COL_TEXT ↔
      ¬ (P1 ∨ P2 ∨ P4 ∨ P5)) ∧
    (P3 → (if b1 || b2 then ColumnType.COL_INT else if b3 then .COL_TEXT
        else if b4 || b5 then .COL_FLOAT else .COL_TEXT) = .COL_TEXT) := by
  cases b1 <;> cases b2 <;> cases b3 <;> cases b4 <;> cases b5 <;> simp_all

theorem keywords_differ (s k1 k2 : CStr) (hne : k1.map Char.toLower ≠ k2.map Char.toLower)
    (h1 : same_ignoring_case s k1) : ¬ same_ignoring_case s k2 :=
  fun h2 => hne (h1.symm.trans h2)

/-- C23: `parse_column_type` yields Int exactly for the strings equal to `INT`
or `INTEGER` ignoring letter case, Float exactly for those equal to `FLOAT` or
`REAL` ignoring letter case, and Text for every other string, among them
`TEXT` in any letter case, the empty string and `INTS`. -/
theorem parse_column_type_keywords (s : CStr) :
    (parse_column_type (some s) = .COL_INT ↔
      same_ignoring_case s "INT".toList ∨ same_ignoring_case s "INTEGER".toList) ∧
    (parse_column_type (some s) = .COL_FLOAT ↔
      same_ignoring_case s "FLOAT".toList ∨ same_ignoring_case s "REAL".toList) ∧
    (parse_column_type (some s) = .COL_TEXT ↔
      ¬ (same_ignoring_case s "INT".toList ∨ same_ignoring_case s "INTEGER".toList ∨
        same_ignoring_case s "FLOAT".toList ∨ same_ignoring_case s "REAL".toList)) ∧
    (same_ignoring_case s "TEXT".toList → parse_column_type (some s) = .COL_TEXT) ∧
    parse_column_type (some []) = .COL_TEXT ∧
    parse_column_type (some "INTS".toList) = .COL_TEXT ∧
    parse_column_type (some "integer".toList) = .COL_INT ∧
    parse_column_type (some "Real".toList) = .COL_FLOAT := by
  have h := keyword_cases _ _ _ _ _ _ _ _ _ _
    (strcasecmp_eq_iff s "INT".toList) (strcasecmp_eq_iff s "INTEGER".toList)
    (strcasecmp_eq_iff s "TEXT".toList) (strcasecmp_eq_iff s "FLOAT".toList)
    (strcasecmp_eq_iff s "REAL".toList)
    (keywords_differ s "TEXT".toList "FLOAT".toList (by decide))
    (keywords_differ s "TEXT".toList "REAL".toList (by decide))
    (keywords_differ s "INT".toList "TEXT".toList (by decide))
    (keywords_differ s "INTEGER".toList "TEXT".toList (by decide))
    (keywords_differ s "INT".toList "FLOAT".toList (by decide))
    (keywords_differ s "INT".toList "REAL".toList (by decide))
    (keywords_differ s "INTEGER".toList "FLOAT".toList (by decide))
    (keywords_differ s "INTEGER".toList "REAL".toList (by decide))
  exact ⟨h.1, h.2.1, h.2.2.1, h.2.2.2, by decide, by decide, by decide, by decide⟩

/-- C29: after the same `create_table` and `insert_row` under the two
layouts, `select_where_eq` prints the matching row under the row-major layout
and runs into a fault under the column-major one (its column-major block
initialises `int where_col` from itself), while `select_all` shows the same
row under both. -/
theorem select_where_eq_column_major_fault :
    run_ops ⟨[], 0, 1⟩ [.create "t".toList [⟨"id".toList, .COL_INT⟩],
        .insert "t".toList [some "1".toList]] = some column_major_db ∧
    run_ops ⟨[], 0, 0⟩ [.create "t".toList [⟨"id".toList, .COL_INT⟩],
        .insert "t".toList [some "1".toList]]
      = some ⟨[⟨"t".toList, [⟨"id".toList, .COL_INT⟩], 1, [⟨[some "1".toList]⟩],
          [⟨"id".toList, .COL_INT, []⟩]⟩], 0, 0⟩ ∧
    select_where_eq column_major_db "t".toList ["id".toList] "id".toList "1".toList = none ∧
    select_where_eq ⟨[⟨"t".toList, [⟨"id".toList, .COL_INT⟩], 1, [⟨[some "1".toList]⟩],
          [⟨"id".toList, .COL_INT, []⟩]⟩], 0, 0⟩ "t".toList ["id".toList] "id".toList "1".toList
      = some ⟨some 1, "id\n1\n".toList⟩ ∧
    select_all column_major_db "t".toList = some ⟨none, "1\t\n".toList⟩ ∧
    select_all ⟨[⟨"t".toList, [⟨"id".toList, .COL_INT⟩], 1, [⟨[some "1".toList]⟩],
          [⟨"id".toList, .COL_INT, []⟩]⟩], 0, 0⟩ "t".toList
      = some ⟨some 1, "id\n1\n".toList⟩ := by
  decide

/-- C30: on the database left by `create_table` and one `insert_row` under the
column-major layout, `delete_where_eq` finds the table and the column and then
reads `rows[0]` of a table whose `rows` was never allocated: it runs into a
fault, whether the cell matches or not. -/
theorem delete_where_eq_column_major_fault :
    run_ops ⟨[], 0, 1⟩ [.create "t".toList [⟨"id".toList, .COL_INT⟩],
        .insert "t".toList [some "1".toList]] = some column_major_db ∧
    delete_where_eq column_major_db "t".toList "id".toList "1".toList = none ∧
    delete_where_eq column_major_db "t".toList "id".toList "2".toList = none := by
  decide

/-! ## The command interpreter: strings -/

theorem dropWhile_append_stop {α : Type} (p : α → Bool) (l : List α) (c : α) (rest : List α)
    (hc : p c = false) : (l ++ c :: rest).dropWhile p = l.dropWhile p ++ c :: rest := by
  induction l with
  | nil => simp [List.dropWhile, hc]
  | cons x l ih =>
    by_cases hx : p x = true
    · simp [List.dropWhile, hx, ih]
    · simp [List.dropWhile, hx]

theorem dropWhile_all {α : Type} (p : α → Bool) (l : List α) (h : ∀ x ∈ l, p x = true) :
    l.dropWhile p = [] := by
  induction l with
  | nil => rfl
  | cons x l ih =>
    simp [List.dropWhile, h x (by simp), ih (fun y hy => h y (by simp [hy]))]

theorem rtrim_cons (c : Char) (rest : CStr) (hc : isspace c = false) :
    rtrim (c :: rest) = c :: rtrim rest := by
  unfold rtrim
  rw [List.reverse_cons, dropWhile_append_stop isspace rest.reverse c [] hc]
  simp

theorem rtrim_append_blank (s sp : CStr) (h : blank sp) : rtrim (s ++ sp) = rtrim s := by
  unfold rtrim
  rw [List.reverse_append]
  have : ∀ (a b : CStr), (∀ c ∈ a, isspace c = true) → (a ++ b).dropWhile isspace = b.dropWhile isspace := by
    intro a b ha
    induction a with
    | nil => rfl
    | cons x a ih =>
      simp [List.dropWhile, ha x (by simp), ih (fun y hy => ha y (by simp [hy]))]
  rw [this sp.reverse s.reverse (fun c hc => h c (List.mem_reverse.1 hc))]

theorem rtrim_word (w : CStr) (h : ∀ c ∈ w, isspace c = false) : rtrim w = w := by
  induction w with
  | nil => rfl
  | cons c w ih => rw [rtrim_cons c w (h c (by simp)), ih (fun y hy => h y (by simp [hy]))]

theorem trim_eq_strip (s : CStr) : trim s = strip s := by
  unfold trim strip
  cases h : s.dropWhile isspace with
  | nil => rfl
  | cons c rest =>
    have hc : isspace c = false := by
      have := List.head_dropWhile_not isspace s (by rw [h]; simp)
      simpa [h] using this
    simp only []
    rw [rtrim_cons c rest hc]

theorem dropWhile_blank_append (sp s : CStr) (h : blank sp) :
    (sp ++ s).dropWhile isspace = s.dropWhile isspace := by
  induction sp with
  | nil => rfl
  | cons x a ih =>
    simp [List.dropWhile, h x (by simp), ih (fun y hy => h y (by simp [hy]))]

theorem trim_word (sp1 w sp2 : CStr) (h1 : blank sp1) (h2 : blank sp2)
    (hw : ∀ c ∈ w, isspace c = false) : trim (sp1 ++ w ++ sp2) = w := by
  rw [trim_eq_strip, strip, List.append_assoc, dropWhile_blank_append sp1 _ h1]
  cases w with
  | nil =>
    simp only [List.nil_append]
    rw [dropWhile_all isspace sp2 h2]
    rfl
  | cons c w =>
    rw [List.cons_append, List.dropWhile_cons_of_neg (by simp [hw c (by simp)]),
      ← List.cons_append, rtrim_append_blank _ sp2 h2, rtrim_word _ hw]

theorem strchr_absent (s : CStr) (c : Char) (h : c ∉ s) : strchr s c = none := by
  have : s.dropWhile (· != c) = [] := by
    apply dropWhile_all
    intro x hx
    have : x ≠ c := fun e => h (e ▸ hx)
    simp [this]
  simp [strchr, this]

theorem takeWhile_split (l r : CStr) (c : Char) (h : c ∉ l) :
    (l ++ c :: r).takeWhile (· != c) = l ∧ (l ++ c :: r).dropWhile (· != c) = c :: r := by
  induction l with
  | nil => simp [List.takeWhile, List.dropWhile]
  | cons x l ih =>
    have hx : x ≠ c := fun e => h (by simp [e])
    have := ih (fun hm => h (by simp [hm]))
    have hb : (x != c) = true := by simp [hx]
    simp [List.takeWhile, List.dropWhile, hb, this.1, this.2]

/-- C27, as amended: `parse_condition_eq` fails exactly when the text holds no
`=` or the text before the first `=` is empty once stripped of white space;
otherwise the column is the stripped text before the first `=`, cut to the
buffer size less one (63 characters in every caller), and the value is the
stripped text after the first `=`, or, when that begins with a double quote,
what stands between that quote and the next double quote (all that follows
the quote when there is none), cut to the buffer size less one (255). -/
theorem parse_condition_eq_spec (s : CStr) (col_buf_sz val_buf_sz : Nat) :
    ('=' ∉ s → parse_condition_eq s col_buf_sz val_buf_sz = none) ∧
    (∀ l r, s = l ++ '=' :: r → '=' ∉ l →
      (strip l = [] → parse_condition_eq s col_buf_sz val_buf_sz = none) ∧
      (strip l ≠ [] → parse_condition_eq s col_buf_sz val_buf_sz =
        some ((strip l).take (col_buf_sz - 1), (unquote (strip r)).take (val_buf_sz - 1)))) := by
  constructor
  · intro h
    simp [parse_condition_eq, strchr_absent s '=' h]
  · intro l r hs hl
    obtain ⟨h1, h2⟩ := takeWhile_split l r '=' hl
    have hc : strchr s '=' = some ('=' :: r) := by
      simp [strchr, hs, h2]
    constructor
    · intro he
      simp only [parse_condition_eq, hc]
      rw [hs, h1, trim_eq_strip, he]
      rfl
    · intro hne
      simp only [parse_condition_eq, hc]
      rw [hs, h1, trim_eq_strip, trim_eq_strip]
      have : (strip l).length ≠ 0 := fun e => hne (List.length_eq_zero.1 e)
      rw [if_neg this]
      simp only [List.drop_one, List.tail_cons, strncpy]
      congr 2

/-- C27, counterexample: a column name of 64 characters comes back cut to 63,
and of the value `"x"y` only `x` comes back. -/
theorem parse_condition_eq_counterexample :
    parse_condition_eq (List.replicate 64 'a' ++ "=1".toList) 64 256
      = some (List.replicate 63 'a', "1".toList) ∧
    parse_condition_eq "c = \"x\"y".toList 64 256 = some ("c".toList, "x".toList) := by
  decide

/-! ## The command interpreter: dispatch -/

theorem strncmp_eq_keyword (line kw : CStr) :
    strncmp_eq line kw kw.length = true ↔ kw <+: line := by
  simp only [strncmp_eq, List.take_length, beq_iff_eq]
  rw [List.prefix_iff_eq_take]
  exact eq_comm

theorem dispatch_none (db : Database) (line : CStr) (cs : List Command)
    (h : ∀ e ∈ cs, ¬ e.keyword <+: line) : dispatch db line cs = some ⟨.unrecognized, db⟩ := by
  induction cs with
  | nil => rfl
  | cons c cs ih =>
    have hc : strncmp_eq line c.keyword c.keyword.length = false := by
      rw [Bool.eq_false_iff]
      intro e
      exact h c (by simp) ((strncmp_eq_keyword line c.keyword).1 e)
    simp only [dispatch, hc]
    exact ih (fun e he => h e (by simp [he]))

theorem dispatch_first (db : Database) (line : CStr) (pre post : List Command) (e : Command)
    (he : e.keyword <+: line) (hpre : ∀ x ∈ pre, ¬ x.keyword <+: line) :
    dispatch db line (pre ++ e :: post) = e.fn db line := by
  induction pre with
  | nil =>
    simp [dispatch, (strncmp_eq_keyword line e.keyword).2 he]
  | cons c cs ih =>
    have hc : strncmp_eq line c.keyword c.keyword.length = false := by
      rw [Bool.eq_false_iff]
      intro e'
      exact hpre c (by simp) ((strncmp_eq_keyword line c.keyword).1 e')
    simp only [List.cons_append, dispatch, hc]
    exact ih (fun x hx => hpre x (by simp [hx]))

/-- C24: for a line that, once trimmed, is not empty and does not begin with
a dot: when none of the six keywords of `command_table` is a prefix of it,
`execute_command` returns 0, calls no handler and leaves the database
unchanged; and when some keyword is a prefix of it, the handler that runs is
that of the first such keyword in the order of the table, on the trimmed
line, and 0 is returned. -/
theorem execute_command_dispatch (handle_meta : Database → CStr → Option (Int × Database))
    (db : Database) (input : CStr) (c : Char) (rest : CStr)
    (hline : trim input = c :: rest) (hdot : c ≠ '.') :
    command_table.map (·.keyword) = ["CREATE TABLE".toList, "INSERT INTO".toList,
      "SELECT".toList, "UPDATE".toList, "DELETE FROM".toList, "DROP TABLE".toList] ∧
    ((∀ e ∈ command_table, ¬ e.keyword <+: c :: rest) →
      execute_command handle_meta db input = some ⟨0, .unrecognized, db⟩) ∧
    (∀ pre e post, command_table = pre ++ e :: post → e.keyword <+: c :: rest →
      (∀ x ∈ pre, ¬ x.keyword <+: c :: rest) →
      execute_command handle_meta db input
        = (e.fn db (c :: rest)).map fun r => ⟨0, r.did, r.db⟩) := by
  refine ⟨rfl, ?_, ?_⟩
  · intro h
    simp only [execute_command, hline, if_neg hdot, dispatch_none db (c :: rest) command_table h]
    rfl
  · intro pre e post htable he hpre
    simp only [execute_command, hline, if_neg hdot]
    rw [htable, dispatch_first db (c :: rest) pre post e he hpre]

theorem execute_command_dispatch_witness :
    execute_command no_meta sample_db "  hello ".toList = some ⟨0, .unrecognized, sample_db⟩ ∧
    execute_command no_meta sample_db " DROP TABLE t; ".toList = some ⟨0, .drop_table "t".toList, empty_db⟩ :=
  ⟨(execute_command_dispatch no_meta sample_db "  hello ".toList 'h' "ello".toList
      (by decide) (by decide)).2.1 (by decide),
   (execute_command_dispatch no_meta sample_db " DROP TABLE t; ".toList 'D' "ROP TABLE t;".toList
      (by decide) (by decide)).2.2
      [⟨"CREATE TABLE".toList, parse_create_table⟩, ⟨"INSERT INTO".toList, parse_insert⟩,
        ⟨"SELECT".toList, parse_select⟩, ⟨"UPDATE".toList, parse_update⟩,
        ⟨"DELETE FROM".toList, parse_delete⟩]
      ⟨"DROP TABLE".toList, handle_drop⟩ [] rfl (by decide) (by decide)⟩

theorem strstr_none (s pat : CStr) (h : ¬ pat <:+: s) : strstr s pat = none := by
  induction s with
  | nil =>
    have : pat ≠ [] := fun e => h (by simp [e])
    simp [strstr, this]
  | cons c s ih =>
    have h1 : (c :: s).take pat.length ≠ pat := by
      intro e
      apply h
      exact (List.prefix_iff_eq_take.2 e.symm).isInfix
    have h2 : ¬ pat <:+: s := fun hi => h (hi.trans (List.suffix_cons c s).isInfix)
    simp [strstr, h1, ih h2]

theorem rtrim_prefix_of (s : CStr) : rtrim s <+: s := by
  unfold rtrim
  have h := List.dropWhile_suffix isspace (l := s.reverse)
  have := List.reverse_prefix.2 h
  simpa using this

theorem trim_within (s : CStr) : trim s <:+: s := by
  rw [trim_eq_strip, strip]
  exact (rtrim_prefix_of _).isInfix.trans (List.dropWhile_suffix isspace).isInfix

theorem drop_takeWhile_length {α : Type} (p : α → Bool) (l : List α) :
    l.drop (l.takeWhile p).length = l.dropWhile p := by
  induction l with
  | nil => rfl
  | cons x l ih =>
    by_cases hx : p x = true
    · simp [List.takeWhile, List.dropWhile, hx, ih]
    · simp [List.takeWhile, List.dropWhile, hx]

theorem read_name_short (p : CStr) (stop : Char)
    (h : (p.takeWhile fun c => !isspace c && c != stop).length ≤ 63) :
    read_name p stop = (p.takeWhile fun c => !isspace c && c != stop,
      p.dropWhile fun c => !isspace c && c != stop) := by
  have e : (p.takeWhile fun c => !isspace c && c != stop).take (MAX_NAME_LEN - 1)
      = p.takeWhile fun c => !isspace c && c != stop := List.take_of_length_le h
  simp only [read_name, e, drop_takeWhile_length]

theorem dispatch_delete (db : Database) (tail : CStr) :
    dispatch db ("DELETE FROM".toList ++ tail) command_table
      = parse_delete db ("DELETE FROM".toList ++ tail) := by
  have h := dispatch_first db ("DELETE FROM".toList ++ tail)
    [⟨"CREATE TABLE".toList, parse_create_table⟩, ⟨"INSERT INTO".toList, parse_insert⟩,
      ⟨"SELECT".toList, parse_select⟩, ⟨"UPDATE".toList, parse_update⟩]
    [⟨"DROP TABLE".toList, handle_drop⟩] ⟨"DELETE FROM".toList, parse_delete⟩
    (List.prefix_append _ _) (by
      intro x hx
      simp only [List.mem_cons, List.mem_singleton, List.not_mem_nil, or_false] at hx
      rcases hx with rfl | rfl | rfl | rfl <;> simp)
  exact h

/-- C28, as amended: for a line that, once trimmed, begins with `DELETE FROM`
and in which the table name (the text after the keyword up to white space or
a semicolon) has at most 63 characters and the text after it does not hold
`WHERE`, `execute_command` returns 0 after a syntax error: `delete_where_eq`
is not called and the database is unchanged. -/
theorem delete_without_where (handle_meta : Database → CStr → Option (Int × Database))
    (db : Database) (input tail : CStr)
    (hline : trim input = "DELETE FROM".toList ++ tail)
    (hname : ((strip tail).takeWhile fun c => !isspace c && c != ';').length ≤ 63)
    (hwhere : ¬ "WHERE".toList <:+: (strip tail).dropWhile fun c => !isspace c && c != ';') :
    ∃ message,
      execute_command handle_meta db input = some ⟨0, .syntax_error message, db⟩ := by
  have hd := dispatch_delete db tail
  have hexec : execute_command handle_meta db input
      = (parse_delete db ("DELETE FROM".toList ++ tail)).map fun r => ⟨0, r.did, r.db⟩ := by
    simp only [execute_command, hline]
    rw [← hd]
    rfl
  have hp : trim (("DELETE FROM".toList ++ tail).drop "DELETE FROM".length) = strip tail := by
    have e : ("DELETE FROM".toList ++ tail).drop "DELETE FROM".length = tail := rfl
    rw [e, trim_eq_strip]
  rw [hexec]
  unfold parse_delete
  simp only [hp, read_name_short _ ';' hname]
  by_cases hn : ((strip tail).takeWhile fun c => !isspace c && c != ';') = []
  · exact ⟨_, by rw [if_pos hn]; rfl⟩
  · rw [if_neg hn]
    have : strstr (trim ((strip tail).dropWhile fun c => !isspace c && c != ';'))
        "WHERE".toList = none :=
      strstr_none _ _ (fun hi => hwhere (hi.trans (trim_within _)))
    exact ⟨_, by rw [this]; rfl⟩

theorem delete_without_where_witness :
    trim "DELETE FROM t".toList = "DELETE FROM".toList ++ " t".toList ∧
    ∃ message, execute_command no_meta sample_db "DELETE FROM t".toList
      = some ⟨0, .syntax_error message, sample_db⟩ :=
  ⟨by decide,
    delete_without_where no_meta sample_db "DELETE FROM t".toList " t".toList
      (by decide) (by decide) (by decide)⟩

set_option maxRecDepth 100000 in
/-- C28, counterexample: a line made of `DELETE FROM` and one word of 63
characters followed directly by `WHEREb=1`, with nothing after that word:
the first 63 characters are taken as the table name, `WHERE` is found in the
rest of the word, and `delete_where_eq` is called and removes the row. -/
theorem delete_without_where_counterexample :
    execute_command no_meta long_name_db
        ("DELETE FROM ".toList ++ long_name ++ "WHEREb=1".toList)
      = some ⟨0, .delete_where_eq long_name "b".toList "1".toList,
          ⟨[⟨long_name, [⟨"b".toList, .COL_INT⟩], 0, [], [⟨"b".toList, .COL_INT, []⟩]⟩], 0, 0⟩⟩ ∧
    ((long_name ++ "WHEREb=1".toList).dropWhile fun c => !isspace c && c != ';') = [] := by
  decide

/-! ## The command interpreter: `VALUES` lists -/

theorem takeWhile_stop (l r : CStr) (c : Char) (h : c ∉ l) (hr : r = [] ∨ ∃ r', r = c :: r') :
    (l ++ r).takeWhile (· != c) = l ∧ (l ++ r).dropWhile (· != c) = r := by
  rcases hr with rfl | ⟨r', rfl⟩
  · have hall : ∀ x ∈ l, (x != c) = true := by
      intro x hx
      have : x ≠ c := fun e => h (e ▸ hx)
      simp [this]
    simp only [List.append_nil]
    exact ⟨List.takeWhile_eq_self_iff.2 hall, dropWhile_all _ l hall⟩
  · exact takeWhile_split l r' c h

theorem starts_plain_split (t : CStr) (h : starts_plain t) :
    ∃ c rest, t = c :: rest ∧ isspace c = false ∧ c ≠ '"' := by
  cases t with
  | nil => exact absurd h (by simp [starts_plain])
  | cons c rest => exact ⟨c, rest, rfl, h.1, h.2⟩

theorem render_head (f : Field) (hf : f.ok) (tail : CStr) :
    ∃ c q, (f.render ++ tail).dropWhile isspace = c :: q ∧ c ≠ ',' ∧
      c :: q = (if f.quoted then '"' :: (f.text ++ ['"']) else f.text) ++ tail := by
  obtain ⟨h1, h2, h3⟩ := hf
  unfold Field.render
  rw [List.append_assoc, dropWhile_blank_append _ _ h1]
  cases hq : f.quoted with
  | true =>
    refine ⟨'"', f.text ++ ['"'] ++ tail, ?_, by decide, by simp⟩
    simp [List.dropWhile, isspace]
  | false =>
    obtain ⟨hsp, hcomma⟩ := h3 hq
    obtain ⟨c, rest, e, hc, _⟩ := starts_plain_split _ hsp
    refine ⟨c, rest ++ tail, ?_, ?_, by simp [e]⟩
    · simp [e, List.dropWhile, hc]
    · intro ec
      apply hcomma
      rw [e, ec]
      simp

theorem parse_value_field (f : Field) (hf : f.ok) (tail : CStr)
    (ht : tail = [] ∨ ∃ t, tail = ',' :: t) :
    parse_value ((if f.quoted then '"' :: (f.text ++ ['"']) else f.text) ++ tail)
      = (f.value, tail) := by
  obtain ⟨_, h2, h3⟩ := hf
  cases hq : f.quoted with
  | true =>
    have hs := takeWhile_split f.text tail '"' (h2 hq)
    simp only [if_true, List.cons_append, List.append_assoc, List.singleton_append, parse_value,
      List.nil_append, hs.1, hs.2, Field.value]
  | false =>
    obtain ⟨hsp, hcomma⟩ := h3 hq
    obtain ⟨c, rest, e, _, hc⟩ := starts_plain_split _ hsp
    have hs := takeWhile_stop f.text tail ',' hcomma ht
    simp only [Bool.false_eq_true, if_false]
    have hp : parse_value (f.text ++ tail)
        = (rtrim ((f.text ++ tail).takeWhile (· != ',')), (f.text ++ tail).dropWhile (· != ',')) := by
      rw [e, List.cons_append]
      unfold parse_value
      split
      · rename_i heq
        exact absurd (List.cons.inj heq).1 hc
      · rfl
    rw [hp, hs.1, hs.2, Field.value]

theorem render_length (f : Field) (hf : f.ok) : 1 ≤ f.render.length := by
  obtain ⟨_, _, h3⟩ := hf
  unfold Field.render
  cases hq : f.quoted with
  | true => simp; omega
  | false =>
    obtain ⟨hsp, _⟩ := h3 hq
    obtain ⟨c, rest, e, _, _⟩ := starts_plain_split _ hsp
    simp [e]; omega

theorem render_fields_cons (f : Field) (fs : List Field) :
    ∃ tail, render_fields (f :: fs) = f.render ++ tail ∧
      (tail = [] ∨ ∃ t, tail = ',' :: t) ∧
      (fs = [] → tail = []) ∧ (fs ≠ [] → tail = ',' :: render_fields fs) ∧
      (render_fields fs).length ≤ tail.length := by
  cases fs with
  | nil => exact ⟨[], by simp [render_fields], Or.inl rfl, fun _ => rfl, fun h => absurd rfl h,
    by simp [render_fields]⟩
  | cons g gs =>
    exact ⟨',' :: render_fields (g :: gs), rfl, Or.inr ⟨_, rfl⟩, fun h => by simp at h,
      fun _ => rfl, by simp⟩

theorem render_fields_head (fs : List Field) (h : ∀ f ∈ fs, f.ok) (hne : fs ≠ []) :
    (render_fields fs).dropWhile (· == ',') = render_fields fs := by
  cases fs with
  | nil => exact absurd rfl hne
  | cons f fs =>
    have hf := h f (by simp)
    obtain ⟨tail, e, _⟩ := render_fields_cons f fs
    rw [e]
    obtain ⟨h1, h2, h3⟩ := hf
    unfold Field.render
    cases hl : f.lead with
    | cons x l =>
      have : isspace x = true := h1 x (by simp [hl])
      have hx : (x == ',') = false := by
        rw [beq_eq_false_iff_ne]
        intro ex
        rw [ex] at this
        exact absurd this (by decide)
      simp [List.dropWhile, hx]
    | nil =>
      cases hq : f.quoted with
      | true => simp [List.dropWhile]
      | false =>
        obtain ⟨hsp, hcomma⟩ := h3 hq
        obtain ⟨c, rest, e', _, _⟩ := starts_plain_split _ hsp
        have hx : (c == ',') = false := by
          rw [beq_eq_false_iff_ne]
          intro ec
          apply hcomma
          rw [e', ec]
          simp
        simp [e', List.dropWhile, hx]

theorem parse_values_loop_fields (fs : List Field) (h : ∀ f ∈ fs, f.ok) (fuel : Nat)
    (hfuel : (render_fields fs).length + 1 ≤ fuel) :
    parse_values_loop fuel (render_fields fs) = some (fs.map Field.value) := by
  induction fs generalizing fuel with
  | nil =>
    cases fuel with
    | zero => omega
    | succ n => rfl
  | cons f fs ih =>
    cases fuel with
    | zero => omega
    | succ n =>
      have hf := h f (by simp)
      obtain ⟨tail, e, ht, hnil, hcons, hlen⟩ := render_fields_cons f fs
      obtain ⟨c, q, hd, _, hcq⟩ := render_head f hf tail
      have hv := parse_value_field f hf tail ht
      rw [← hcq] at hv
      have hrlen : 1 ≤ f.render.length := render_length f hf
      have hrest : tail.dropWhile (· == ',') = render_fields fs := by
        by_cases hfs : fs = []
        · rw [hnil hfs, hfs]; rfl
        · rw [hcons hfs]
          simp only [List.dropWhile, beq_self_eq_true]
          exact render_fields_head fs (fun g hg => h g (by simp [hg])) hfs
      have hrec := ih (fun g hg => h g (by simp [hg])) n (by
        rw [e] at hfuel
        simp only [List.length_append] at hfuel
        omega)
      rw [e]
      unfold parse_values_loop
      simp only [hd, hv, hrest, hrec, Option.map_some', List.map_cons]

/-- C26, as amended: for a `VALUES` list made of fields with one comma
between two of them, each field being white space followed by a text in
double quotes (with no double quote inside, the closing quote directly in
front of the comma or the end) or by an unquoted text that begins with a
character other than white space and a double quote and holds no comma,
`parse_values_list` returns one value per field, in order: the text of the
field (for a quoted field the text between the quotes, embedded commas
included) without its trailing white space. -/
theorem parse_values_list_fields (fs : List Field) (h : ∀ f ∈ fs, f.ok) :
    parse_values_list (render_fields fs) = some (fs.map Field.value) ∧
    (fs.map Field.value).length = fs.length :=
  ⟨parse_values_loop_fields fs h _ (Nat.le_refl _), by simp⟩

theorem parse_values_list_fields_witness :
    render_fields [⟨[], false, "1".toList⟩, ⟨" ".toList, true, "a, b".toList⟩,
      ⟨" ".toList, false, "c d ".toList⟩] = "1, \"a, b\", c d ".toList ∧
    parse_values_list "1, \"a, b\", c d ".toList
      = some ["1".toList, "a, b".toList, "c d".toList] :=
  ⟨by decide, (parse_values_list_fields [⟨[], false, "1".toList⟩,
    ⟨" ".toList, true, "a, b".toList⟩, ⟨" ".toList, false, "c d ".toList⟩] (by decide)).1⟩

/-- C26, counterexample: the quoted field `"a "` yields `a`, without the space
that stands between the quotes; the list `1,,2` with two commas yields two
values; the list `"a" , 2` with one comma yields three values, the second one
empty. -/
theorem parse_values_list_counterexample :
    parse_values_list "\"a \"".toList = some ["a".toList] ∧
    parse_values_list "1,,2".toList = some ["1".toList, "2".toList] ∧
    parse_values_list "\"a\" , 2".toList = some ["a".toList, [], "2".toList] := by
  decide

/-! ## The command interpreter: `CREATE TABLE` -/

theorem dropWhile_dropWhile_of_imp {α : Type} (p g : α → Bool) (l : List α)
    (h : ∀ x, p x = true → g x = true) : (l.dropWhile p).dropWhile g = l.dropWhile g := by
  induction l with
  | nil => rfl
  | cons x l ih =>
    by_cases hx : p x = true
    · simp [List.dropWhile, hx, h x hx, ih]
    · simp [List.dropWhile, hx]

theorem dropWhile_drop_of_imp {α : Type} (f g : α → Bool) (l : List α) (k : Nat)
    (h : ∀ x, f x = true → g x = true) (hk : k ≤ (l.takeWhile f).length) :
    (l.drop k).dropWhile g = l.dropWhile g := by
  induction l generalizing k with
  | nil => simp
  | cons x l ih =>
    cases k with
    | zero => rfl
    | succ k =>
      by_cases hx : f x = true
      · simp only [List.takeWhile, hx, List.length_cons] at hk
        simp [List.dropWhile, h x hx, ih k (by omega)]
      · simp [List.takeWhile, hx] at hk

theorem strrchr_absent (s : CStr) (c : Char) (h : c ∉ s) : strrchr s c = none := by
  induction s with
  | nil => rfl
  | cons x s ih =>
    have hx : x ≠ c := fun e => h (by simp [e])
    simp [strrchr, ih (fun hm => h (by simp [hm])), hx]

theorem strrchr_last (body tail : CStr) (c : Char) (h : c ∉ tail) :
    strrchr (body ++ c :: tail) c = some (body, c :: tail) := by
  induction body with
  | nil => simp [strrchr, strrchr_absent tail c h]
  | cons x body ih => simp [strrchr, ih]

theorem strtok_from_run (d : Char) (e rest cur : CStr) (h : d ∉ e) :
    strtok_from d (e ++ rest) cur = strtok_from d rest (cur ++ e) := by
  induction e generalizing cur with
  | nil => simp
  | cons x e ih =>
    have hx : x ≠ d := fun ex => h (by simp [ex])
    simp only [List.cons_append, strtok_from, if_neg hx]
    have := ih (cur ++ [x]) (fun hm => h (by simp [hm]))
    simpa using this

theorem strtok_from_delim (d : Char) (b rest cur : CStr) :
    ∃ pre, strtok_from d (b ++ d :: rest) cur = pre ++ strtok_from d rest [] := by
  induction b generalizing cur with
  | nil =>
    by_cases hc : cur = []
    · exact ⟨[], by simp [strtok_from, hc]⟩
    · exact ⟨[cur], by simp [strtok_from, hc]⟩
  | cons x b ih =>
    by_cases hx : x = d
    · obtain ⟨pre, e⟩ := ih []
      by_cases hc : cur = []
      · exact ⟨pre, by simp [strtok_from, hx, hc, e]⟩
      · exact ⟨cur :: pre, by simp [strtok_from, hx, hc, e]⟩
    · obtain ⟨pre, e⟩ := ih (cur ++ [x])
      exact ⟨pre, by simp [strtok_from, hx, e]⟩

theorem strtok_entry (d : Char) (b1 e b2 : CStr) (he : e ≠ []) (hd : d ∉ e)
    (hb1 : b1 = [] ∨ ∃ b, b1 = b ++ [d]) (hb2 : b2 = [] ∨ ∃ b, b2 = d :: b) :
    e ∈ strtok (b1 ++ e ++ b2) d := by
  have h0 : e ∈ strtok_from d (e ++ b2) [] := by
    rw [strtok_from_run d e b2 [] hd, List.nil_append]
    rcases hb2 with rfl | ⟨b, rfl⟩
    · simp [strtok_from, he]
    · simp [strtok_from, he]
  unfold strtok
  rcases hb1 with rfl | ⟨b, rfl⟩
  · simpa using h0
  · obtain ⟨pre, e'⟩ := strtok_from_delim d b (e ++ b2) []
    have : b ++ [d] ++ e ++ b2 = b ++ d :: (e ++ b2) := by simp
    rw [this, e']
    exact List.mem_append_right _ h0

theorem sscanf_one_word (w : CStr) (hw : is_word w) (hlen : w.length ≤ 63) :
    sscanf w fmt_column_def = [.str w] := by
  obtain ⟨hne, hsp⟩ := hw
  obtain ⟨c, rest, rfl⟩ := List.exists_cons_of_ne_nil hne
  have h1 : (c :: rest).dropWhile isspace = c :: rest := by
    simp [List.dropWhile, hsp c (by simp)]
  have h2 : (c :: rest).takeWhile (fun x => !isspace x) = c :: rest := by
    apply List.takeWhile_eq_self_iff.2
    intro x hx
    simp [hsp x hx]
  have h3 : (c :: rest).take 63 = c :: rest := List.take_of_length_le hlen
  have h4 : scan_str 63 (c :: rest) = some (c :: rest, []) := by
    unfold scan_str
    rw [h2, h3]
    simp
  simp only [fmt_column_def, sscanf, h1, h4]
  simp [sscanf, scan_str]

theorem parse_column_defs_entry (toks : List CStr) (e w : CStr) (he : e ∈ toks)
    (htrim : trim e = w) (hw : is_word w) (hlen : w.length ≤ 63) :
    ∃ x, parse_column_defs toks = .error x := by
  induction toks with
  | nil => simp at he
  | cons tok toks ih =>
    unfold parse_column_defs
    by_cases hb : trim tok = []
    · rw [if_pos hb]
      rcases List.mem_cons.1 he with rfl | hm
      · rw [htrim] at hb
        exact absurd hb hw.1
      · exact ih hm
    · rw [if_neg hb]
      rcases List.mem_cons.1 he with rfl | hm
      · rw [htrim, sscanf_one_word w hw hlen]
        exact ⟨_, rfl⟩
      · obtain ⟨x, hx⟩ := ih hm
        split
        · rw [hx]
          exact ⟨_, rfl⟩
        · exact ⟨_, rfl⟩

theorem blank_no_char (sp : CStr) (c : Char) (h : blank sp) (hc : isspace c = false) :
    c ∉ sp := fun hm => by
  have := h c hm
  rw [hc] at this
  exact absurd this (by decide)

theorem parse_create_table_rejects (db : Database) (head body tail b1 b2 sp1 w sp2 : CStr)
    (hhead : '(' ∉ head) (htail : ')' ∉ tail)
    (hbody : body = b1 ++ (sp1 ++ w ++ sp2) ++ b2)
    (hb1 : b1 = [] ∨ ∃ b, b1 = b ++ [','])
    (hb2 : b2 = [] ∨ ∃ b, b2 = ',' :: b)
    (hsp1 : blank sp1) (hsp2 : blank sp2) (hw : is_word w) (hcomma : ',' ∉ w)
    (hlen : w.length ≤ 63) :
    ∃ message,
      parse_create_table db ("CREATE TABLE".toList ++ (head ++ '(' :: (body ++ ')' :: tail)))
        = some ⟨.syntax_error message, db⟩ := by
  have hdrop : ("CREATE TABLE".toList ++ (head ++ '(' :: (body ++ ')' :: tail))).drop
      "CREATE TABLE".length = head ++ '(' :: (body ++ ')' :: tail) := rfl
  unfold parse_create_table
  simp only [hdrop]
  generalize hs : head ++ '(' :: (body ++ ')' :: tail) = s
  by_cases hn : (read_name (s.dropWhile isspace) '(').1 = []
  · exact ⟨_, by rw [if_pos hn]⟩
  · rw [if_neg hn]
    have hparen : ((read_name (s.dropWhile isspace) '(').2.dropWhile isspace).dropWhile
        (· != '(') = '(' :: (body ++ ')' :: tail) := by
      rw [dropWhile_dropWhile_of_imp isspace (· != '(') _ (by
        intro x hx
        have : x ≠ '(' := fun e => by rw [e] at hx; exact absurd hx (by decide)
        simp [this])]
      simp only [read_name]
      rw [dropWhile_drop_of_imp (fun c => !isspace c && c != '(') (· != '(') _ _ (by
        intro x hx
        simp only [Bool.and_eq_true] at hx
        exact hx.2) (by
        simp only [List.length_take]
        exact Nat.min_le_right _ _)]
      rw [dropWhile_dropWhile_of_imp isspace (· != '(') _ (by
        intro x hx
        have : x ≠ '(' := fun e => by rw [e] at hx; exact absurd hx (by decide)
        simp [this])]
      rw [← hs]
      exact (takeWhile_split head _ '(' hhead).2
    cases hr : (read_name (s.dropWhile isspace) '(').2.dropWhile isspace with
    | nil => exact ⟨_, rfl⟩
    | cons x p' =>
      by_cases hx : x = '('
      · subst hx
        rw [hr] at hparen
        simp only [List.dropWhile, bne_self_eq_false] at hparen
        have hp' : p' = body ++ ')' :: tail := (List.cons.inj hparen).2
        simp only [hp', strrchr_last body tail ')' htail]
        have hmem : (sp1 ++ w ++ sp2) ∈ strtok body ',' := by
          rw [hbody]
          apply strtok_entry ',' b1 (sp1 ++ w ++ sp2) b2 _ _ hb1 hb2
          · obtain ⟨c, rest, e⟩ := List.exists_cons_of_ne_nil hw.1
            simp [e]
          · simp only [List.mem_append, not_or]
            exact ⟨⟨blank_no_char sp1 ',' hsp1 (by decide), hcomma⟩,
              blank_no_char sp2 ',' hsp2 (by decide)⟩
        obtain ⟨e, he⟩ := parse_column_defs_entry (strtok body ',') _ w hmem
          (trim_word sp1 w sp2 hsp1 hsp2 hw.2) hw hlen
        rw [he]
        exact ⟨_, rfl⟩
      · refine ⟨"Syntax error: expected '('.\n".toList, ?_⟩
        split
        · rename_i heq
          exact absurd (List.cons.inj heq).1 hx
        · rfl

theorem dispatch_create (db : Database) (tail : CStr) :
    dispatch db ("CREATE TABLE".toList ++ tail) command_table
      = parse_create_table db ("CREATE TABLE".toList ++ tail) :=
  dispatch_first db ("CREATE TABLE".toList ++ tail) []
    [⟨"INSERT INTO".toList, parse_insert⟩, ⟨"SELECT".toList, parse_select⟩,
      ⟨"UPDATE".toList, parse_update⟩, ⟨"DELETE FROM".toList, parse_delete⟩,
      ⟨"DROP TABLE".toList, handle_drop⟩] ⟨"CREATE TABLE".toList, parse_create_table⟩
    (List.prefix_append _ _) (by intro x hx; simp at hx)

/-- C25, as amended: take a line that, once trimmed, is `CREATE TABLE`, a text
without `(`, then `(`, the column list, `)` and a text without `)`.  When one
of the entries of the column list (the texts between its commas) is one word
of at most 63 characters with white space around it, `execute_command` returns
0 after a syntax error: `create_table` is not called and the database is
unchanged. -/
theorem create_table_one_word_entry
    (handle_meta : Database → CStr → Option (Int × Database)) (db : Database)
    (input head body tail b1 b2 sp1 w sp2 : CStr)
    (hline : trim input = "CREATE TABLE".toList ++ (head ++ '(' :: (body ++ ')' :: tail)))
    (hhead : '(' ∉ head) (htail : ')' ∉ tail)
    (hbody : body = b1 ++ (sp1 ++ w ++ sp2) ++ b2)
    (hb1 : b1 = [] ∨ ∃ b, b1 = b ++ [','])
    (hb2 : b2 = [] ∨ ∃ b, b2 = ',' :: b)
    (hsp1 : blank sp1) (hsp2 : blank sp2) (hw : is_word w) (hcomma : ',' ∉ w)
    (hlen : w.length ≤ 63) :
    ∃ message,
      execute_command handle_meta db input = some ⟨0, .syntax_error message, db⟩ := by
  obtain ⟨message, h⟩ := parse_create_table_rejects db head body tail b1 b2 sp1 w sp2 hhead htail
    hbody hb1 hb2 hsp1 hsp2 hw hcomma hlen
  refine ⟨message, ?_⟩
  have hexec : execute_command handle_meta db input
      = (dispatch db ("CREATE TABLE".toList ++ (head ++ '(' :: (body ++ ')' :: tail)))
          command_table).map fun r => ⟨0, r.did, r.db⟩ := by
    simp only [execute_command, hline]
    rfl
  rw [hexec, dispatch_create, h]
  rfl

theorem create_table_one_word_entry_witness :
    trim "CREATE TABLE t (id INT, name)".toList
      = "CREATE TABLE".toList ++ (" t ".toList ++ '(' :: ("id INT, name".toList ++ ')' :: [])) ∧
    "id INT, name".toList = "id INT,".toList ++ (" ".toList ++ "name".toList ++ []) ++ [] ∧
    ∃ message, execute_command no_meta sample_db "CREATE TABLE t (id INT, name)".toList
      = some ⟨0, .syntax_error message, sample_db⟩ :=
  ⟨by decide, by decide,
    create_table_one_word_entry no_meta sample_db "CREATE TABLE t (id INT, name)".toList
      " t ".toList "id INT, name".toList [] "id INT,".toList [] " ".toList "name".toList []
      (by decide) (by decide) (by decide) (by decide) (Or.inr ⟨"id INT".toList, by decide⟩)
      (Or.inl rfl) (by decide) (by decide) (by decide) (by decide) (by decide)⟩

set_option maxRecDepth 100000 in
/-- C25, counterexample: the entry `a INT extra words` of four words is
accepted, the table is created with the column `a` of type Int; and so is an
entry that is one word of 64 characters, cut into a name of 63 characters and
a type keyword of one. -/
theorem create_table_entry_counterexample :
    execute_command no_meta empty_db "CREATE TABLE t (a INT extra words)".toList
      = some ⟨0, .create_table "t".toList [⟨"a".toList, .COL_INT⟩],
          ⟨[⟨"t".toList, [⟨"a".toList, .COL_INT⟩], 0, [], [⟨"a".toList, .COL_INT, []⟩]⟩], 0, 0⟩⟩ ∧
    execute_command no_meta empty_db
        ("CREATE TABLE t (".toList ++ longer_name ++ ")".toList)
      = some ⟨0, .create_table "t".toList [⟨long_name, .COL_TEXT⟩],
          ⟨[⟨"t".toList, [⟨long_name, .COL_TEXT⟩], 0, [], [⟨long_name, .COL_TEXT, []⟩]⟩], 0, 0⟩⟩ := by
  decide


theorem parse_value_rest (c : Char) (q : CStr) :
    ((parse_value (c :: q)).2.dropWhile (· == ',')).length ≤ q.length := by
  have hsuf : ∀ (p : Char → Bool) (l : CStr), (l.dropWhile p).length ≤ l.length :=
    fun p l => (List.dropWhile_suffix p).length_le
  by_cases hq : c = '"'
  · subst hq
    simp only [parse_value]
    refine Nat.le_trans (hsuf _ _) ?_
    cases h : q.dropWhile (· != '"') with
    | nil => simp
    | cons x r =>
      have := hsuf (· != '"') q
      rw [h] at this
      simp only [List.length_cons] at this ⊢
      omega
  · have hp : parse_value (c :: q)
        = (rtrim ((c :: q).takeWhile (· != ',')), (c :: q).dropWhile (· != ',')) := by
      unfold parse_value
      split
      · rename_i heq
        exact absurd (List.cons.inj heq).1 hq
      · rfl
    rw [hp]
    by_cases hc : c = ','
    · subst hc
      simp only [List.dropWhile, bne_self_eq_false, beq_self_eq_true]
      exact hsuf _ _
    · have hb : (c != ',') = true := by simp [hc]
      simp only [List.dropWhile, hb]
      exact Nat.le_trans (hsuf _ _) (hsuf _ _)

theorem parse_values_loop_total (fuel : Nat) (p : CStr) (h : p.length < fuel) :
    ∃ vals, parse_values_loop fuel p = some vals := by
  induction fuel generalizing p with
  | zero => omega
  | succ n ih =>
    unfold parse_values_loop
    cases hd : p.dropWhile isspace with
    | nil => exact ⟨[], rfl⟩
    | cons c q =>
      have h1 := (List.dropWhile_suffix isspace (l := p)).length_le
      rw [hd, List.length_cons] at h1
      obtain ⟨vals, hv⟩ := ih ((parse_value (c :: q)).2.dropWhile (· == ','))
        (by have := parse_value_rest c q; omega)
      exact ⟨(parse_value (c :: q)).1 :: vals, by simp only [hv, Option.map_some']⟩

theorem parse_values_list_total (s : CStr) : ∃ vals, parse_values_list s = some vals :=
  parse_values_loop_total (s.length + 1) s (Nat.lt_succ_self _)


/-! ## Consequences: creation, idempotence, the frame of an insert -/

theorem find_table_none (db : Database) (name : CStr) (h : find_table db name = none) :
    ∀ t ∈ db.tables, t.name ≠ name := by
  intro t ht
  have := (find_index_eq_none _ _).1 h t ht
  simpa using this

/-- C33, as amended: for a name of at most 63 characters that `find_table`
does not find, `create_table` returns 1, `find_table` then finds the name at
the last position of the registry, the table there carries the name and
exactly the given columns, and a second `create_table` with the name returns
0 and changes nothing, whatever its columns. -/
theorem create_table_then_found (db : Database) (name : CStr) (cols cols2 : List ColumnDef)
    (hlen : name.length ≤ 63) (habs : find_table db name = none) :
    create_table db name cols = (1, { db with tables := db.tables ++ [new_table name cols] }) ∧
    find_table (create_table db name cols).2 name = some db.tables.length ∧
    (create_table db name cols).2.tables[db.tables.length]? = some (new_table name cols) ∧
    (new_table name cols).name = name ∧ (new_table name cols).columns = cols ∧
    create_table (create_table db name cols).2 name cols2
      = (0, (create_table db name cols).2) := by
  have hname : (new_table name cols).name = name := List.take_of_length_le hlen
  have h1 : create_table db name cols
      = (1, { db with tables := db.tables ++ [new_table name cols] }) := by
    simp [create_table, habs]
  have h2 : find_table (create_table db name cols).2 name = some db.tables.length := by
    rw [h1]
    exact find_table_first _ name db.tables [] (new_table name cols) rfl
      (find_table_none db name habs) hname
  refine ⟨h1, h2, ?_, hname, rfl, ?_⟩
  · rw [h1]
    simp
  · generalize hd : (create_table db name cols).2 = d at h2 ⊢
    simp [create_table, h2]

theorem create_table_then_found_witness :
    find_table sample_db "u".toList = none ∧
    find_table (create_table sample_db "u".toList [⟨"k".toList, .COL_FLOAT⟩]).2 "u".toList
      = some 1 ∧
    create_table (create_table sample_db "u".toList [⟨"k".toList, .COL_FLOAT⟩]).2 "u".toList
        [⟨"id".toList, .COL_INT⟩]
      = (0, (create_table sample_db "u".toList [⟨"k".toList, .COL_FLOAT⟩]).2) :=
  ⟨by decide,
    (create_table_then_found sample_db "u".toList [⟨"k".toList, .COL_FLOAT⟩]
      [⟨"id".toList, .COL_INT⟩] (by decide) (by decide)).2.1,
    (create_table_then_found sample_db "u".toList [⟨"k".toList, .COL_FLOAT⟩]
      [⟨"id".toList, .COL_INT⟩] (by decide) (by decide)).2.2.2.2.2⟩

/-- C33, counterexample: after `create_table` has succeeded with a name of 64
characters, `find_table` does not find that name (the table is stored under
its first 63 characters), and a second `create_table` with the same name
succeeds again. -/
theorem create_table_then_found_counterexample :
    find_table empty_db longer_name = none ∧
    create_table empty_db longer_name [⟨"id".toList, .COL_INT⟩]
      = (1, ⟨[⟨long_name, [⟨"id".toList, .COL_INT⟩], 0, [], [⟨"id".toList, .COL_INT, []⟩]⟩],
          0, 0⟩) ∧
    find_table ⟨[⟨long_name, [⟨"id".toList, .COL_INT⟩], 0, [], [⟨"id".toList, .COL_INT, []⟩]⟩],
        0, 0⟩ longer_name = none ∧
    create_table ⟨[⟨long_name, [⟨"id".toList, .COL_INT⟩], 0, [],
        [⟨"id".toList, .COL_INT, []⟩]⟩], 0, 0⟩ longer_name [⟨"id".toList, .COL_INT⟩]
      = (1, ⟨[⟨long_name, [⟨"id".toList, .COL_INT⟩], 0, [], [⟨"id".toList, .COL_INT, []⟩]⟩,
          ⟨long_name, [⟨"id".toList, .COL_INT⟩], 0, [], [⟨"id".toList, .COL_INT, []⟩]⟩],
          0, 0⟩) := by
  decide

theorem filter_length_count (rows : List Row) (p : Row → Bool) :
    rows.countP p + (rows.filter fun r => !p r).length = rows.length := by
  induction rows with
  | nil => rfl
  | cons r rs ih =>
    by_cases h : p r = true
    · simp [List.countP_cons, List.filter_cons, h]
      omega
    · simp [List.countP_cons, List.filter_cons, h]
      omega

theorem countP_filter_not (rows : List Row) (p : Row → Bool) :
    (rows.filter fun r => !p r).countP p = 0 := by
  rw [List.countP_eq_zero]
  intro r hr
  have := (List.mem_filter.1 hr).2
  simpa using this

theorem filter_filter_not (rows : List Row) (p : Row → Bool) :
    ((rows.filter fun r => !p r).filter fun r => !p r) = rows.filter fun r => !p r := by
  rw [List.filter_eq_self]
  intro r hr
  exact (List.mem_filter.1 hr).2

/-- C34: for a table held in the row-major representation and an existing
column, `delete_where_eq` run a second time with the same arguments returns 1,
reports 0 rows removed and leaves the database exactly as the first run left
it; and the number of rows removed by the first run plus the number of rows
that remain is the original row count. -/
theorem delete_where_eq_idempotent (db : Database) (name where_col val : CStr)
    (pre post : List Table) (t : Table)
    (hdb : db.tables = pre ++ t :: post) (hpre : ∀ u ∈ pre, u.name ≠ name) (ht : t.name = name)
    (hok : t.row_major_ok) (hcol : where_col ∈ t.column_names) :
    delete_where_eq db name where_col val = some ⟨1,
      deleted_message (t.rows.countP fun r => cell_is r (t.position where_col) val) name,
      { db with tables := pre ++ t.after_delete where_col val :: post }⟩ ∧
    delete_where_eq { db with tables := pre ++ t.after_delete where_col val :: post }
        name where_col val
      = some ⟨1, deleted_message 0 name,
          { db with tables := pre ++ t.after_delete where_col val :: post }⟩ ∧
    (t.rows.countP fun r => cell_is r (t.position where_col) val) +
      (t.after_delete where_col val).rows.length = t.num_rows := by
  have hsum := filter_length_count t.rows (fun r => cell_is r (t.position where_col) val)
  rw [hok.1] at hsum
  refine ⟨delete_where_eq_held db name where_col val pre post t hdb hpre ht hok hcol, ?_, hsum⟩
  have hok' : (t.after_delete where_col val).row_major_ok := by
    constructor
    · show (t.rows.filter fun r => !cell_is r (t.position where_col) val).length
        = t.num_rows - t.rows.countP fun r => cell_is r (t.position where_col) val
      omega
    · intro r hr
      exact hok.2 r (List.mem_filter.1 hr).1
  have h2 := delete_where_eq_held
    { db with tables := pre ++ t.after_delete where_col val :: post }
    name where_col val pre post (t.after_delete where_col val) rfl hpre ht hok' hcol
  rw [h2]
  simp only [Table.after_delete, Table.position, Table.column_names, countP_filter_not,
    filter_filter_not, Nat.sub_zero]

theorem delete_where_eq_idempotent_witness :
    two_row_table.after_delete "id".toList "1".toList
      = { two_row_table with rows := [⟨[some "2".toList, some "b".toList]⟩], num_rows := 1 } ∧
    delete_where_eq ⟨[{ two_row_table with
          rows := [⟨[some "2".toList, some "b".toList]⟩], num_rows := 1 }], 0, 0⟩
        "t".toList "id".toList "1".toList
      = some ⟨1, deleted_message 0 "t".toList, ⟨[{ two_row_table with
          rows := [⟨[some "2".toList, some "b".toList]⟩], num_rows := 1 }], 0, 0⟩⟩ :=
  ⟨by decide,
    (delete_where_eq_idempotent two_row_db "t".toList "id".toList "1".toList [] []
      two_row_table rfl (by decide) (by decide) (by decide) (by decide)).2.1⟩

theorem updated_row_twice (w s : Nat) (val set_val : CStr) (r : Row) :
    updated_row w s val set_val (updated_row w s val set_val r) = updated_row w s val set_val r := by
  by_cases h : cell_is r w val = true
  · have e : updated_row w s val set_val r = ⟨r.values.set s (some set_val)⟩ := by
      simp [updated_row, h]
    rw [e]
    unfold updated_row
    split
    · simp
    · rfl
  · have e : updated_row w s val set_val r = r := by
      simp [updated_row, h]
    rw [e, e]

theorem updated_row_length (w s : Nat) (val set_val : CStr) (r : Row) :
    (updated_row w s val set_val r).values.length = r.values.length := by
  unfold updated_row
  split <;> simp

/-- C35: for a table held in the row-major representation and existing
columns `set_col` and `where_col`, which may be the same column,
`update_where_eq` run a second time with the same arguments returns 1 and
leaves the database exactly as the first run left it. -/
theorem update_where_eq_idempotent (db : Database) (name set_col set_val where_col val : CStr)
    (pre post : List Table) (t : Table)
    (hdb : db.tables = pre ++ t :: post) (hpre : ∀ u ∈ pre, u.name ≠ name) (ht : t.name = name)
    (hok : t.row_major_ok) (hset : set_col ∈ t.column_names)
    (hwhere : where_col ∈ t.column_names) :
    (∃ message, update_where_eq db name set_col set_val where_col val = some ⟨1, message,
      { db with tables := pre ++ t.after_update set_col set_val where_col val :: post }⟩) ∧
    (∃ message,
      update_where_eq
          { db with tables := pre ++ t.after_update set_col set_val where_col val :: post }
          name set_col set_val where_col val
        = some ⟨1, message,
          { db with tables := pre ++ t.after_update set_col set_val where_col val :: post }⟩) ∧
    (t.after_update set_col set_val where_col val).after_update set_col set_val where_col val
      = t.after_update set_col set_val where_col val := by
  have hmap : (t.rows.map
        (updated_row (t.position where_col) (t.position set_col) val set_val)).map
        (updated_row (t.position where_col) (t.position set_col) val set_val)
      = t.rows.map (updated_row (t.position where_col) (t.position set_col) val set_val) := by
    rw [List.map_map]
    apply List.map_congr_left
    intro r _
    exact updated_row_twice _ _ _ _ r
  have hidem : (t.after_update set_col set_val where_col val).after_update set_col set_val
      where_col val = t.after_update set_col set_val where_col val :=
    congrArg (fun rows => ({ t with rows := rows } : Table)) hmap
  refine ⟨⟨_, update_where_eq_held db name set_col set_val where_col val pre post t hdb hpre ht
    hok hset hwhere⟩, ?_, hidem⟩
  have hok' : (t.after_update set_col set_val where_col val).row_major_ok := by
    constructor
    · show (t.rows.map _).length = t.num_rows
      rw [List.length_map, hok.1]
    · intro r hr
      obtain ⟨r0, hr0, e⟩ := List.mem_map.1 hr
      rw [← e, updated_row_length]
      exact hok.2 r0 hr0
  have h2 : update_where_eq
      { db with tables := pre ++ t.after_update set_col set_val where_col val :: post }
      name set_col set_val where_col val
      = some ⟨1, updated_message ((t.after_update set_col set_val where_col val).rows.countP
          fun r => cell_is r (t.position where_col) val) name,
        { db with tables := pre ++
          (Table.after_update (t.after_update set_col set_val where_col val) set_col set_val
            where_col val) :: post }⟩ :=
    update_where_eq_held
      { db with tables := pre ++ t.after_update set_col set_val where_col val :: post }
      name set_col set_val where_col val pre post (t.after_update set_col set_val where_col val)
      rfl hpre ht hok' hset hwhere
  rw [hidem] at h2
  exact ⟨_, h2⟩

theorem update_where_eq_idempotent_witness :
    two_row_table.after_update "id".toList "9".toList "id".toList "1".toList
      = { two_row_table with rows :=
          [⟨[some "9".toList, some "a".toList]⟩, ⟨[some "2".toList, some "b".toList]⟩] } ∧
    ∃ message, update_where_eq ⟨[{ two_row_table with rows :=
          [⟨[some "9".toList, some "a".toList]⟩, ⟨[some "2".toList, some "b".toList]⟩] }], 0, 0⟩
        "t".toList "id".toList "9".toList "id".toList "1".toList
      = some ⟨1, message, ⟨[{ two_row_table with rows :=
          [⟨[some "9".toList, some "a".toList]⟩, ⟨[some "2".toList, some "b".toList]⟩] }],
          0, 0⟩⟩ :=
  ⟨by decide,
    (update_where_eq_idempotent two_row_db "t".toList "id".toList "9".toList "id".toList
      "1".toList [] [] two_row_table rfl (by decide) (by decide) (by decide) (by decide)
      (by decide)).2.1⟩

theorem insert_column_major_shape (t t' : Table) (values : List (Option CStr))
    (hlen : values.length = t.columns.length) (h : insert_column_major t values = some t') :
    t'.name = t.name ∧ t'.columns = t.columns ∧ t'.num_rows = t.num_rows + 1 ∧
    t'.rows = t.rows ∧ t'.column_data.length = t.column_data.length ∧
    (∀ i, i < t.columns.length → ∃ col v, t.column_data[i]? = some col ∧ values[i]? = some v ∧
      t'.column_data[i]?
        = some { col with values := resize col.values t.num_rows none ++ [v] }) ∧
    (∀ i, t.columns.length ≤ i → t'.column_data[i]? = t.column_data[i]?) := by
  unfold insert_column_major at h
  by_cases hle : t.num_columns ≤ t.column_data.length
  · simp only [read_slots, if_pos hle, Option.bind_eq_bind, Option.some_bind, Option.pure_def,
      Option.some.injEq] at h
    subst h
    have hnc : t.num_columns = t.columns.length := rfl
    have hzl : (List.zipWith
        (fun (col : ColumnStorage) v =>
          ({ col with values := resize col.values t.num_rows none ++ [v] } : ColumnStorage))
        (t.column_data.take t.num_columns) values).length = t.columns.length := by
      simp only [List.length_zipWith, List.length_take]
      omega
    refine ⟨rfl, rfl, rfl, rfl, ?_, ?_, ?_⟩
    · simp only [List.length_append, hzl, List.length_drop]
      omega
    · intro i hi
      have h1 : i < t.column_data.length := by omega
      have h2 : i < values.length := by omega
      refine ⟨t.column_data[i], values[i], List.getElem?_eq_getElem h1,
        List.getElem?_eq_getElem h2, ?_⟩
      rw [List.getElem?_append_left (by rw [hzl]; exact hi)]
      simp only [List.getElem?_zipWith, List.getElem?_take, hnc, hi, if_true,
        List.getElem?_eq_getElem h1, List.getElem?_eq_getElem h2]
    · intro i hi
      rw [List.getElem?_append_right (by rw [hzl]; exact hi), hzl, List.getElem?_drop, hnc]
      congr 1
      omega
  · simp [read_slots, hle] at h

/-- C31: a call of `insert_row` that returns 1 replaces the first table of the
given name and nothing else: the other tables, their order and the two mode
flags are unchanged, and in the table its name and columns are unchanged and
`num_rows` is one more.  Under the row-major layout the column stores are
unchanged and the row array is its first `num_rows` slots followed by the new
row (the old rows followed by the new one when the table holds `num_rows`
rows).  Under the column-major layout the rows are unchanged and the store of
each column is its first `num_rows` slots followed by the value given for that
column (the old values followed by the new one when the store holds
`num_rows` values). -/
theorem insert_row_frame (db db' : Database) (name : CStr) (values : List (Option CStr))
    (h : insert_row db name values = some (1, db')) :
    ∃ pre t t' post, db.tables = pre ++ t :: post ∧ (∀ u ∈ pre, u.name ≠ name) ∧ t.name = name ∧
      db' = { db with tables := pre ++ t' :: post } ∧
      t'.name = t.name ∧ t'.columns = t.columns ∧ t'.num_rows = t.num_rows + 1 ∧
      (db.column_store = 0 →
        t'.column_data = t.column_data ∧
        t'.rows = resize t.rows t.num_rows garbage_row ++ [⟨values⟩] ∧
        (t.rows.length = t.num_rows → t'.rows = t.rows ++ [⟨values⟩])) ∧
      (db.column_store ≠ 0 →
        t'.rows = t.rows ∧ t'.column_data.length = t.column_data.length ∧
        (∀ i, i < t.columns.length → ∃ col v,
          t.column_data[i]? = some col ∧ values[i]? = some v ∧
          t'.column_data[i]?
            = some { col with values := resize col.values t.num_rows none ++ [v] } ∧
          (col.values.length = t.num_rows →
            t'.column_data[i]? = some { col with values := col.values ++ [v] })) ∧
        (∀ i, t.columns.length ≤ i → t'.column_data[i]? = t.column_data[i]?)) := by
  unfold insert_row at h
  cases hf : find_table db name with
  | none => simp [hf] at h
  | some i =>
    obtain ⟨pre, t, post, hdb, hl, hpre, ht⟩ := find_table_split db name i hf
    subst hl
    simp only [hf] at h
    rw [hdb, get_first] at h
    simp only [] at h
    by_cases hlen : values.length = t.num_columns
    · rw [if_neg (by simpa using hlen)] at h
      by_cases hmode : db.column_store = 0
      · rw [if_pos hmode, set_first] at h
        have e : db' = { db with tables := pre ++ insert_row_major t values :: post } :=
          ((Prod.mk.inj (Option.some.inj h)).2).symm
        refine ⟨pre, t, insert_row_major t values, post, hdb, hpre, ht, e, rfl, rfl, rfl,
          fun _ => ⟨rfl, rfl, ?_⟩, fun hne => absurd hmode hne⟩
        intro hrows
        simp [insert_row_major, ← hrows, resize_self]
      · rw [if_neg hmode] at h
        cases hc : insert_column_major t values with
        | none => simp [hc] at h
        | some t' =>
          simp only [hc, Option.bind_eq_bind, Option.some_bind, Option.pure_def, set_first] at h
          have e : db' = { db with tables := pre ++ t' :: post } :=
            ((Prod.mk.inj (Option.some.inj h)).2).symm
          obtain ⟨h1, h2, h3, h4, h5, h6, h7⟩ := insert_column_major_shape t t' values hlen hc
          refine ⟨pre, t, t', post, hdb, hpre, ht, e, h1, h2, h3,
            fun h0 => absurd h0 hmode, fun _ => ⟨h4, h5, ?_, h7⟩⟩
          intro i hi
          obtain ⟨col, v, e1, e2, e3⟩ := h6 i hi
          refine ⟨col, v, e1, e2, e3, ?_⟩
          intro hv
          rw [e3, ← hv, resize_self]
    · rw [if_pos (by simpa using hlen)] at h
      simp at h

theorem row_line_mem (db : Database) (t : Table) (r : Row) (ht : t ∈ db.tables)
    (hr : r ∈ t.rows) : row_line r ∈ text_lines db := by
  unfold text_lines
  refine List.mem_cons_of_mem _ (List.mem_cons_of_mem _ ?_)
  rw [List.mem_flatten]
  refine ⟨text_table_lines t, List.mem_map.2 ⟨t, ht, rfl⟩, ?_⟩
  unfold text_table_lines
  refine List.mem_cons_of_mem _ (List.mem_append_right _ ?_)
  exact List.mem_map.2 ⟨r, hr, rfl⟩

theorem text_ok_of_limits (db : Database)
    (hheld : ∀ t ∈ db.tables, t.row_major_ok)
    (hnames : ∀ t ∈ db.tables, plain_name t.name ∧ ∀ c ∈ t.columns, plain_name c.name)
    (hdistinct : (db.tables.map (·.name)).Nodup)
    (hcells : ∀ t ∈ db.tables, ∀ r ∈ t.rows, ∀ v ∈ r.values, plain_cell v)
    (hlines : ∀ l ∈ text_lines db, l.length < 1023)
    (hrepr : db.representable) : text_ok db := by
  refine ⟨?_, hdistinct, hrepr.1⟩
  intro t ht
  obtain ⟨hc1, hc2, hn, hcn, hv⟩ := hrepr.2 t ht
  obtain ⟨hp, hpc⟩ := hnames t ht
  have hname : ∀ s : CStr, plain_name s → NUL ∉ s → name_ok s := by
    intro s h1 h2
    exact ⟨h1.1, h1.2.1, fun c hc => ⟨h1.2.2 c hc, fun e => h2 (e ▸ hc)⟩⟩
  refine ⟨hname _ hp hn, fun c hc => hname _ (hpc c hc) (hcn c hc), (hheld t ht).1, ?_, hc1, hc2⟩
  intro r hr
  refine ⟨(hheld t ht).2 r hr, ?_, ?_⟩
  · intro v hv'
    have h1 := hcells t ht r hr v hv'
    have h2 := hv r hr v hv'
    cases v with
    | none => exact h1
    | some s =>
      intro c hc
      exact ⟨fun e => h1.1 (e ▸ hc), fun e => h1.2 (e ▸ hc), fun e => h2 (e ▸ hc)⟩
  · have := hlines _ (row_line_mem db t r ht hr)
    omega

/-- C32, as amended: for a database in text mode whose tables are held row-major, whose
table and column names are not empty, at most 63 bytes long and free of white
space, whose table names are pairwise distinct, whose cells are texts without
tab and newline, and of which `save_database` writes only lines shorter than
1023 bytes (the counts fitting an `int` and the strings being C strings),
`save_database` succeeds, and `load_database` of the bytes written, run with
the row-major layout active on any database whose prior content can be
released, returns 1 and yields the same table names, column names and types,
row counts and rows, in the same order. -/
theorem text_round_trip_limits (db : Database)
    (hheld : ∀ t ∈ db.tables, t.row_major_ok)
    (hnames : ∀ t ∈ db.tables, plain_name t.name ∧ ∀ c ∈ t.columns, plain_name c.name)
    (hdistinct : (db.tables.map (·.name)).Nodup)
    (hcells : ∀ t ∈ db.tables, ∀ r ∈ t.rows, ∀ v ∈ r.values, plain_cell v)
    (hlines : ∀ l ∈ text_lines db, l.length < 1023)
    (hrepr : db.representable) (hfmt : db.binary_mode = 0) :
    ∃ bytes, save_database db true = some ⟨1, some bytes⟩ ∧
      ∀ prior : Database, prior.column_store = 0 → prior.releasable →
        ∃ db', load_database prior (some bytes) = some ⟨1, db'⟩ ∧
          db'.tables.map (·.name) = db.tables.map (·.name) ∧
          db'.tables.map (·.columns) = db.tables.map (·.columns) ∧
          db'.tables.map (·.num_rows) = db.tables.map (·.num_rows) ∧
          db'.tables.map (·.rows) = db.tables.map (·.rows) := by
  have hok := text_ok_of_limits db hheld hnames hdistinct hcells hlines hrepr
  refine ⟨database_text db, (saved_text_reloads db ⟨[], 0, 0⟩ hok hfmt rfl
    (releasable_empty _ _)).1, ?_⟩
  intro prior hlayout hfree
  refine ⟨_, (saved_text_reloads db prior hok hfmt hlayout hfree).2, ?_, ?_, ?_, ?_⟩
  · simp only [List.map_map]
    apply List.map_congr_left
    intro t ht
    exact List.take_of_length_le (hok.1 t ht).1.2.1
  · simp [List.map_map, Function.comp_def, reloaded, new_table]
  · simp [List.map_map, Function.comp_def, reloaded]
  · simp [List.map_map, Function.comp_def, reloaded]

theorem text_round_trip_limits_witness :
    save_database two_row_db true = some ⟨1, some
      "MINIQLITE 1\nTABLE_COUNT 1\nTABLE t 2 2\nCOLUMN id INT\nCOLUMN name TEXT\nROW\t1\ta\nROW\t2\tb\n".toList⟩ ∧
    load_database sample_db (some
      "MINIQLITE 1\nTABLE_COUNT 1\nTABLE t 2 2\nCOLUMN id INT\nCOLUMN name TEXT\nROW\t1\ta\nROW\t2\tb\n".toList)
      = some ⟨1, two_row_db⟩ ∧
    ∃ bytes, save_database two_row_db true = some ⟨1, some bytes⟩ ∧
      ∀ prior : Database, prior.column_store = 0 → prior.releasable →
        ∃ db', load_database prior (some bytes) = some ⟨1, db'⟩ ∧
          db'.tables.map (·.name) = two_row_db.tables.map (·.name) ∧
          db'.tables.map (·.columns) = two_row_db.tables.map (·.columns) ∧
          db'.tables.map (·.num_rows) = two_row_db.tables.map (·.num_rows) ∧
          db'.tables.map (·.rows) = two_row_db.tables.map (·.rows) :=
  ⟨by decide, by decide,
    text_round_trip_limits two_row_db (by decide) (by decide) (by decide) (by decide)
      (by decide) (by decide) (by decide)⟩

/-- C32, counterexample: the database left by `create_table` and an
`insert_row` of a `NULL` value meets every condition of the claim (row-major,
plain names, no tab or newline in a cell, short lines); `save_database` writes
the `NULL` cell as the empty text, and `load_database` of the bytes written
returns 1 with the empty string in its place, which `select_all` prints as an
empty field where the saved database prints `NULL`. -/
theorem text_round_trip_limits_counterexample :
    run_ops empty_db [.create "t".toList [⟨"id".toList, .COL_INT⟩], .insert "t".toList [none]]
      = some null_cell_db ∧
    (∀ t ∈ null_cell_db.tables, t.row_major_ok) ∧
    (∀ t ∈ null_cell_db.tables, plain_name t.name ∧ ∀ c ∈ t.columns, plain_name c.name) ∧
    (∀ t ∈ null_cell_db.tables, ∀ r ∈ t.rows, ∀ v ∈ r.values,
      '\t' ∉ cell_text v ∧ '\n' ∉ cell_text v) ∧
    (∀ l ∈ text_lines null_cell_db, l.length < 1023) ∧
    save_database null_cell_db true = some ⟨1, some
      "MINIQLITE 1\nTABLE_COUNT 1\nTABLE t 1 1\nCOLUMN id INT\nROW\t\n".toList⟩ ∧
    load_database empty_db (some
      "MINIQLITE 1\nTABLE_COUNT 1\nTABLE t 1 1\nCOLUMN id INT\nROW\t\n".toList)
      = some ⟨1, empty_cell_db⟩ ∧
    empty_cell_db.tables.map (·.rows) ≠ null_cell_db.tables.map (·.rows) ∧
    select_all null_cell_db "t".toList = some ⟨some 1, "id\nNULL\n".toList⟩ ∧
    select_all empty_cell_db "t".toList = some ⟨some 1, "id\n\n".toList⟩ := by
  decide

theorem insert_row_frame_witness :
    insert_row sample_db "t".toList [some "2".toList, some "b".toList]
      = some (1, two_row_db) ∧
    ∃ pre t t' post, sample_db.tables = pre ++ t :: post ∧
      (∀ u ∈ pre, u.name ≠ "t".toList) ∧ t.name = "t".toList ∧
      two_row_db = { sample_db with tables := pre ++ t' :: post } ∧
      t'.name = t.name ∧ t'.columns = t.columns ∧ t'.num_rows = t.num_rows + 1 ∧
      (sample_db.column_store = 0 →
        t'.column_data = t.column_data ∧
        t'.rows = resize t.rows t.num_rows garbage_row
          ++ [⟨[some "2".toList, some "b".toList]⟩] ∧
        (t.rows.length = t.num_rows →
          t'.rows = t.rows ++ [⟨[some "2".toList, some "b".toList]⟩])) ∧
      (sample_db.column_store ≠ 0 →
        t'.rows = t.rows ∧ t'.column_data.length = t.column_data.length ∧
        (∀ i, i < t.columns.length → ∃ col v,
          t.column_data[i]? = some col ∧
          [some "2".toList, some "b".toList][i]? = some v ∧
          t'.column_data[i]?
            = some { col with values := resize col.values t.num_rows none ++ [v] } ∧
          (col.values.length = t.num_rows →
            t'.column_data[i]? = some { col with values := col.values ++ [v] })) ∧
        (∀ i, t.columns.length ≤ i → t'.column_data[i]? = t.column_data[i]?)) :=
  ⟨by decide,
    insert_row_frame sample_db two_row_db "t".toList [some "2".toList, some "b".toList]
      (by decide)⟩


end MiniSQL
